import Mathlib

/-! # Key-info merging, login trees and kit application of the login core

A shallow embedding of `mergeKeyInfos`, `makeKeyInfo`, `makeStorageKeyInfo`,
`makeKeysKit` and `fixWalletInfo` (`core/login/keys.js`), of `searchTree`,
`updateTree`, `makeLoginTree`, `sanitizeLoginStash`, `applyLoginReply`,
`makeAuthJson`, `applyKit` and `syncLogin` (`modules/login/login.js`), of
`makeCreateKit` and `createLogin` (`modules/login/create.js`), of the password
functions and the older `mergeKeyInfos` (`login/password.js`,
`login/login.js`) and of `getMaxSpendable`
(`modules/currencyWallets/api.js`), with the properties of the login
specification proved about them.

Modelling conventions:

* A JavaScript object used as a string-keyed table is an association list in
  insertion order; reading a property returns the first binding, writing a
  property overwrites the existing binding in place or appends a new one.
  The key map of a key info is a plain object (an object literal or the
  result of `JSON.parse`): the read `old.keys[key]` of the conflict check of
  `mergeKeyInfos` returns the own value, or else what `Object.prototype`
  holds under the name, and a value stored under a key name may be `null`.
* A `throw` is a value `Except.error`.
* Binary values are lists of byte values.
* Promises are sequential composition over an explicit world state (server
  state, stored stash and a trace of the effects performed so far).
* Encryption, digests, base64, base16, UTF-8 and JSON are the fields of a
  `Codec`, about which a theorem assumes only what it states.
-/

namespace EdgeCore

/-! ## JavaScript objects as association lists -/

/-- Values stored under a key name of a `KeyInfo`: `null`, strings, and the
numbers that the legacy defaults table adds (`coinType`). -/
inductive JVal where
  | null
  | str (s : String)
  | num (n : Int)
  deriving DecidableEq, Repr

/-- Property read `obj[key]`: the first binding of `key`, `none` for `undefined`. -/
def objGet {V : Type} : List (String × V) → String → Option V
  | [], _ => none
  | (k, v) :: rest, key => if k = key then some v else objGet rest key

/-- Property write `obj[key] = value`: overwrite in place, or append. -/
def objSet {V : Type} : List (String × V) → String → V → List (String × V)
  | [], key, value => [(key, value)]
  | (k, v) :: rest, key, value =>
    if k = key then (k, value) :: rest else (k, v) :: objSet rest key value

/-- The own property names of an object, `Object.keys(obj)`. -/
def objKeys {V : Type} (obj : List (String × V)) : List String :=
  obj.map Prod.fst

/-- Copying one own property `key` of `source` onto `acc`. -/
def spreadStep {V : Type} (source : List (String × V)) (acc : List (String × V)) (key : String) :
    List (String × V) :=
  match objGet source key with
  | some value => objSet acc key value
  | none => acc

/-- Object spread `{ ...target, ...source }`: every own property of `source`
is written onto a copy of `target`. -/
def objSpread {V : Type} (target source : List (String × V)) : List (String × V) :=
  (objKeys source).foldl (spreadStep source) target

/-! ## Key infos -/

/-- Binary data. -/
abbrev Bytes := List Nat

/-- A wallet info `{ id, type, keys }`; `id` may be `null`. -/
structure KeyInfo where
  id : Option String
  type : String
  keys : List (String × JVal)
  deriving DecidableEq, Repr

/-- The ways `mergeKeyInfos` can throw. -/
inductive MergeError where
  /-- `Key integrity violation: invalid id`. -/
  | invalidId (id : Option String)
  /-- `base64.parse` rejected the id string. -/
  | base64Syntax (id : String)
  /-- `Key integrity violation for id: type does not match`. -/
  | typeMismatch (id : String) (type oldType : String)
  /-- `Key integrity violation for id: keys do not match`. -/
  | keysMismatch (id : String) (key : String)
  /-- Reading a property of `undefined` (an index of `ids` outside `out`). -/
  | typeError
  deriving DecidableEq, Repr

/-- The two locals of `mergeKeyInfos`: the output array and the table from
ids to output array indexes. -/
structure MergeState where
  out : List KeyInfo
  ids : List (String × Nat)
  deriving DecidableEq, Repr

/-- The property names that a plain object inherits from `Object.prototype`. -/
def objectPrototypeNames : List String :=
  ["constructor", "hasOwnProperty", "isPrototypeOf", "propertyIsEnumerable",
    "toLocaleString", "toString", "valueOf", "__defineGetter__", "__defineSetter__",
    "__lookupGetter__", "__lookupSetter__", "__proto__"]

/-- The test `old.keys[key] != null && old.keys[key] !== keys[key]` of the
conflict loop. The read `old.keys[key]` finds the own value when there is one,
and a stored `null` passes the test. Without an own value, the read goes to
`Object.prototype`: under one of its names it finds a function (or, under
`__proto__`, the prototype itself), which is not null and is identical to no
key value; under any other name it finds `undefined`. -/
def keyConflict (oldKeys keys : List (String × JVal)) (key : String) : Bool :=
  match objGet oldKeys key with
  | some .null => false
  | some old => decide (some old ≠ objGet keys key)
  | none => decide (key ∈ objectPrototypeNames)

/-- The conflict loop `for (const key of Object.keys(keys))`: the first key
name that fails the test. -/
def findKeyConflict (oldKeys keys : List (String × JVal)) : List String → Option String
  | [] => none
  | key :: rest =>
    if keyConflict oldKeys keys key then some key else findKeyConflict oldKeys keys rest

/-- One iteration of the `for (const keyInfo of keyInfos)` loop of
`mergeKeyInfos`. `parseLen id` is `base64.parse(id).length`, `none` when
`base64.parse` throws. The table `ids` is read only under an id that has
passed the length check, a 44-character base64 text and so no property name
of `Object.prototype`: the read finds what the loop has written and nothing
else. -/
def mergeStep (parseLen : String → Option Nat) (st : MergeState) (keyInfo : KeyInfo) :
    Except MergeError MergeState :=
  match keyInfo.id with
  | none => .error (.invalidId none)
  | some id =>
    match parseLen id with
    | none => .error (.base64Syntax id)
    | some len =>
      if len ≠ 32 then .error (.invalidId (some id))
      else
        match objGet st.ids id with
        | some index =>
          -- We have already seen this id, so check for conflicts:
          match st.out[index]? with
          | none => .error .typeError
          | some old =>
            if old.type ≠ keyInfo.type then
              .error (.typeMismatch id keyInfo.type old.type)
            else
              match findKeyConflict old.keys keyInfo.keys (objKeys keyInfo.keys) with
              | some key => .error (.keysMismatch id key)
              | none =>
                -- Do the update:
                .ok { out := st.out.set index
                        { id := some id, type := keyInfo.type,
                          keys := objSpread old.keys keyInfo.keys }
                      ids := st.ids }
        | none =>
          -- We haven't seen this id, so insert it:
          .ok { out := st.out ++ [keyInfo], ids := objSet st.ids id st.out.length }

/-- The loop of `mergeKeyInfos` from a given state. -/
def mergeLoop (parseLen : String → Option Nat) :
    MergeState → List KeyInfo → Except MergeError MergeState
  | st, [] => .ok st
  | st, keyInfo :: rest =>
    match mergeStep parseLen st keyInfo with
    | .error e => .error e
    | .ok st' => mergeLoop parseLen st' rest

/-- Flattens an array of key structures, removing duplicates
(`mergeKeyInfos`, `core/login/keys.js`). -/
def mergeKeyInfos (parseLen : String → Option Nat) (keyInfos : List KeyInfo) :
    Except MergeError (List KeyInfo) :=
  match mergeLoop parseLen { out := [], ids := [] } keyInfos with
  | .error e => .error e
  | .ok st => .ok st.out

/-! ## Login trees (`modules/login/login.js`) -/

/-- A node of a login tree or of a stash tree: the node's own fields and its
`children` array. A missing `children` field is the empty array: every
function below reads it through `node.children != null ? ... : []`,
`elvis(node.children, [])` or `softCat`. -/
inductive TreeNode (α : Type) where
  | node (data : α) (children : List (TreeNode α))
  deriving Repr

/-- The fields of a node other than `children`. -/
def TreeNode.data {α : Type} : TreeNode α → α
  | .node data _ => data

/-- The `children` array of a node. -/
def TreeNode.children {α : Type} : TreeNode α → List (TreeNode α)
  | .node _ children => children

/-- Modelled from the spec: an encrypted box, "an authenticated-encryption
ciphertext blob"; `util/crypto/crypto.js` is not part of the sources. -/
structure Box where
  payload : Bytes
  deriving DecidableEq, Repr

/-- Modelled from the spec: the "stored salt/parameter record" of the password
hash (`passwordKeySnrp`); its declaration is not part of the sources. -/
structure Snrp where
  salt_hex : String
  n : Nat
  r : Nat
  p : Nat
  deriving DecidableEq, Repr

/-- The fields of a `LoginTree` node other than `children`. Every field may be
missing: the nodes that `makeLoginTree` clones outside the target carry only
`username`, `appId` and `loginId`, and a kit's `login` part is a partial
node. -/
structure LoginData where
  username : Option String := none
  appId : Option String := none
  loginId : Option String := none
  loginKey : Option Bytes := none
  userId : Option String := none
  loginAuth : Option Bytes := none
  passwordAuth : Option Bytes := none
  pin2Key : Option Bytes := none
  recovery2Key : Option Bytes := none
  keyInfos : Option (List KeyInfo) := none
  deriving DecidableEq, Repr

/-- The fields of a `LoginStash` node other than `children`. -/
structure StashData where
  username : Option String := none
  appId : Option String := none
  loginId : Option String := none
  userId : Option String := none
  loginAuthBox : Option Box := none
  parentBox : Option Box := none
  passwordAuthBox : Option Box := none
  passwordBox : Option Box := none
  passwordKeySnrp : Option Snrp := none
  pin2Key : Option String := none
  recovery2Key : Option String := none
  mnemonicBox : Option Box := none
  menemonicBox : Option Box := none
  rootKeyBox : Option Box := none
  syncKeyBox : Option Box := none
  keyBoxes : Option (List Box) := none
  deriving DecidableEq, Repr

/-- The spread `{ ...login, ...patch }` on the fields of a login node: a field
of the patch replaces the field of the node. -/
def LoginData.assign (login patch : LoginData) : LoginData :=
  { username := patch.username <|> login.username
    appId := patch.appId <|> login.appId
    loginId := patch.loginId <|> login.loginId
    loginKey := patch.loginKey <|> login.loginKey
    userId := patch.userId <|> login.userId
    loginAuth := patch.loginAuth <|> login.loginAuth
    passwordAuth := patch.passwordAuth <|> login.passwordAuth
    pin2Key := patch.pin2Key <|> login.pin2Key
    recovery2Key := patch.recovery2Key <|> login.recovery2Key
    keyInfos := patch.keyInfos <|> login.keyInfos }

/-- The spread `{ ...stash, ...patch }` on the fields of a stash node. -/
def StashData.assign (stash patch : StashData) : StashData :=
  { username := patch.username <|> stash.username
    appId := patch.appId <|> stash.appId
    loginId := patch.loginId <|> stash.loginId
    userId := patch.userId <|> stash.userId
    loginAuthBox := patch.loginAuthBox <|> stash.loginAuthBox
    parentBox := patch.parentBox <|> stash.parentBox
    passwordAuthBox := patch.passwordAuthBox <|> stash.passwordAuthBox
    passwordBox := patch.passwordBox <|> stash.passwordBox
    passwordKeySnrp := patch.passwordKeySnrp <|> stash.passwordKeySnrp
    pin2Key := patch.pin2Key <|> stash.pin2Key
    recovery2Key := patch.recovery2Key <|> stash.recovery2Key
    mnemonicBox := patch.mnemonicBox <|> stash.mnemonicBox
    menemonicBox := patch.menemonicBox <|> stash.menemonicBox
    rootKeyBox := patch.rootKeyBox <|> stash.rootKeyBox
    syncKeyBox := patch.syncKeyBox <|> stash.syncKeyBox
    keyBoxes := patch.keyBoxes <|> stash.keyBoxes }

/-- Modelled from the spec: `softCat` of `util/util.js` (not part of the
sources), which the spec describes as "concatenate `kit.login.children` (if
any) onto existing children": the concatenation of the lists that are not
null. -/
def softCat {α : Type} (lists : List (Option (List α))) : List α :=
  (lists.filterMap (fun list => list)).flatten

mutual
/-- Returns the login that satisfies the given predicate, or `none`
(`undefined`) if nothing matches (`searchTree`). -/
def searchTree {α : Type} (predicate : TreeNode α → Bool) : TreeNode α → Option (TreeNode α)
  | .node data children =>
    if predicate (.node data children) then some (.node data children)
    else searchTreeList predicate children
/-- The `for (const child of node.children)` loop of `searchTree`. -/
def searchTreeList {α : Type} (predicate : TreeNode α → Bool) :
    List (TreeNode α) → Option (TreeNode α)
  | [] => none
  | child :: rest =>
    match searchTree predicate child with
    | some out => some out
    | none => searchTreeList predicate rest
end

/-- The default `clone` callback of `updateTree`: `{ ...node, children }`. -/
def cloneNode {α : Type} (node : TreeNode α) (children : List (TreeNode α)) : TreeNode α :=
  .node node.data children

mutual
/-- Replaces a node within a tree (`updateTree`). The `clone` callback is
called for each unmodified node, the `predicate` callback is used to find the
target node, the `update` callback is called on the target and may throw. -/
def updateTree {α β ε : Type} (predicate : TreeNode α → Bool)
    (update : TreeNode α → Except ε (TreeNode β))
    (clone : TreeNode α → List (TreeNode β) → TreeNode β) : TreeNode α → Except ε (TreeNode β)
  | .node data children =>
    if predicate (.node data children) then update (.node data children)
    else
      match updateTreeList predicate update clone children with
      | .error e => .error e
      | .ok children' => .ok (clone (.node data children) children')
/-- The `node.children.map(child => updateTree(child, ...))` of `updateTree`. -/
def updateTreeList {α β ε : Type} (predicate : TreeNode α → Bool)
    (update : TreeNode α → Except ε (TreeNode β))
    (clone : TreeNode α → List (TreeNode β) → TreeNode β) :
    List (TreeNode α) → Except ε (List (TreeNode β))
  | [] => .ok []
  | child :: rest =>
    match updateTree predicate update clone child with
    | .error e => .error e
    | .ok child' =>
      match updateTreeList predicate update clone rest with
      | .error e => .error e
      | .ok rest' => .ok (child' :: rest')
end

/-- The login v2 server authorization JSON built by `makeAuthJson`. -/
inductive AuthJson where
  | byLoginAuth (loginId : Option String) (loginAuth : String)
  | byPasswordAuth (userId : Option String) (passwordAuth : String)
  deriving DecidableEq, Repr

/-- The ways `applyKit` can fail. -/
inductive ApplyError where
  /-- `Cannot apply kit: missing login`. -/
  | missingLogin
  /-- `No server authentication methods available`. -/
  | noAuthMethods
  /-- The login store rejected `load`. -/
  | loadFailed (message : String)
  /-- The auth server request failed. -/
  | requestFailed (message : String)
  /-- The update of the login tree threw inside `mergeKeyInfos`. -/
  | merge (e : MergeError)
  /-- The login store rejected `save`. -/
  | saveFailed (message : String)
  deriving DecidableEq, Repr

/-- Sets up a login v2 server authorization JSON (`makeAuthJson`);
`stringify` is `base64.stringify`. -/
def makeAuthJson (stringify : Bytes → String) (login : LoginData) : Except ApplyError AuthJson :=
  match login.loginAuth with
  | some loginAuth => .ok (.byLoginAuth login.loginId (stringify loginAuth))
  | none =>
    match login.passwordAuth with
    | some passwordAuth => .ok (.byPasswordAuth login.userId (stringify passwordAuth))
    | none => .error .noAuthMethods

/-- A partial node: the `login` or the `stash` part of a kit. -/
structure KitPart (α : Type) where
  fields : α
  children : Option (List (TreeNode α)) := none

/-- A login kit; `P` is the type of the `server` payload, posted as it is. -/
structure LoginKit (P : Type) where
  serverPath : String
  server : P
  stash : KitPart StashData
  login : KitPart LoginData
  loginId : String

/-- The body of an authenticated request: the authorization JSON with the
kit's payload under `data`. -/
structure AuthRequest (P : Type) where
  auth : AuthJson
  data : P

/-- The effects `applyKit` performs on its collaborators, in order. -/
inductive Effect (P : Type) where
  | load (username : Option String)
  | request (method path : String) (body : AuthRequest P)
  | save (stashTree : TreeNode StashData)

/-- Modelled from the spec: the collaborators of the kit application protocol,
which the spec treats as external and whose code (`authServer.js`,
`loginStore.js`, `util/encoding.js`) is not part of the sources. `S` is the
state of the auth server and `D` the state of the stash storage; a failed
promise is an `Except.error`. -/
structure LoginEnv (S D P : Type) where
  /-- The byte length of `base64.parse(id)`, `none` when it throws. -/
  parseLen : String → Option Nat
  /-- The text of `base64.stringify(data)`. -/
  stringify : Bytes → String
  /-- The stash stored for a username, `loginStore.load(username)`. -/
  load : D → Option String → Except String (TreeNode StashData)
  /-- The storage after writing a stash, `loginStore.save(stashTree)`. -/
  save : D → TreeNode StashData → Except String D
  /-- The reply to a request and the next state of the server,
  `authRequest(ai, method, path, body)`. -/
  authRequest : S → String → String → AuthRequest P → Except String Unit × S

/-- The state outside `applyKit`: the auth server, the stash storage and the
effects performed so far. -/
structure World (S D P : Type) where
  server : S
  store : D
  trace : List (Effect P)

/-- The predicate `login => login.loginId === loginId` of `applyKit`. -/
def hasLoginId (loginId : String) (login : TreeNode LoginData) : Bool :=
  login.data.loginId == some loginId

/-- The predicate `stash => stash.loginId === loginId` of `applyKit`. -/
def stashHasLoginId (loginId : String) (stash : TreeNode StashData) : Bool :=
  stash.data.loginId == some loginId

/-- The `update` callback that `applyKit` passes for the login tree. -/
def applyKitLogin {P : Type} (parseLen : String → Option Nat) (kit : LoginKit P)
    (login : TreeNode LoginData) : Except ApplyError (TreeNode LoginData) :=
  match mergeKeyInfos parseLen (softCat [login.data.keyInfos, kit.login.fields.keyInfos]) with
  | .error e => .error (.merge e)
  | .ok keyInfos =>
    .ok (.node { login.data.assign kit.login.fields with keyInfos := some keyInfos }
      (softCat [some login.children, kit.login.children]))

/-- The `update` callback that `applyKit` passes for the stash tree. -/
def applyKitStash {P : Type} (kit : LoginKit P) (stash : TreeNode StashData) :
    Except Empty (TreeNode StashData) :=
  .ok (.node
    { stash.data.assign kit.stash.fields with
      keyBoxes := some (softCat [stash.data.keyBoxes, kit.stash.fields.keyBoxes]) }
    (softCat [some stash.children, kit.stash.children]))

/-- Changing a login involves updating the server, the in-memory login, and
the on-disk stash. A login kit contains all three elements, and this function
knows how to apply them all (`applyKit`). The result is the value of the
promise, or the error it throws or rejects with, and the world afterwards. -/
def applyKit {S D P : Type} (env : LoginEnv S D P) (w : World S D P)
    (loginTree : TreeNode LoginData) (kit : LoginKit P) :
    Except ApplyError (TreeNode LoginData) × World S D P :=
  match searchTree (hasLoginId kit.loginId) loginTree with
  | none => (.error .missingLogin, w)
  | some login =>
    let w1 : World S D P := { w with trace := w.trace ++ [.load loginTree.data.username] }
    match env.load w.store loginTree.data.username with
    | .error message => (.error (.loadFailed message), w1)
    | .ok stashTree =>
      match makeAuthJson env.stringify login.data with
      | .error e => (.error e, w1)
      | .ok auth =>
        let request : AuthRequest P := { auth := auth, data := kit.server }
        let posted := env.authRequest w.server "POST" kit.serverPath request
        let w2 : World S D P :=
          { w1 with server := posted.2
                    trace := w1.trace ++ [.request "POST" kit.serverPath request] }
        match posted.1 with
        | .error message => (.error (.requestFailed message), w2)
        | .ok _ =>
          match updateTree (hasLoginId kit.loginId) (applyKitLogin env.parseLen kit) cloneNode
              loginTree with
          | .error e => (.error e, w2)
          | .ok newLoginTree =>
            match updateTree (stashHasLoginId kit.loginId) (applyKitStash kit) cloneNode
                stashTree with
            | .error e => nomatch e
            | .ok newStashTree =>
              let w3 : World S D P := { w2 with trace := w2.trace ++ [.save newStashTree] }
              match env.save w.store newStashTree with
              | .error message => (.error (.saveFailed message), w3)
              | .ok store => (.ok newLoginTree, { w3 with store := store })

/-! ## Specification vocabulary for the merge -/

/-- The id of a record is a string that base64-decodes to exactly 32 bytes. -/
def validId (parseLen : String → Option Nat) (r : KeyInfo) : Bool :=
  match r.id with
  | none => false
  | some id => parseLen id == some 32

/-- A record `b` that comes after a record `a` passes the checks against it:
if they share an id they share a type, and under every key name present in
both, `a` holds null or the value that `b` holds. -/
def Follows (a b : KeyInfo) : Prop :=
  a.id = b.id →
    a.type = b.type ∧
      ∀ k v w, objGet a.keys k = some v → objGet b.keys k = some w → v = .null ∨ v = w

/-- Two records do not conflict: if they share an id they share a type and
give equal values to every key name present in both. -/
def Compatible (a b : KeyInfo) : Prop :=
  a.id = b.id →
    a.type = b.type ∧ ∀ k v w, objGet a.keys k = some v → objGet b.keys k = some w → v = w

/-- The distinct elements of a list in the order of their first occurrence. -/
def firstOccurrences : List (Option String) → List (Option String)
  | [] => []
  | a :: rest => a :: (firstOccurrences rest).filter (fun b => decide (b ≠ a))

/-- An error raised by one of the three `Key integrity violation` throws. -/
def MergeError.isIntegrityViolation : MergeError → Bool
  | .invalidId _ => true
  | .typeMismatch _ _ _ => true
  | .keysMismatch _ _ => true
  | .base64Syntax _ => false
  | .typeError => false

/-- The index table `ids` and the array `out` describe each other. -/
def TableOK (st : MergeState) : Prop :=
  (∀ id n, objGet st.ids id = some n → ∃ o, st.out[n]? = some o ∧ o.id = some id) ∧
  (∀ n o, st.out[n]? = some o → ∃ id, o.id = some id ∧ objGet st.ids id = some n)

/-- The loop invariant of `mergeKeyInfos` after the records `pre`. -/
structure MergeInv (parseLen : String → Option Nat) (pre : List KeyInfo) (st : MergeState) :
    Prop where
  table : TableOK st
  order : st.out.map (fun o => o.id) = firstOccurrences (pre.map (fun r => r.id))
  valid : ∀ r ∈ pre, validId parseLen r = true
  covers : ∀ r ∈ pre, ∃ o ∈ st.out, o.id = r.id ∧ o.type = r.type ∧
    ∀ k v, objGet r.keys k = some v →
      (∃ w, objGet o.keys k = some w) ∧ (v ≠ .null → objGet o.keys k = some v)
  origin : ∀ o ∈ st.out, (∃ r ∈ pre, r.id = o.id ∧ r.type = o.type) ∧
    ∀ k v, objGet o.keys k = some v → ∃ r ∈ pre, r.id = o.id ∧ objGet r.keys k = some v
  follows : pre.Pairwise Follows
  rebuilds : ∀ out2 : List KeyInfo, out2.map (fun o => o.id) = st.out.map (fun o => o.id) →
    mergeLoop parseLen { out := [], ids := [] } out2 = .ok { out := out2, ids := st.ids }

/-- Records denote the same key info: equal id, equal type and equal key map
(the same value, or none, under every key name). -/
def SameRecord (a b : KeyInfo) : Prop :=
  a.id = b.id ∧ a.type = b.type ∧ ∀ k, objGet a.keys k = objGet b.keys k

/-! ## Specification vocabulary for trees -/

/-- The node reached from a node by a path of child indexes. -/
def TreeNode.subtreeAt {α : Type} : TreeNode α → List Nat → Option (TreeNode α)
  | t, [] => some t
  | .node _ children, i :: rest =>
    match children[i]? with
    | none => none
    | some child => child.subtreeAt rest

/-- The tree with the node at a path replaced by another node, every other
node keeping its fields and its place. -/
def TreeNode.replaceAt {α : Type} : TreeNode α → List Nat → TreeNode α → TreeNode α
  | _, [], new => new
  | .node data children, i :: rest, new =>
    match children[i]? with
    | none => .node data children
    | some child => .node data (children.set i (child.replaceAt rest new))

/-! ## Worked examples: a base64 length function and sample records -/

/-- A character of the standard base64 alphabet. -/
def isBase64Char (c : Char) : Bool :=
  c.isAlphanum || c = '+' || c = '/'

/-- The byte length of the decoding of a padded standard base64 string,
`none` for a string that is not one. It instantiates the `parseLen` parameter
of `mergeKeyInfos` in the examples. -/
def base64Length (s : String) : Option Nat :=
  let cs := s.toList
  let body := (cs.reverse.dropWhile (fun c => c = '=')).reverse
  let pad := cs.length - body.length
  if cs.length % 4 ≠ 0 then none
  else if 2 < pad then none
  else if body.all isBase64Char then some (cs.length / 4 * 3 - pad)
  else none

/-- The base64 text of 32 zero bytes. -/
def idZero : String := "AAAAAAAAAAAAAAAAAAAAAAAAAAAAAAAAAAAAAAAAAAA="

/-- The base64 text of 31 zero bytes followed by a byte 1. -/
def idOne : String := "AAAAAAAAAAAAAAAAAAAAAAAAAAAAAAAAAAAAAAAAAAE="

/-- A wallet record holding a data key. -/
def walletData : KeyInfo :=
  { id := some idZero, type := "wallet:bitcoin", keys := [("dataKey", .str "d0")] }

/-- The same wallet, holding a sync key. -/
def walletSync : KeyInfo :=
  { id := some idZero, type := "wallet:bitcoin", keys := [("syncKey", .str "s0")] }

/-- The union of `walletData` and `walletSync`. -/
def walletBoth : KeyInfo :=
  { id := some idZero, type := "wallet:bitcoin",
    keys := [("dataKey", .str "d0"), ("syncKey", .str "s0")] }

/-- The same id with a different data key. -/
def walletForged : KeyInfo :=
  { id := some idZero, type := "wallet:bitcoin", keys := [("dataKey", .str "d1")] }

/-- A second wallet. -/
def walletOther : KeyInfo :=
  { id := some idOne, type := "wallet:ethereum", keys := [("ethereumKey", .str "e0")] }

/-- A record whose id is too short. -/
def walletShortId : KeyInfo :=
  { id := some "AAAA", type := "wallet:bitcoin", keys := [] }

/-- A record whose id is not base64 text. -/
def walletBadId : KeyInfo :=
  { id := some "!!!!", type := "wallet:bitcoin", keys := [] }

/-- The first wallet with a null data key. -/
def walletNull : KeyInfo :=
  { id := some idZero, type := "wallet:bitcoin", keys := [("dataKey", .null)] }

/-- The first wallet with a key named as a property of `Object.prototype`. -/
def walletConstructor : KeyInfo :=
  { id := some idZero, type := "wallet:bitcoin", keys := [("constructor", .str "c0")] }

/-! ## Worked examples: a simulated server, a login tree and two kits -/

/-- A simulated environment: the server keeps the payloads it accepted and
accepts a request or not as `accept` says; the storage holds at most one
stash. -/
def fakeEnv (accept : Bool) : LoginEnv (List Nat) (Option (TreeNode StashData)) Nat where
  parseLen := base64Length
  stringify := fun bytes => String.mk (bytes.map Char.ofNat)
  load := fun store _ =>
    match store with
    | some stashTree => .ok stashTree
    | none => .error "no stash"
  save := fun _ stashTree => .ok (some stashTree)
  authRequest := fun server _ _ body =>
    if accept then (.ok (), server ++ [body.data]) else (.error "rejected", server)

/-- A child login that holds `walletData`. -/
def childLogin : TreeNode LoginData :=
  .node { appId := some "app", loginId := some "child", loginKey := some [2],
          loginAuth := some [65], keyInfos := some [walletData] } []

/-- A root login with one child. -/
def rootLogin : TreeNode LoginData :=
  .node { username := some "alice", appId := some "", loginId := some "root",
          loginKey := some [1], userId := some "root", passwordAuth := some [66],
          keyInfos := some [] } [childLogin]

/-- The stash of `rootLogin`. -/
def rootStash : TreeNode StashData :=
  .node { username := some "alice", appId := some "", loginId := some "root",
          passwordAuthBox := some ⟨[7]⟩, keyBoxes := some [] }
    [.node { appId := some "app", loginId := some "child", loginAuthBox := some ⟨[8]⟩,
             parentBox := some ⟨[9]⟩, keyBoxes := some [⟨[10]⟩] } []]

/-- The world before the kits are applied. -/
def startWorld : World (List Nat) (Option (TreeNode StashData)) Nat :=
  { server := [], store := some rootStash, trace := [] }

/-- A kit that attaches the sync key of the wallet to the child login. -/
def syncKit : LoginKit Nat :=
  { serverPath := "/v2/login/keys", server := 11,
    stash := { fields := { keyBoxes := some [⟨[12]⟩] } },
    login := { fields := { keyInfos := some [walletSync] } },
    loginId := "child" }

/-- A kit whose key info conflicts with the wallet of the child login. -/
def forgedKit : LoginKit Nat :=
  { serverPath := "/v2/login/keys", server := 13,
    stash := { fields := { keyBoxes := some [⟨[14]⟩] } },
    login := { fields := { keyInfos := some [walletForged] } },
    loginId := "child" }

/-- A login to attach below the child login. -/
def grandchildLogin : TreeNode LoginData :=
  .node { appId := some "app.sub", loginId := some "grandchild", loginKey := some [3],
          loginAuth := some [67] } []

/-- A kit that gives the child login a PIN key and a user id, attaches a login
below it and brings the sync key of its wallet. -/
def pinKit : LoginKit Nat :=
  { serverPath := "/v2/login/pin2", server := 16,
    stash :=
      { fields := { pin2Key := some "BQ==", userId := some "child-user",
                    keyBoxes := some [⟨[12]⟩] },
        children := some [.node { appId := some "app.sub", loginId := some "grandchild",
                                  loginAuthBox := some ⟨[17]⟩, parentBox := some ⟨[18]⟩ } []] },
    login :=
      { fields := { pin2Key := some [5], userId := some "child-user",
                    keyInfos := some [walletSync] },
        children := some [grandchildLogin] },
    loginId := "child" }

/-- A kit for a login that is not in the tree. -/
def strayKit : LoginKit Nat :=
  { serverPath := "/v2/login/keys", server := 15,
    stash := { fields := {} },
    login := { fields := {} },
    loginId := "nobody" }

/-! ## Wallet infos and the legacy upgrade (`core/login/keys.js`) -/

/-- Modelled from the spec: the cryptographic and encoding collaborators,
which the spec treats as external ("Crypto Box", "Key encoding") and whose
code (`util/crypto/crypto.js`, `util/encoding.js`, `rfc4648`, `JSON`) is not
part of the sources. A function that can throw returns an `Except`. The
random bytes that `encrypt` draws are part of the function. -/
structure Codec where
  /-- The plaintext of a box under a key, `decrypt(box, key)`. -/
  decrypt : Box → Bytes → Except String Bytes
  /-- The box of a plaintext under a key, `encrypt(io, data, key)`. -/
  encrypt : Bytes → Bytes → Box
  /-- The keyed digest `hmacSha256(data, key)`. -/
  hmacSha256 : Bytes → Bytes → Bytes
  /-- The bytes of a base64 text, `base64.parse(text)`. -/
  base64Parse : String → Except String Bytes
  /-- The base64 text of bytes, `base64.stringify(data)`. -/
  base64Stringify : Bytes → String
  /-- The base16 text of bytes, `base16.stringify(data)`. -/
  base16Stringify : Bytes → String
  /-- The bytes of a text, `utf8.parse(text)`. -/
  utf8Parse : String → Bytes
  /-- The text of bytes, `utf8.stringify(data)`. -/
  utf8Stringify : Bytes → String
  /-- The key info that a JSON text denotes, `JSON.parse(text)`. -/
  jsonParse : String → Except String KeyInfo
  /-- The JSON text of a key info, `JSON.stringify(info)`. -/
  jsonStringify : KeyInfo → String

/-- The length of `base64.parse(id)`, as `mergeKeyInfos` reads it. -/
def Codec.parseLen (c : Codec) (id : String) : Option Nat :=
  match c.base64Parse id with
  | .ok data => some data.length
  | .error _ => none

/-- The type of the account repository of an application (`makeAccountType`). -/
def makeAccountType (appId : String) : String :=
  if appId = "" then "account-repo:co.airbitz.wallet" else "account-repo:" ++ appId

/-- Assembles the key metadata structure that is encrypted within a keyBox
(`makeKeyInfo`); `idKey` is used to derive the wallet id. -/
def makeKeyInfo (c : Codec) (type : String) (keys : List (String × JVal)) (idKey : Bytes) :
    KeyInfo :=
  { id := some (c.base64Stringify (c.hmacSha256 (c.utf8Parse type) idKey))
    type := type
    keys := keys }

/-- Makes keys for accessing an encrypted Git repo (`makeStorageKeyInfo`);
`random32` and `random20` are the values of `io.random(32)` and
`io.random(20)`. -/
def makeStorageKeyInfo (c : Codec) (random32 random20 : Bytes) (type : String)
    (keys : List (String × JVal)) : Except String KeyInfo :=
  let keys1 :=
    match objGet keys "dataKey" with
    | none => objSet keys "dataKey" (.str (c.base64Stringify random32))
    | some .null => objSet keys "dataKey" (.str (c.base64Stringify random32))
    | some _ => keys
  let keys2 :=
    match objGet keys1 "syncKey" with
    | none => objSet keys1 "syncKey" (.str (c.base64Stringify random20))
    | some .null => objSet keys1 "syncKey" (.str (c.base64Stringify random20))
    | some _ => keys1
  match (objGet keys2 "dataKey" : Option JVal) with
  | some (JVal.str dataKey) =>
    match c.base64Parse dataKey with
    | .ok idKey => .ok (makeKeyInfo c type keys2 idKey)
    | .error message => .error message
  | _ => .error "base64.parse: not a string"

/-- Wallet types we need to fix: the `defaults` table of `fixWalletInfo`. -/
def legacyDefaults : List (String × List (String × JVal)) :=
  [ -- BTC:
    ("wallet:bitcoin-bip44", [("format", .str "bip44"), ("coinType", .num 0)]),
    ("wallet:bitcoin-bip49", [("format", .str "bip49"), ("coinType", .num 0)]),
    -- BCH:
    ("wallet:bitcoincash-bip32", [("format", .str "bip32")]),
    ("wallet:bitcoincash-bip44", [("format", .str "bip44"), ("coinType", .num 145)]),
    -- BCH testnet:
    ("wallet:bitcoincash-bip44-testnet", [("format", .str "bip44"), ("coinType", .num 1)]),
    -- BTC testnet:
    ("wallet:bitcoin-bip44-testnet", [("format", .str "bip44"), ("coinType", .num 1)]),
    ("wallet:bitcoin-bip49-testnet", [("format", .str "bip49"), ("coinType", .num 1)]),
    -- DASH:
    ("wallet:dash-bip44", [("format", .str "bip44"), ("coinType", .num 5)]),
    -- DOGE:
    ("wallet:dogecoin-bip44", [("format", .str "bip44"), ("coinType", .num 3)]),
    -- LTC:
    ("wallet:litecoin-bip44", [("format", .str "bip44"), ("coinType", .num 2)]),
    ("wallet:litecoin-bip49", [("format", .str "bip49"), ("coinType", .num 2)]),
    -- FTC:
    ("wallet:feathercoin-bip49", [("format", .str "bip49"), ("coinType", .num 8)]),
    ("wallet:feathercoin-bip44", [("format", .str "bip44"), ("coinType", .num 8)]),
    -- QTUM:
    ("wallet:qtum-bip44", [("format", .str "bip44"), ("coinType", .num 2301)]),
    -- UFO:
    ("wallet:ufo-bip49", [("format", .str "bip49"), ("coinType", .num 202)]),
    ("wallet:ufo-bip84", [("format", .str "bip84"), ("coinType", .num 202)]),
    -- XZC:
    ("wallet:zcoin-bip44", [("format", .str "bip44"), ("coinType", .num 136)]),
    -- The plugin itself could handle these lines:
    ("wallet:bitcoin-testnet", [("format", .str "bip32")]),
    ("wallet:bitcoin", [("format", .str "bip32")]),
    ("wallet:bitcoincash-testnet", [("format", .str "bip32")]),
    ("wallet:litecoin", [("format", .str "bip32"), ("coinType", .num 2)]),
    ("wallet:zcoin", [("format", .str "bip32"), ("coinType", .num 136)]) ]

/-- A match of the pattern `-bip[0-9]+` at the start of a text: the text
after the match. -/
def matchBip (cs : List Char) : Option (List Char) :=
  if "-bip".toList.isPrefixOf cs then
    let after := cs.drop 4
    let rest := after.dropWhile Char.isDigit
    if rest.length < after.length then some rest else none
  else none

/-- The characters of a text with the first match of the pattern
`-bip[0-9]+` removed. -/
def removeBipChars : List Char → List Char
  | [] => []
  | c :: cs =>
    match matchBip (c :: cs) with
    | some rest => rest
    | none => c :: removeBipChars cs

/-- The replacement of `fixWalletInfo`: `type.replace` of the first match of
the pattern `-bip[0-9]+` by the empty text. -/
def removeBip (type : String) : String :=
  String.mk (removeBipChars type.toList)

/-- Upgrades legacy wallet info structures into the new format
(`fixWalletInfo`): the information in the wallet type moves into the keys. -/
def fixWalletInfo (walletInfo : KeyInfo) : KeyInfo :=
  match objGet legacyDefaults walletInfo.type with
  | some defaults =>
    { id := walletInfo.id
      keys := objSpread defaults walletInfo.keys
      type := removeBip walletInfo.type }
  | none => walletInfo

/-- A legacy bitcoin wallet that carries its own `format`. -/
def legacyWallet : KeyInfo :=
  { id := some idZero, type := "wallet:bitcoin-bip44",
    keys := [("dataKey", .str "d0"), ("format", .str "custom")] }

/-! ## Deriving login trees and applying server replies (`modules/login/login.js`) -/

/-- The ways `makeLoginTree`, `applyLoginReply` and `makeKeysKit` can throw. -/
inductive LoginError where
  /-- `No appId provided`. -/
  | noAppId
  /-- `No loginId provided`. -/
  | noLoginId
  /-- `No server authentication methods on login`. -/
  | noAuthMethods
  /-- `The server has lost children!`. -/
  | childrenLost
  /-- The error of `decrypt` on a box it cannot open. -/
  | decryptFailed (message : String)
  /-- Reading a box that is `undefined`, as `decrypt(child.parentBox, ...)` of
  a child without a `parentBox`. -/
  | missingBox
  /-- The error of `base64.parse`. -/
  | base64Syntax (message : String)
  /-- The error of `JSON.parse`. -/
  | jsonSyntax (message : String)
  /-- The error of `mergeKeyInfos`. -/
  | merge (e : MergeError)
  deriving DecidableEq, Repr

/-- The call `decrypt(box, loginKey)`. -/
def decryptBox (c : Codec) (box : Box) (loginKey : Bytes) : Except LoginError Bytes :=
  match c.decrypt box loginKey with
  | .ok data => .ok data
  | .error message => .error (.decryptFailed message)

/-- The guarded call `if (box != null) ... decrypt(box, loginKey)`. -/
def decryptOptional (c : Codec) (box : Option Box) (loginKey : Bytes) :
    Except LoginError (Option Bytes) :=
  match box with
  | none => .ok none
  | some box =>
    match decryptBox c box loginKey with
    | .ok data => .ok (some data)
    | .error e => .error e

/-- The guarded call `if (text != null) ... base64.parse(text)`. -/
def parseOptional (c : Codec) (text : Option String) : Except LoginError (Option Bytes) :=
  match text with
  | none => .ok none
  | some text =>
    match c.base64Parse text with
    | .ok data => .ok (some data)
    | .error message => .error (.base64Syntax message)

/-- The map `box => JSON.parse(utf8.stringify(decrypt(box, loginKey)))` over
the key boxes. -/
def decodeKeyBoxes (c : Codec) (loginKey : Bytes) : List Box → Except LoginError (List KeyInfo)
  | [] => .ok []
  | box :: rest =>
    match decryptBox c box loginKey with
    | .error e => .error e
    | .ok data =>
      match c.jsonParse (c.utf8Stringify data) with
      | .error message => .error (.jsonSyntax message)
      | .ok info =>
        match decodeKeyBoxes c loginKey rest with
        | .error e => .error e
        | .ok infos => .ok (info :: infos)

/-- The BitID wallet of `makeLoginTreeInner`, synthesised when the stash has
both a `menemonicBox` and a `rootKeyBox`. -/
def bitidKeys (c : Codec) (stash : StashData) (loginKey : Bytes) :
    Except LoginError (List KeyInfo) :=
  match stash.menemonicBox, stash.rootKeyBox with
  | some menemonicBox, some rootKeyBox =>
    match decryptBox c menemonicBox loginKey with
    | .error e => .error e
    | .ok mnemonic =>
      match decryptBox c rootKeyBox loginKey with
      | .error e => .error e
      | .ok rootKey =>
        .ok [makeKeyInfo c "wallet:bitid"
          [("mnemonic", .str (c.utf8Stringify mnemonic)),
            ("rootKey", .str (c.base64Stringify rootKey))] rootKey]
  | _, _ => .ok []

/-- The account settings key of `makeLoginTreeInner`, synthesised when the
stash has a `syncKeyBox`. -/
def accountKeys (c : Codec) (stash : StashData) (appId : String) (loginKey : Bytes) :
    Except LoginError (List KeyInfo) :=
  match stash.syncKeyBox with
  | some syncKeyBox =>
    match decryptBox c syncKeyBox loginKey with
    | .error e => .error e
    | .ok syncKey =>
      .ok [makeKeyInfo c (makeAccountType appId)
        [("syncKey", .str (c.base64Stringify syncKey)),
          ("dataKey", .str (c.base64Stringify loginKey))] loginKey]
  | none => .ok []

/-- The fields of the login that `makeLoginTreeInner` builds from a stash
node, in the order of the source: identity, password, PIN, recovery, legacy
keys, key boxes and their merge. -/
def loginFields (c : Codec) (stash : StashData) (loginKey : Bytes) :
    Except LoginError LoginData := do
  let appId ← match stash.appId with
    | some appId => pure appId
    | none => throw .noAppId
  let loginAuth ← decryptOptional c stash.loginAuthBox loginKey
  let loginId ← match stash.loginId with
    | some loginId => pure loginId
    | none => throw .noLoginId
  let userId :=
    match stash.userId with
    | some userId => some userId
    | none =>
      match stash.passwordAuthBox with
      | some _ => some loginId
      | none => none
  let passwordAuth ← decryptOptional c stash.passwordAuthBox loginKey
  let pin2Key ← parseOptional c stash.pin2Key
  let recovery2Key ← parseOptional c stash.recovery2Key
  let bitid ← bitidKeys c stash loginKey
  let account ← accountKeys c stash appId loginKey
  let keyInfos ← decodeKeyBoxes c loginKey (stash.keyBoxes.getD [])
  let merged ← match mergeKeyInfos c.parseLen (bitid ++ account ++ keyInfos) with
    | .ok merged => pure merged
    | .error e => throw (.merge e)
  pure
    { username := stash.username
      appId := some appId
      loginId := some loginId
      loginKey := some loginKey
      userId := userId
      loginAuth := loginAuth
      passwordAuth := passwordAuth
      pin2Key := pin2Key
      recovery2Key := recovery2Key
      keyInfos := some merged }

mutual
/-- The recursive body of `makeLoginTree` (`makeLoginTreeInner`): the fields,
then the children, each under the key that its `parentBox` holds, then the
integrity check. -/
def makeLoginTreeInner (c : Codec) :
    TreeNode StashData → Bytes → Except LoginError (TreeNode LoginData)
  | .node stash children, loginKey =>
    match loginFields c stash loginKey with
    | .error e => .error e
    | .ok login =>
      match makeLoginTreeChildren c children loginKey with
      | .error e => .error e
      | .ok children' =>
        match login.loginAuth, login.passwordAuth with
        | none, none => .error .noAuthMethods
        | _, _ => .ok (.node login children')
/-- The map over `stash.children` of `makeLoginTreeInner`. -/
def makeLoginTreeChildren (c : Codec) :
    List (TreeNode StashData) → Bytes → Except LoginError (List (TreeNode LoginData))
  | [], _ => .ok []
  | child :: rest, loginKey =>
    match child.data.parentBox with
    | none => .error .missingBox
    | some parentBox =>
      match decryptBox c parentBox loginKey with
      | .error e => .error e
      | .ok childKey =>
        match makeLoginTreeInner c child childKey with
        | .error e => .error e
        | .ok child' =>
          match makeLoginTreeChildren c rest loginKey with
          | .error e => .error e
          | .ok rest' => .ok (child' :: rest')
end

/-- The predicate `stash => stash.appId === appId` of `makeLoginTree`. -/
def stashHasAppId (appId : String) (stash : TreeNode StashData) : Bool :=
  stash.data.appId == some appId

/-- Modelled from the spec: the `clone` callback of `makeLoginTree`,
`filterObject(stash, ['username', 'appId', 'loginId'])` with the new
children. `filterObject` of `util/util.js` is not part of the sources; the
spec describes it as "copying an allow-listed set of fields". -/
def cloneLogin (stash : TreeNode StashData) (children : List (TreeNode LoginData)) :
    TreeNode LoginData :=
  .node { username := stash.data.username, appId := stash.data.appId,
          loginId := stash.data.loginId } children

/-- Converts a login stash into an in-memory login object (`makeLoginTree`). -/
def makeLoginTree (c : Codec) (stashTree : TreeNode StashData) (loginKey : Bytes)
    (appId : String) : Except LoginError (TreeNode LoginData) :=
  updateTree (stashHasAppId appId) (fun stash => makeLoginTreeInner c stash loginKey)
    cloneLogin stashTree

/-- A node of a login reply: every field the server may send, those of a
stash node among them, and the two boxes that only a reply has. -/
structure ReplyData where
  fields : StashData := {}
  pin2KeyBox : Option Box := none
  recovery2KeyBox : Option Box := none
  deriving DecidableEq, Repr

/-- Modelled from the spec: the fields of the node that `applyLoginReplyInner`
builds before it recurses: the allow-listed fields of the reply
(`filterObject`, not part of the sources), the client-only data of the stash,
the PIN and recovery keys decrypted, and the key boxes. -/
def replyFields (c : Codec) (stash : StashData) (loginKey : Bytes) (reply : ReplyData) :
    Except LoginError StashData := do
  let pin2Key ← decryptOptional c reply.pin2KeyBox loginKey
  let recovery2Key ← decryptOptional c reply.recovery2KeyBox loginKey
  pure
    { appId := reply.fields.appId
      loginId := reply.fields.loginId
      loginAuthBox := reply.fields.loginAuthBox
      parentBox := reply.fields.parentBox
      passwordAuthBox := reply.fields.passwordAuthBox
      passwordBox := reply.fields.passwordBox
      passwordKeySnrp := reply.fields.passwordKeySnrp
      mnemonicBox := reply.fields.mnemonicBox
      rootKeyBox := reply.fields.rootKeyBox
      syncKeyBox := reply.fields.syncKeyBox
      username := stash.username
      userId := stash.userId
      pin2Key := pin2Key.map c.base64Stringify
      recovery2Key := recovery2Key.map c.base64Stringify
      keyBoxes := some (reply.fields.keyBoxes.getD []) }

mutual
/-- The recursive body of `applyLoginReply` (`applyLoginReplyInner`). -/
def applyLoginReplyInner (c : Codec) (stash : TreeNode StashData) (loginKey : Bytes) :
    TreeNode ReplyData → Except LoginError (TreeNode StashData)
  | .node reply replyChildren =>
    match replyFields c stash.data loginKey reply with
    | .error e => .error e
    | .ok out =>
      if stash.children.length > replyChildren.length then .error .childrenLost
      else
        match applyLoginReplyChildren c stash.children loginKey 0 replyChildren with
        | .error e => .error e
        | .ok children => .ok (.node out children)
/-- The map `(child, index) => ...` over the children of the reply: the child
at an index is applied to the stash child at the same index, or to an empty
stash. -/
def applyLoginReplyChildren (c : Codec) (stashChildren : List (TreeNode StashData))
    (loginKey : Bytes) (index : Nat) :
    List (TreeNode ReplyData) → Except LoginError (List (TreeNode StashData))
  | [] => .ok []
  | child :: rest =>
    match child.data.fields.parentBox with
    | none => .error .missingBox
    | some parentBox =>
      match decryptBox c parentBox loginKey with
      | .error e => .error e
      | .ok childKey =>
        match applyLoginReplyInner c ((stashChildren[index]?).getD (.node {} [])) childKey
            child with
        | .error e => .error e
        | .ok child' =>
          match applyLoginReplyChildren c stashChildren loginKey (index + 1) rest with
          | .error e => .error e
          | .ok rest' => .ok (child' :: rest')
end

/-- Updates the given login stash object with fields from the auth server
(`applyLoginReply`). -/
def applyLoginReply (c : Codec) (stashTree : TreeNode StashData) (loginKey : Bytes)
    (loginReply : TreeNode ReplyData) : Except LoginError (TreeNode StashData) :=
  updateTree (fun stash => stash.data.appId == loginReply.data.fields.appId)
    (fun stash => applyLoginReplyInner c stash loginKey loginReply) cloneNode stashTree

/-- The `server` payload of a keys kit. -/
structure KeysPayload where
  keyBoxes : List Box
  newSyncKeys : List String
  deriving DecidableEq, Repr

/-- The loop of `makeKeysKit` that collects the new sync keys in base16. -/
def newSyncKeys (c : Codec) : List KeyInfo → Except LoginError (List String)
  | [] => .ok []
  | info :: rest =>
    match objGet info.keys "syncKey" with
    | none => newSyncKeys c rest
    | some .null => newSyncKeys c rest
    | some (.num _) => .error (.base64Syntax "not a string")
    | some (.str syncKey) =>
      match c.base64Parse syncKey with
      | .error message => .error (.base64Syntax message)
      | .ok data =>
        match newSyncKeys c rest with
        | .error e => .error e
        | .ok keys => .ok ((c.base16Stringify data).toLower :: keys)

/-- Assembles all the resources needed to attach new keys to the account
(`makeKeysKit`); `loginKey` and `loginId` are the two fields that it reads of
its `login` argument. -/
def makeKeysKit (c : Codec) (loginKey : Bytes) (loginId : String) (keyInfos : List KeyInfo) :
    Except LoginError (LoginKit KeysPayload) :=
  let keyBoxes := keyInfos.map (fun info => c.encrypt (c.utf8Parse (c.jsonStringify info)) loginKey)
  match newSyncKeys c keyInfos with
  | .error e => .error e
  | .ok syncKeys =>
    .ok { serverPath := "/v2/login/keys"
          server := { keyBoxes := keyBoxes, newSyncKeys := syncKeys }
          stash := { fields := { keyBoxes := some keyBoxes } }
          login := { fields := { keyInfos := some keyInfos } }
          loginId := loginId }

/-! ## Worked examples: a simulated codec -/

/-- A wallet info of the legacy type `wallet:bitcoin-bip44`, as an older
client stored it. -/
def bip44Wallet : KeyInfo :=
  { id := some idOne, type := "wallet:bitcoin-bip44", keys := [("dataKey", .str "d0")] }

/-- The JSON texts of the sample key infos. -/
def sampleJson : List (String × KeyInfo) :=
  [ ("data", walletData), ("sync", walletSync), ("both", walletBoth),
    ("forged", walletForged), ("other", walletOther), ("legacy", legacyWallet),
    ("bip44", bip44Wallet) ]

/-- A simulated codec. A box is its plaintext behind the length of the key; a
digest is the key followed by the data; bytes and texts are mapped character
by character; the JSON texts are those of `sampleJson`. -/
def fakeCodec : Codec where
  decrypt := fun box key =>
    match box.payload with
    | [] => .error "empty box"
    | tag :: data => if tag = key.length then .ok data else .error "wrong key"
  encrypt := fun data key => ⟨key.length :: data⟩
  hmacSha256 := fun data key => key ++ data
  base64Parse := fun text =>
    match base64Length text with
    | some n => .ok (List.replicate n 0)
    | none => .error "invalid base64"
  base64Stringify := fun data => String.mk (data.map Char.ofNat)
  base16Stringify := fun data => String.mk (data.map Char.ofNat)
  utf8Parse := fun text => text.toList.map Char.toNat
  utf8Stringify := fun data => String.mk (data.map Char.ofNat)
  jsonParse := fun text =>
    match objGet sampleJson text with
    | some info => .ok info
    | none => .error "invalid JSON"
  jsonStringify := fun info =>
    match sampleJson.find? (fun entry => entry.2 = info) with
    | some entry => entry.1
    | none => ""

/-! ## Worked examples: stashes under the simulated codec -/

/-- The key of the root login of the sample stash. -/
def rootKey : Bytes := [1]

/-- The key of its application login. -/
def appKey : Bytes := [2, 2]

/-- The application node of the sample stash: it holds the legacy wallet in a
key box. -/
def appStashNode : TreeNode StashData :=
  .node { appId := some "app", loginId := some "child",
          loginAuthBox := some (fakeCodec.encrypt [65] appKey),
          parentBox := some (fakeCodec.encrypt appKey rootKey),
          keyBoxes := some [fakeCodec.encrypt (fakeCodec.utf8Parse "legacy") appKey] } []

/-- A sibling of the application node. -/
def sideStashNode : TreeNode StashData :=
  .node { appId := some "side", loginId := some "sibling",
          loginAuthBox := some (fakeCodec.encrypt [67] [3, 3, 3]),
          parentBox := some (fakeCodec.encrypt [3, 3, 3] rootKey) } []

/-- A stash with a root login and two application logins. -/
def appStash : TreeNode StashData :=
  .node { username := some "alice", appId := some "", loginId := some "root",
          passwordAuthBox := some (fakeCodec.encrypt [66] rootKey), keyBoxes := some [] }
    [appStashNode, sideStashNode]

/-- A stash whose application login has no authentication box. -/
def noAuthStash : TreeNode StashData :=
  .node { username := some "alice", appId := some "", loginId := some "root",
          passwordAuthBox := some (fakeCodec.encrypt [66] rootKey), keyBoxes := some [] }
    [.node { appId := some "app", loginId := some "child",
             parentBox := some (fakeCodec.encrypt appKey rootKey) } []]

/-- The tree that `makeLoginTree` derives from `appStash` for the application. -/
def appTree : TreeNode LoginData :=
  .node { username := some "alice", appId := some "", loginId := some "root" }
    [.node { appId := some "app", loginId := some "child", loginKey := some appKey,
             loginAuth := some [65], keyInfos := some [legacyWallet] } [],
     .node { appId := some "side", loginId := some "sibling" } []]

/-! ## Specification vocabulary for the derivation -/

mutual
/-- Two stash trees agree outside the target: they have the same shape, a
node with the target `appId` is the same in both together with everything
below it, and any other node has the same `username`, `appId` and `loginId`
in both. -/
def agreeOutside (appId : String) : TreeNode StashData → TreeNode StashData → Prop
  | .node data children, other =>
    if data.appId = some appId then other = .node data children
    else
      other.data.appId = data.appId ∧ other.data.username = data.username ∧
        other.data.loginId = data.loginId ∧ agreeOutsideList appId children other.children
/-- The children of two nodes agree outside the target, one by one. -/
def agreeOutsideList (appId : String) :
    List (TreeNode StashData) → List (TreeNode StashData) → Prop
  | [], others => others = []
  | child :: rest, others =>
    match others with
    | [] => False
    | other :: others' => agreeOutside appId child other ∧ agreeOutsideList appId rest others'
end

/-- The sample stash with another login id in the sibling of the application. -/
def appStashRenamed : TreeNode StashData :=
  .node { username := some "alice", appId := some "", loginId := some "root",
          passwordAuthBox := some (fakeCodec.encrypt [66] rootKey), keyBoxes := some [] }
    [appStashNode,
     .node { appId := some "side", loginId := some "renamed",
             loginAuthBox := some (fakeCodec.encrypt [67] [3, 3, 3]),
             parentBox := some (fakeCodec.encrypt [3, 3, 3] rootKey) } []]

/-- The sample stash with other boxes in the root and in the sibling of the
application. -/
def appStashReboxed : TreeNode StashData :=
  .node { username := some "alice", appId := some "", loginId := some "root",
          passwordAuthBox := some (fakeCodec.encrypt [99] rootKey), keyBoxes := none }
    [appStashNode,
     .node { appId := some "side", loginId := some "sibling",
             loginAuthBox := none, parentBox := none,
             keyBoxes := some [fakeCodec.encrypt [1, 2, 3] rootKey] } []]

/-- A stash of one login whose key box holds a wallet of a legacy type. -/
def bip44Stash : TreeNode StashData :=
  .node { username := some "alice", appId := some "", loginId := some "root",
          passwordAuthBox := some (fakeCodec.encrypt [66] rootKey),
          keyBoxes := some [fakeCodec.encrypt (fakeCodec.utf8Parse "bip44") rootKey] } []

/-- The tree that `makeLoginTree` derives from `bip44Stash`. -/
def bip44Tree : TreeNode LoginData :=
  .node { username := some "alice", appId := some "", loginId := some "root",
          loginKey := some rootKey, userId := some "root", passwordAuth := some [66],
          keyInfos := some [bip44Wallet] } []

/-! ## Specification vocabulary and examples for reply application -/

/-- The stash node that `applyLoginReplyInner` pairs with the reply node at a
path: the stash node at the same path, or the empty stash when there is none. -/
def pairedStash (stash : TreeNode StashData) (path : List Nat) : TreeNode StashData :=
  (stash.subtreeAt path).getD (.node {} [])

/-- A stash with two application logins, each with its own user id. -/
def twoAppStash : TreeNode StashData :=
  .node { username := some "alice", appId := some "", loginId := some "root" }
    [.node { username := some "alice-a", appId := some "a", loginId := some "la",
             userId := some "ua" } [],
     .node { username := some "alice-b", appId := some "b", loginId := some "lb",
             userId := some "ub" } []]

/-- A reply of the server for `twoAppStash` that lists the two applications in
the other order and tries to set a `username`. -/
def swappedReply : TreeNode ReplyData :=
  .node { fields := { username := some "mallory", appId := some "", loginId := some "root" } }
    [.node { fields := { appId := some "b", loginId := some "lb",
                         parentBox := some (fakeCodec.encrypt appKey rootKey) } } [],
     .node { fields := { appId := some "a", loginId := some "la",
                         parentBox := some (fakeCodec.encrypt appKey rootKey) } } []]

/-- A reply of the server for `twoAppStash` that has lost an application. -/
def shrunkReply : TreeNode ReplyData :=
  .node { fields := { appId := some "", loginId := some "root" } }
    [.node { fields := { appId := some "a", loginId := some "la",
                         parentBox := some (fakeCodec.encrypt appKey rootKey) } } []]

/-- The reply `shrunkReply` with a `pin2KeyBox` that cannot be decrypted. -/
def sealedShrunkReply : TreeNode ReplyData :=
  .node { fields := { appId := some "", loginId := some "root" }, pin2KeyBox := some ⟨[]⟩ }
    [.node { fields := { appId := some "a", loginId := some "la",
                         parentBox := some (fakeCodec.encrypt appKey rootKey) } } []]

/-- An error of a decryption: `decrypt` rejected a box, or the box was missing. -/
def LoginError.isDecryptError : LoginError → Bool
  | .decryptFailed _ => true
  | .missingBox => true
  | _ => false

/-- The stash that `applyLoginReply` returns for `twoAppStash` and
`swappedReply`. -/
def swappedStash : TreeNode StashData :=
  .node { username := some "alice", appId := some "", loginId := some "root",
          keyBoxes := some [] }
    [.node { username := some "alice-a", appId := some "b", loginId := some "lb",
             userId := some "ua", parentBox := some (fakeCodec.encrypt appKey rootKey),
             keyBoxes := some [] } [],
     .node { username := some "alice-b", appId := some "a", loginId := some "la",
             userId := some "ub", parentBox := some (fakeCodec.encrypt appKey rootKey),
             keyBoxes := some [] } []]

/-- The first child of `swappedReply`. -/
def swappedReplyFirst : TreeNode ReplyData :=
  .node { fields := { appId := some "b", loginId := some "lb",
                      parentBox := some (fakeCodec.encrypt appKey rootKey) } } []

/-! ## Worked examples: a keys kit under the simulated codec -/

/-- A simulated environment for keys kits: ids are read as the simulated
codec reads them, the server keeps the payloads it is sent, and the storage
holds at most one stash. -/
def keysEnv : LoginEnv (List KeysPayload) (Option (TreeNode StashData)) KeysPayload where
  parseLen := fakeCodec.parseLen
  stringify := fakeCodec.base64Stringify
  load := fun store _ =>
    match store with
    | some stashTree => .ok stashTree
    | none => .error "no stash"
  save := fun _ stashTree => .ok (some stashTree)
  authRequest := fun server _ _ body => (.ok (), server ++ [body.data])

/-- The world in which the store holds `appStash`. -/
def keysWorld : World (List KeysPayload) (Option (TreeNode StashData)) KeysPayload :=
  { server := [], store := some appStash, trace := [] }

/-- The kit that `makeKeysKit` makes of `walletOther` for the application
login of `appTree`. -/
def otherKit : LoginKit KeysPayload :=
  { serverPath := "/v2/login/keys"
    server := { keyBoxes := [fakeCodec.encrypt (fakeCodec.utf8Parse "other") appKey],
                newSyncKeys := [] }
    stash :=
      { fields := { keyBoxes := some [fakeCodec.encrypt (fakeCodec.utf8Parse "other") appKey] } }
    login := { fields := { keyInfos := some [walletOther] } }
    loginId := "child" }

/-- The application login of `appTree`. -/
def appLogin : TreeNode LoginData :=
  .node { appId := some "app", loginId := some "child", loginKey := some appKey,
          loginAuth := some [65], keyInfos := some [legacyWallet] } []

/-- The tree that `applyKit` returns for `otherKit` on `appTree`. -/
def otherTree : TreeNode LoginData :=
  .node { username := some "alice", appId := some "", loginId := some "root" }
    [.node { appId := some "app", loginId := some "child", loginKey := some appKey,
             loginAuth := some [65], keyInfos := some [legacyWallet, walletOther] } [],
     .node { appId := some "side", loginId := some "sibling" } []]

/-- A stash whose root login and application login have the same login id. -/
def sharedIdStash : TreeNode StashData :=
  .node { username := some "alice", appId := some "", loginId := some "shared",
          passwordAuthBox := some (fakeCodec.encrypt [66] rootKey), keyBoxes := some [] }
    [.node { appId := some "app", loginId := some "shared",
             loginAuthBox := some (fakeCodec.encrypt [65] appKey),
             parentBox := some (fakeCodec.encrypt appKey rootKey), keyBoxes := some [] } []]

/-- The tree that `makeLoginTree` derives from `sharedIdStash` for the root
application. -/
def sharedIdTree : TreeNode LoginData :=
  .node { username := some "alice", appId := some "", loginId := some "shared",
          loginKey := some rootKey, userId := some "shared", passwordAuth := some [66],
          keyInfos := some [] }
    [.node { appId := some "app", loginId := some "shared", loginKey := some appKey,
             loginAuth := some [65], keyInfos := some [] } []]

/-- The kit that `makeKeysKit` makes of `walletOther` for the application
login of `sharedIdTree`. -/
def sharedIdKit : LoginKit KeysPayload :=
  { otherKit with loginId := "shared" }

/-- The stash that `applyKit` saves for `sharedIdKit`: the box of the kit,
made under the key of the application login, is among the key boxes of the
root login. -/
def sharedIdSaved : TreeNode StashData :=
  .node { username := some "alice", appId := some "", loginId := some "shared",
          passwordAuthBox := some (fakeCodec.encrypt [66] rootKey),
          keyBoxes := some [fakeCodec.encrypt (fakeCodec.utf8Parse "other") appKey] }
    [.node { appId := some "app", loginId := some "shared",
             loginAuthBox := some (fakeCodec.encrypt [65] appKey),
             parentBox := some (fakeCodec.encrypt appKey rootKey), keyBoxes := some [] } []]

/-! ## Specification vocabulary: a tree cloned node by node -/

mutual
/-- The tree in which every node is the `clone` of the node at its place,
the shape kept. -/
def TreeNode.cloneAll {α β : Type} (clone : TreeNode α → List (TreeNode β) → TreeNode β) :
    TreeNode α → TreeNode β
  | .node data children => clone (.node data children) (cloneAllList clone children)
/-- The children of `TreeNode.cloneAll`. -/
def cloneAllList {α β : Type} (clone : TreeNode α → List (TreeNode β) → TreeNode β) :
    List (TreeNode α) → List (TreeNode β)
  | [] => []
  | child :: rest => child.cloneAll clone :: cloneAllList clone rest
end

/-! ## Sanitising a stash (`sanitizeLoginStash`) -/

/-- Modelled from the spec: the `clone` callback of `sanitizeLoginStash`,
`filterObject(stash, ['username', 'appId', 'loginId'])` with the new
children. `filterObject` of `util/util.js` is not part of the sources; the
spec describes the result as "all cryptographic payload fields stripped
except `username`, `appId`, `loginId`". -/
def cloneStash (stash : TreeNode StashData) (children : List (TreeNode StashData)) :
    TreeNode StashData :=
  .node { username := stash.data.username, appId := stash.data.appId,
          loginId := stash.data.loginId } children

/-- Prepares a login stash for edge login, stripping out any information that
the target app is not allowed to see (`sanitizeLoginStash`). The `update`
callback `stash => stash` does not throw. -/
def sanitizeLoginStash (stashTree : TreeNode StashData) (appId : String) : TreeNode StashData :=
  match updateTree (stashHasAppId appId)
      (fun stash => (Except.ok stash : Except Empty (TreeNode StashData))) cloneStash
      stashTree with
  | .ok sanitized => sanitized
  | .error e => nomatch e

/-! ## Password rules (`login/password.js`) -/

/-- The `length` of a JavaScript string: the number of its UTF-16 code units,
two for a character outside the basic plane. -/
def jsLength (s : String) : Nat :=
  (s.toList.map (fun c => if c.toNat < 65536 then 1 else 2)).sum

/-- The test `/[lo-hi]/.test(text)` of a character class with one range. -/
def testRange (lo hi : Char) (text : String) : Bool :=
  text.toList.any (fun c => decide (lo ≤ c) && decide (c ≤ hi))

/-- The object that `checkPasswordRules` returns, without `secondsToCrack`, a
floating-point estimate that no other field reads. -/
structure PasswordRules where
  tooShort : Bool
  noNumber : Bool
  noLowerCase : Bool
  noUpperCase : Bool
  passed : Bool
  deriving DecidableEq, Repr

/-- Verifies that a password meets our suggested rules (`checkPasswordRules`). -/
def checkPasswordRules (password : String) : PasswordRules :=
  let tooShort := decide (jsLength password < 10)
  let noNumber := !testRange '0' '9' password
  let noLowerCase := !testRange 'a' 'z' password
  let noUpperCase := !testRange 'A' 'Z' password
  { tooShort := tooShort
    noNumber := noNumber
    noLowerCase := noLowerCase
    noUpperCase := noUpperCase
    passed := decide (jsLength password ≥ 16) ||
      !(tooShort || noNumber || noUpperCase || noLowerCase) }

/-! ## The largest spendable amount (`modules/currencyWallets/api.js`) -/

/-- A spend target; `nativeAmount` is a decimal string, read as the integer
it denotes by the big-number functions `add`, `sub`, `div` and `lte`. -/
structure SpendTarget where
  currencyCode : Option String := none
  publicAddress : Option String := none
  nativeAmount : Option Int := none
  deriving DecidableEq, Repr

/-- The fields of a spend info that `getMaxSpendable` reads. -/
structure SpendInfo where
  currencyCode : Option String := none
  spendTargets : List SpendTarget
  deriving DecidableEq, Repr

/-- Modelled from the spec: the currency engine behind the wallet, an
external plugin. `getBalance` gives the balance of a currency or throws;
`makeSpend` tells whether the promise of `engine.makeSpend` resolves. -/
structure Engine where
  getBalance : Option String → Except String Int
  makeSpend : Option String → List SpendTarget → Bool

/-- The ways `getMaxSpendable` can throw. -/
inductive SpendError where
  /-- The error of `engine.getBalance`. -/
  | balance (message : String)
  /-- `Cannot to a cross-currency max-spend`. -/
  | crossCurrency
  /-- Writing `nativeAmount` to `spendTargets[0]` when there is no target. -/
  | typeError
  deriving DecidableEq, Repr

/-- The copy of the spend targets with the amounts set to `'0'`; it throws on
a target with a currency code that is truthy and is not that of the spend
info. -/
def zeroTargets (currencyCode : Option String) :
    List SpendTarget → Except SpendError (List SpendTarget)
  | [] => .ok []
  | spendTarget :: rest =>
    if spendTarget.currencyCode ≠ none ∧ spendTarget.currencyCode ≠ some "" ∧
        spendTarget.currencyCode ≠ currencyCode then .error .crossCurrency
    else
      match zeroTargets currencyCode rest with
      | .error e => .error e
      | .ok rest' => .ok ({ spendTarget with nativeAmount := some 0 } :: rest')

/-- The bisection `getMax(min, max)`: the range of possible values includes
`min`, but not `max`. The amount written to `spendTargets[0]` stays written
for the calls that follow. The quotient `div(diff, '2')` is taken of a
difference above 1, where every rounding of the integer quotient agrees. -/
def getMax (engine : Engine) (currencyCode : Option String) (spendTargets : List SpendTarget)
    (min max : Int) : Except SpendError Int :=
  if max - min ≤ 1 then .ok min
  else
    match spendTargets with
    | [] => .error .typeError
    | first :: rest =>
      if engine.makeSpend currencyCode
          ({ first with nativeAmount := some (min + (max - min) / 2) } :: rest) then
        getMax engine currencyCode
          ({ first with nativeAmount := some (min + (max - min) / 2) } :: rest)
          (min + (max - min) / 2) max
      else
        getMax engine currencyCode
          ({ first with nativeAmount := some (min + (max - min) / 2) } :: rest)
          min (min + (max - min) / 2)
termination_by (max - min).toNat
decreasing_by
  all_goals simp_wf
  all_goals omega

/-- The largest amount that can be spent (`getMaxSpendable`). -/
def getMaxSpendable (engine : Engine) (spendInfo : SpendInfo) : Except SpendError Int :=
  match engine.getBalance spendInfo.currencyCode with
  | .error message => .error (.balance message)
  | .ok balance =>
    match zeroTargets spendInfo.currencyCode spendInfo.spendTargets with
    | .error e => .error e
    | .ok spendTargets => getMax engine spendInfo.currencyCode spendTargets 0 (balance + 1)

/-- The engine of `fake-plugins/fakeCurrency.js` with its two balances:
`getBalance` knows the currencies `TEST`, the default, and `TOKEN`;
`makeSpend` rejects when the `TEST` balance is less than the total of the
amounts. -/
def fakeEngine (balance tokenBalance : Int) : Engine where
  getBalance := fun currencyCode =>
    if currencyCode = none ∨ currencyCode = some "TEST" then .ok balance
    else if currencyCode = some "TOKEN" then .ok tokenBalance
    else .error "Unknown currency"
  makeSpend := fun _ spendTargets =>
    !decide (balance < (spendTargets.map (fun t => t.nativeAmount.getD 0)).sum)

/-! ## Worked examples: a root login alone and replies for it -/

/-- A stash with a root login and no application. -/
def soloStash : TreeNode StashData :=
  .node { username := some "alice", appId := some "", loginId := some "root",
          passwordAuthBox := some (fakeCodec.encrypt [66] rootKey), keyBoxes := some [] } []

/-- The tree that `makeLoginTree` derives from `soloStash`. -/
def soloTree : TreeNode LoginData :=
  .node { username := some "alice", appId := some "", loginId := some "root",
          loginKey := some rootKey, userId := some "root", passwordAuth := some [66],
          keyInfos := some [] } []

/-- A reply of the server for `soloStash` that holds the boxes of a BitID
wallet, a `mnemonicBox` and a `rootKeyBox`. -/
def bitidReply : TreeNode ReplyData :=
  .node { fields := { appId := some "", loginId := some "root",
                      passwordAuthBox := some (fakeCodec.encrypt [66] rootKey),
                      mnemonicBox := some (fakeCodec.encrypt (fakeCodec.utf8Parse "words") rootKey),
                      rootKeyBox := some (fakeCodec.encrypt [9, 9] rootKey) } } []

/-- The stash that `applyLoginReply` returns for `soloStash` and `bitidReply`. -/
def bitidStash : TreeNode StashData :=
  .node { username := some "alice", appId := some "", loginId := some "root",
          passwordAuthBox := some (fakeCodec.encrypt [66] rootKey),
          mnemonicBox := some (fakeCodec.encrypt (fakeCodec.utf8Parse "words") rootKey),
          rootKeyBox := some (fakeCodec.encrypt [9, 9] rootKey), keyBoxes := some [] } []

/-! ## The older `mergeKeyInfos` (`login/login.js`) -/

/-- The ways the older `mergeKeyInfos` can throw. -/
inductive OldMergeError where
  /-- One of the `Key integrity violation` errors. -/
  | integrity (e : MergeError)
  /-- The `TypeError` of the call `info.keys.forEach(...)`: `info.keys` is an
  object, and an object has no method `forEach`. -/
  | notAFunction
  deriving DecidableEq, Repr

/-- The three locals of the older `mergeKeyInfos`: all ids in order of
appearance, all keys indexed by id and the key types indexed by id. -/
structure OldMergeState where
  ids : List String
  keys : List (String × List (String × JVal))
  types : List (String × String)
  deriving DecidableEq, Repr

/-- One call of the callback of `keyInfos.forEach` in the older
`mergeKeyInfos`. `objectAssign({}, info.keys)` of `util/util.js`, which is not
part of the sources, is the copy of the own properties, as the spread is.
For an id that has been seen, the type is compared and then
`info.keys.forEach` is called, on an object whose properties hold strings,
numbers or null: the call throws before the callback runs. -/
def mergeStepOld (parseLen : String → Option Nat) (st : OldMergeState) (info : KeyInfo) :
    Except OldMergeError OldMergeState :=
  match info.id with
  | none => .error (.integrity (.invalidId none))
  | some id =>
    match parseLen id with
    | none => .error (.integrity (.base64Syntax id))
    | some len =>
      if len ≠ 32 then .error (.integrity (.invalidId (some id)))
      else
        match objGet st.keys id with
        | none =>
          -- The id is new, so just insert the keys:
          .ok { ids := st.ids ++ [id]
                keys := objSet st.keys id (objSpread [] info.keys)
                types := objSet st.types id info.type }
        | some _ =>
          -- An object with this ID already exists, so update it:
          if objGet st.types id ≠ some info.type then
            .error (.integrity (.typeMismatch id info.type ((objGet st.types id).getD "undefined")))
          else .error .notAFunction

/-- The loop `keyInfos.forEach` of the older `mergeKeyInfos`. -/
def mergeLoopOld (parseLen : String → Option Nat) :
    OldMergeState → List KeyInfo → Except OldMergeError OldMergeState
  | st, [] => .ok st
  | st, info :: rest =>
    match mergeStepOld parseLen st info with
    | .error e => .error e
    | .ok st' => mergeLoopOld parseLen st' rest

/-- Flattens an array of key structures, removing duplicates (the older
`mergeKeyInfos`, `login/login.js`). The tables `keys` and `types` have an
entry under every id of `ids`. -/
def mergeKeyInfosOld (parseLen : String → Option Nat) (keyInfos : List KeyInfo) :
    Except OldMergeError (List KeyInfo) :=
  match mergeLoopOld parseLen { ids := [], keys := [], types := [] } keyInfos with
  | .error e => .error e
  | .ok st =>
    .ok (st.ids.map (fun id =>
      { id := some id
        keys := (objGet st.keys id).getD []
        type := (objGet st.types id).getD "" }))

/-! ## Refreshing a login (`syncLogin`) -/

/-- Modelled from the spec: the collaborators of `syncLogin`, which the spec
treats as external and whose code (`authServer.js`, `loginStore.js`,
`util/encoding.js`) is not part of the sources. `S` is the state of the auth
server and `D` the state of the stash storage; the reply of the server to the
request for a login is a tree of reply nodes. -/
structure SyncEnv (S D : Type) where
  /-- The text of `base64.stringify(data)`. -/
  stringify : Bytes → String
  /-- The stash stored for a username, `loginStore.load(username)`. -/
  load : D → Option String → Except String (TreeNode StashData)
  /-- The storage after writing a stash, `loginStore.save(stashTree)`. -/
  save : D → TreeNode StashData → Except String D
  /-- The reply to a request and the next state of the server,
  `authRequest(ai, method, path, body)`. -/
  authRequest : S → String → String → AuthJson → Except String (TreeNode ReplyData) × S

/-- The ways `syncLogin` can fail. -/
inductive SyncError where
  /-- The login store rejected `load`. -/
  | loadFailed (message : String)
  /-- `No server authentication methods available`. -/
  | noAuthMethods
  /-- The auth server request failed. -/
  | requestFailed (message : String)
  /-- `applyLoginReply` or `makeLoginTree` threw. -/
  | login (e : LoginError)
  /-- The login store rejected `save`. -/
  | saveFailed (message : String)
  deriving DecidableEq, Repr

/-- Refreshes a login with data from the server (`syncLogin`). `login` holds
the fields of the node `login` and `loginKey` is its field `loginKey`, which
the type `LoginTree` of the source requires; a missing `appId` gives
`makeLoginTree` its default `''`. The result is the value of the promise, or
the error it throws or rejects with, then the server and the storage
afterwards. -/
def syncLogin {S D : Type} (c : Codec) (env : SyncEnv S D) (server : S) (store : D)
    (loginTree : TreeNode LoginData) (login : LoginData) (loginKey : Bytes) :
    Except SyncError (TreeNode LoginData) × S × D :=
  match env.load store loginTree.data.username with
  | .error message => (.error (.loadFailed message), server, store)
  | .ok stashTree =>
    match makeAuthJson env.stringify login with
    | .error _ => (.error .noAuthMethods, server, store)
    | .ok request =>
      let posted := env.authRequest server "POST" "/v2/login" request
      match posted.1 with
      | .error message => (.error (.requestFailed message), posted.2, store)
      | .ok reply =>
        match applyLoginReply c stashTree loginKey reply with
        | .error e => (.error (.login e), posted.2, store)
        | .ok newStashTree =>
          match makeLoginTree c stashTree loginKey (login.appId.getD "") with
          | .error e => (.error (.login e), posted.2, store)
          | .ok newLoginTree =>
            match env.save store newStashTree with
            | .error message => (.error (.saveFailed message), posted.2, store)
            | .ok store' => (.ok newLoginTree, posted.2, store')

/-! ## Worked examples: a refresh that brings a new key box -/

/-- A simulated environment for refreshes: the server answers every request
with the reply it holds; the storage holds at most one stash. -/
def syncEnv : SyncEnv (TreeNode ReplyData) (Option (TreeNode StashData)) where
  stringify := fakeCodec.base64Stringify
  load := fun store _ =>
    match store with
    | some stashTree => .ok stashTree
    | none => .error "no stash"
  save := fun _ stashTree => .ok (some stashTree)
  authRequest := fun server _ _ _ => (.ok server, server)

/-- A reply of the server for `soloStash` with a key box that the stash does
not have: the box of `walletOther` under the key of the root login. -/
def keyBoxReply : TreeNode ReplyData :=
  .node { fields := { appId := some "", loginId := some "root",
                      passwordAuthBox := some (fakeCodec.encrypt [66] rootKey),
                      keyBoxes := some [fakeCodec.encrypt (fakeCodec.utf8Parse "other") rootKey] } }
    []

/-- The stash that `applyLoginReply` returns for `soloStash` and `keyBoxReply`. -/
def keyBoxStash : TreeNode StashData :=
  .node { username := some "alice", appId := some "", loginId := some "root",
          passwordAuthBox := some (fakeCodec.encrypt [66] rootKey),
          keyBoxes := some [fakeCodec.encrypt (fakeCodec.utf8Parse "other") rootKey] } []

/-- The tree that `makeLoginTree` derives from `keyBoxStash`. -/
def keyBoxTree : TreeNode LoginData :=
  .node { username := some "alice", appId := some "", loginId := some "root",
          loginKey := some rootKey, userId := some "root", passwordAuth := some [66],
          keyInfos := some [walletOther] } []

/-! ## Password login (`login/password.js`) -/

/-- Modelled from the spec: the collaborators of the password functions,
whose code (`io/loginStore.js`, `redux/selectors.js`) is not part of the
sources. `scrypt` is the "slow memory-hard hash ... under a stored
salt/parameter record", a function of its input and of the record;
`passwordAuthSnrp` is the constant `userIdSnrp`. -/
structure PasswordEnv where
  /-- The normal form of a username, `fixUsername(username)`. -/
  fixUsername : String → String
  /-- The hash of a text under a salt/parameter record, `scrypt(state, text, snrp)`. -/
  scrypt : String → Snrp → Bytes
  /-- The record under which `passwordAuth` is derived. -/
  passwordAuthSnrp : Snrp

/-- The text that is hashed (`makeHashInput`). -/
def makeHashInput (p : PasswordEnv) (username password : String) : String :=
  p.fixUsername username ++ password

/-- The ways `extractLoginKey` can throw. -/
inductive PasswordError where
  /-- `Missing data for offline password login`. -/
  | missingData
  /-- The error of `decrypt` on a box it cannot open. -/
  | decryptFailed (message : String)
  deriving DecidableEq, Repr

/-- Extracts the loginKey from the login stash (`extractLoginKey`). -/
def extractLoginKey (c : Codec) (p : PasswordEnv) (stash : StashData)
    (username password : String) : Except PasswordError Bytes :=
  match stash.passwordBox, stash.passwordKeySnrp with
  | some passwordBox, some passwordKeySnrp =>
    match c.decrypt passwordBox
        (p.scrypt (makeHashInput p username password) passwordKeySnrp) with
    | .ok loginKey => .ok loginKey
    | .error message => .error (.decryptFailed message)
  | _, _ => .error .missingData

/-- The `server` payload of a password kit. -/
structure PasswordPayload where
  passwordAuth : String
  passwordAuthSnrp : Snrp
  passwordKeySnrp : Snrp
  passwordBox : Box
  passwordAuthBox : Box
  deriving DecidableEq, Repr

/-- Creates the data needed to attach a password to a login
(`makePasswordKit`). `passwordKeySnrp` is the record that `makeSnrp(state)`
draws; `loginKey` and `loginId` are the two fields that the function reads of
its `login` argument. -/
def makePasswordKit (c : Codec) (p : PasswordEnv) (passwordKeySnrp : Snrp) (loginKey : Bytes)
    (loginId : String) (username password : String) : LoginKit PasswordPayload :=
  let up := makeHashInput p username password
  -- loginKey chain:
  let passwordKey := p.scrypt up passwordKeySnrp
  let passwordBox := c.encrypt loginKey passwordKey
  -- authKey chain:
  let passwordAuth := p.scrypt up p.passwordAuthSnrp
  let passwordAuthBox := c.encrypt passwordAuth loginKey
  { serverPath := "/v2/login/password"
    server :=
      { passwordAuth := c.base64Stringify passwordAuth
        passwordAuthSnrp := p.passwordAuthSnrp
        passwordKeySnrp := passwordKeySnrp
        passwordBox := passwordBox
        passwordAuthBox := passwordAuthBox }
    stash :=
      { fields :=
          { passwordKeySnrp := some passwordKeySnrp
            passwordBox := some passwordBox
            passwordAuthBox := some passwordAuthBox } }
    login := { fields := { passwordAuth := some passwordAuth } }
    loginId := loginId }

/-- A simulated password environment: usernames are normalised to lower
case, and the hash of a text under a record is the text followed by the
parameter `n` of the record. -/
def fakePassword : PasswordEnv where
  fixUsername := fun username => String.mk (username.toList.map Char.toLower)
  scrypt := fun text snrp => text.toList.map Char.toNat ++ [snrp.n]
  passwordAuthSnrp := { salt_hex := "00", n := 1, r := 1, p := 1 }

/-- A salt/parameter record as `makeSnrp` might draw it. -/
def sampleSnrp : Snrp := { salt_hex := "ab", n := 2, r := 1, p := 1 }

/-! ## Creating a login (`modules/login/create.js`) -/

/-- The options of `createLogin` (`LoginCreateOpts`). -/
structure LoginCreateOpts where
  keyInfo : Option KeyInfo := none
  password : Option String := none
  pin : Option String := none
  deriving DecidableEq, Repr

/-- The three parts that `makeCreateKit` reads of a PIN kit; `Q` is the type
of its `server` payload. -/
structure PinKit (Q : Type) where
  server : Q
  stash : StashData
  login : LoginData

/-- The `server` payload of a create kit: the fields that `makeCreateKit`
writes, then the payloads of the password, PIN and keys kits that it spreads
into the object. -/
structure CreatePayload (Q : Type) where
  appId : String
  loginAuth : String
  loginAuthBox : Box
  loginId : String
  parentBox : Option Box
  password : Option PasswordPayload
  pin2 : Option Q
  keys : Option KeysPayload

/-- The kit that `makeCreateKit` returns. -/
structure CreateKit (Q : Type) where
  serverPath : String
  server : CreatePayload Q
  stash : StashData
  login : LoginData

/-- The values that `makeCreateKit` draws: `io.random(32)` for the login id
of a child login, for the login key and for the login authentication, and
the record of `makeSnrp` for the password kit. -/
structure CreateRandom where
  loginId : Bytes
  loginKey : Bytes
  loginAuth : Bytes
  passwordKeySnrp : Snrp
  deriving DecidableEq, Repr

/-- Modelled from the spec: the collaborators of `createLogin`, whose code
(`loginStore.js`, `authServer.js`, `pin2.js`) is not part of the sources.
`S` is the state of the auth server and `D` the state of the stash storage.
`makePin2Kit` stands for the PIN kit, of which the spec says that "a
locally-cached low-entropy secret unlocks a `pin2Key`-derived box". The
`makePasswordKit` that `create.js` imports from `modules/login/password.js`
is not part of the sources either; the function of that name in
`login/password.js` stands for it. -/
structure CreateEnv (S D Q : Type) where
  /-- The collaborators of the password kit; its `fixUsername` is the one
  that `createLogin` calls. -/
  password : PasswordEnv
  /-- The user id of a username, `hashUsername(ai, username)`. -/
  hashUsername : String → Bytes
  /-- The PIN kit for a login key, a username and a PIN. -/
  makePin2Kit : Bytes → String → String → PinKit Q
  /-- The reply to a request and the next state of the server. -/
  authRequest : S → String → String → CreatePayload Q → Except String Unit × S
  /-- The storage after writing a stash, `loginStore.save(stashTree)`. -/
  save : D → TreeNode StashData → Except String D

/-- Assembles all the data needed to create a new login (`makeCreateKit`).
`parentKey` is the `loginKey` of `parentLogin`, `none` when there is no
parent login. The kits for a password, a PIN and a key info are made for the
login `{ loginKey }`, and only their parts are read. -/
def makeCreateKit {S D Q : Type} (c : Codec) (env : CreateEnv S D Q) (random : CreateRandom)
    (parentKey : Option Bytes) (appId username : String) (opts : LoginCreateOpts) :
    Except LoginError (CreateKit Q) :=
  -- Figure out login identity:
  let loginId :=
    match parentKey with
    | some _ => random.loginId
    | none => env.hashUsername username
  let loginKey := random.loginKey
  let loginAuth := random.loginAuth
  let loginAuthBox := c.encrypt loginAuth loginKey
  -- Set up login methods:
  let parentBox := parentKey.map (fun key => c.encrypt loginKey key)
  let passwordKit := opts.password.map (fun password =>
    makePasswordKit c env.password random.passwordKeySnrp loginKey "" username password)
  let pin2Kit := opts.pin.map (fun pin => env.makePin2Kit loginKey username pin)
  let keysKit : Except LoginError (Option (LoginKit KeysPayload)) :=
    match opts.keyInfo with
    | none => .ok none
    | some keyInfo =>
      match makeKeysKit c loginKey "" [keyInfo] with
      | .error e => .error e
      | .ok kit => .ok (some kit)
  match keysKit with
  | .error e => .error e
  | .ok keysKit =>
    let passwordStash : StashData := (passwordKit.map (fun kit => kit.stash.fields)).getD {}
    let pinStash : StashData := (pin2Kit.map (fun kit => kit.stash)).getD {}
    let keysStash : StashData := (keysKit.map (fun kit => kit.stash.fields)).getD {}
    let passwordLogin : LoginData := (passwordKit.map (fun kit => kit.login.fields)).getD {}
    let pinLogin : LoginData := (pin2Kit.map (fun kit => kit.login)).getD {}
    let keysLogin : LoginData := (keysKit.map (fun kit => kit.login.fields)).getD {}
    -- Bundle everything:
    .ok
      { serverPath := "/v2/login/create"
        server :=
          { appId := appId
            loginAuth := c.base64Stringify loginAuth
            loginAuthBox := loginAuthBox
            loginId := c.base64Stringify loginId
            parentBox := parentBox
            password := passwordKit.map (fun kit => kit.server)
            pin2 := pin2Kit.map (fun kit => kit.server)
            keys := keysKit.map (fun kit => kit.server) }
        stash :=
          (((({ appId := some appId
                loginAuthBox := some loginAuthBox
                loginId := some (c.base64Stringify loginId)
                parentBox := parentBox } : StashData).assign passwordStash).assign
            pinStash).assign keysStash)
        login :=
          (((({ appId := some appId
                loginAuth := some loginAuth
                loginId := some (c.base64Stringify loginId)
                loginKey := some loginKey
                keyInfos := some [] } : LoginData).assign passwordLogin).assign
            pinLogin).assign keysLogin) }

/-- The ways `createLogin` can fail. -/
inductive CreateError where
  /-- `makeCreateKit` threw. -/
  | kit (e : LoginError)
  /-- The auth server request failed. -/
  | requestFailed (message : String)
  /-- The login store rejected `save`. -/
  | saveFailed (message : String)
  deriving DecidableEq, Repr

/-- Creates a new login on the auth server (`createLogin`). The result is the
value of the promise, or the error it throws or rejects with, then the server
and the storage afterwards. -/
def createLogin {S D Q : Type} (c : Codec) (env : CreateEnv S D Q) (random : CreateRandom)
    (server : S) (store : D) (username : String) (opts : LoginCreateOpts) :
    Except CreateError (TreeNode LoginData) × S × D :=
  let fixedName := env.password.fixUsername username
  match makeCreateKit c env random none "" fixedName opts with
  | .error e => (.error (.kit e), server, store)
  | .ok kit =>
    let login : LoginData :=
      { kit.login with username := some fixedName, userId := kit.login.loginId }
    let stash : StashData := { kit.stash with username := some fixedName }
    let posted := env.authRequest server "POST" kit.serverPath kit.server
    match posted.1 with
    | .error message => (.error (.requestFailed message), posted.2, store)
    | .ok _ =>
      match env.save store (.node stash []) with
      | .error message => (.error (.saveFailed message), posted.2, store)
      | .ok store' => (.ok (.node login []), posted.2, store')

/-! ## Worked examples: creating the login of `alice` -/

/-- A simulated environment for `createLogin`: the user id of a username is
its text, the PIN kit sets a fixed PIN key, the server keeps the payloads it
is sent and the storage holds at most one stash. -/
def createEnv : CreateEnv (List (CreatePayload Unit)) (Option (TreeNode StashData)) Unit where
  password := fakePassword
  hashUsername := fun username => username.toList.map Char.toNat
  makePin2Kit := fun _ _ _ =>
    { server := (), stash := { pin2Key := some "AAAA" }, login := { pin2Key := some [0, 0, 0] } }
  authRequest := fun server _ _ body => (.ok (), server ++ [body])
  save := fun _ stashTree => .ok (some stashTree)

/-- The values drawn while the login of `alice` is created. -/
def createRandom : CreateRandom :=
  { loginId := [7], loginKey := rootKey, loginAuth := [65], passwordKeySnrp := sampleSnrp }

/-- The options with which the login of `alice` is created: a password and a
PIN. -/
def aliceOpts : LoginCreateOpts :=
  { password := some "CorrectHorse93!", pin := some "1234" }

/-- The login that `createLogin` returns for `Alice`. -/
def aliceLogin : TreeNode LoginData :=
  .node { username := some "alice", appId := some "", loginId := some "alice",
          loginKey := some rootKey, userId := some "alice", loginAuth := some [65],
          passwordAuth := some (fakePassword.scrypt "aliceCorrectHorse93!"
            fakePassword.passwordAuthSnrp),
          pin2Key := some [0, 0, 0], keyInfos := some [] } []

/-! # Properties -/

/-! ## Facts about object reads, writes and spreads -/

theorem objGet_objSet_same {V : Type} (obj : List (String × V)) (key : String) (value : V) :
    objGet (objSet obj key value) key = some value := by
  induction obj with
  | nil => simp [objSet, objGet]
  | cons p rest ih =>
    obtain ⟨k, v⟩ := p
    by_cases h : k = key
    · simp [objSet, objGet, h]
    · simp [objSet, objGet, h, ih]

theorem objGet_objSet_other {V : Type} (obj : List (String × V)) (key other : String) (value : V)
    (hne : other ≠ key) : objGet (objSet obj key value) other = objGet obj other := by
  induction obj with
  | nil =>
    have h : ¬ key = other := fun h => hne h.symm
    simp [objSet, objGet, h]
  | cons p rest ih =>
    obtain ⟨k, v⟩ := p
    by_cases h : k = key
    · have h2 : ¬ key = other := fun h => hne h.symm
      simp [objSet, objGet, h, h2]
    · by_cases h3 : k = other
      · simp [objSet, objGet, h, h3]
        simp [hne, objGet]
      · simp [objSet, objGet, h, h3, ih]

theorem objSet_eq_self {V : Type} (obj : List (String × V)) (key : String) (value : V)
    (h : objGet obj key = some value) : objSet obj key value = obj := by
  induction obj with
  | nil => simp [objGet] at h
  | cons p rest ih =>
    obtain ⟨k, v⟩ := p
    by_cases hk : k = key
    · simp [objGet, hk] at h
      simp [objSet, hk, h]
    · simp [objGet, hk] at h
      simp [objSet, hk, ih h]

theorem objGet_isSome_iff_mem_keys {V : Type} (obj : List (String × V)) (key : String) :
    (∃ v, objGet obj key = some v) ↔ key ∈ objKeys obj := by
  induction obj with
  | nil => simp [objGet, objKeys]
  | cons p rest ih =>
    obtain ⟨k, v⟩ := p
    by_cases hk : k = key
    · simp [objGet, objKeys, hk]
    · have hk2 : ¬ key = k := fun h => hk h.symm
      simp only [objGet, hk, if_false, objKeys, List.map_cons, List.mem_cons, hk2, false_or]
      simpa [objKeys] using ih

theorem objGet_foldl_spreadStep {V : Type} (source : List (String × V)) (ks : List String)
    (target : List (String × V)) (key : String) :
    objGet (ks.foldl (spreadStep source) target) key =
      if key ∈ ks then
        (match objGet source key with
         | some v => some v
         | none => objGet target key)
      else objGet target key := by
  induction ks generalizing target with
  | nil => simp
  | cons k rest ih =>
    rw [List.foldl_cons, ih]
    by_cases hk : key = k
    · subst hk
      cases hs : objGet source key with
      | none => simp [spreadStep, hs]
      | some v => simp [spreadStep, hs, objGet_objSet_same]
    · have hstep : objGet (spreadStep source target k) key = objGet target key := by
        unfold spreadStep
        cases hs : objGet source k with
        | none => rfl
        | some v => exact objGet_objSet_other target k key v hk
      simp [hk, hstep]

/-- Reading a spread: the source wins, the target supplies the rest. -/
theorem objGet_objSpread {V : Type} (target source : List (String × V)) (key : String) :
    objGet (objSpread target source) key =
      (match objGet source key with
       | some v => some v
       | none => objGet target key) := by
  rw [objSpread, objGet_foldl_spreadStep]
  by_cases hk : key ∈ objKeys source
  · simp [hk]
  · have hnone : objGet source key = none := by
      cases hs : objGet source key with
      | none => rfl
      | some v => exact absurd ((objGet_isSome_iff_mem_keys source key).1 ⟨v, hs⟩) hk
    simp [hk, hnone]

theorem foldl_spreadStep_eq_self {V : Type} (source : List (String × V)) (ks : List String)
    (target : List (String × V))
    (h : ∀ k v, objGet source k = some v → objGet target k = some v) :
    ks.foldl (spreadStep source) target = target := by
  induction ks with
  | nil => rfl
  | cons k rest ih =>
    rw [List.foldl_cons]
    have hstep : spreadStep source target k = target := by
      unfold spreadStep
      cases hs : objGet source k with
      | none => rfl
      | some v => exact objSet_eq_self target k v (h k v hs)
    rw [hstep, ih]

/-- Spreading a source whose bindings the target already has changes nothing. -/
theorem objSpread_eq_self {V : Type} (target source : List (String × V))
    (h : ∀ k v, objGet source k = some v → objGet target k = some v) :
    objSpread target source = target :=
  foldl_spreadStep_eq_self source (objKeys source) target h

theorem findKeyConflict_eq_none_iff (oldKeys keys : List (String × JVal)) (ks : List String) :
    findKeyConflict oldKeys keys ks = none ↔ ∀ k ∈ ks, keyConflict oldKeys keys k = false := by
  induction ks with
  | nil => simp [findKeyConflict]
  | cons k rest ih =>
    cases h : keyConflict oldKeys keys k with
    | true => simp [findKeyConflict, h]
    | false => simp [findKeyConflict, h, ih]

/-- A stored value that is not null passes the test only against the same
incoming value. -/
theorem keyConflict_false_own {oldKeys keys : List (String × JVal)} {k : String} {v : JVal}
    (ho : objGet oldKeys k = some v) (hv : v ≠ .null)
    (h : keyConflict oldKeys keys k = false) : objGet keys k = some v := by
  unfold keyConflict at h
  rw [ho] at h
  cases v with
  | null => exact absurd rfl hv
  | str s =>
    simp only [decide_eq_false_iff_not, ne_eq, not_not] at h
    exact h.symm
  | num n =>
    simp only [decide_eq_false_iff_not, ne_eq, not_not] at h
    exact h.symm

/-- An incoming value that the stored key map already holds passes the test. -/
theorem keyConflict_agree {oldKeys keys : List (String × JVal)} {k : String} {v : JVal}
    (ho : objGet oldKeys k = some v) (hk : objGet keys k = some v) :
    keyConflict oldKeys keys k = false := by
  unfold keyConflict
  rw [ho, hk]
  cases v <;> simp

/-- A key name without a stored value fails the test exactly when it is a
property name of `Object.prototype`. -/
theorem keyConflict_absent {oldKeys keys : List (String × JVal)} {k : String}
    (ho : objGet oldKeys k = none) :
    keyConflict oldKeys keys k = decide (k ∈ objectPrototypeNames) := by
  unfold keyConflict
  rw [ho]

/-! ## The loop invariant of `mergeKeyInfos` -/

theorem firstOccurrences_mem (l : List (Option String)) (a : Option String) :
    a ∈ firstOccurrences l ↔ a ∈ l := by
  induction l with
  | nil => simp [firstOccurrences]
  | cons b rest ih =>
    by_cases h : a = b
    · simp [firstOccurrences, h]
    · simp [firstOccurrences, h, ih]

theorem firstOccurrences_nodup (l : List (Option String)) : (firstOccurrences l).Nodup := by
  induction l with
  | nil => simp [firstOccurrences]
  | cons b rest ih =>
    simp only [firstOccurrences, List.nodup_cons]
    exact ⟨by simp [List.mem_filter], ih.filter _⟩

theorem firstOccurrences_snoc (l : List (Option String)) (a : Option String) :
    firstOccurrences (l ++ [a]) =
      if a ∈ l then firstOccurrences l else firstOccurrences l ++ [a] := by
  induction l with
  | nil => simp [firstOccurrences]
  | cons b rest ih =>
    rw [List.cons_append, firstOccurrences, firstOccurrences, ih]
    by_cases hab : a = b
    · subst hab
      by_cases hr : a ∈ rest
      · simp [hr]
      · simp [hr, List.filter_append]
    · by_cases hr : a ∈ rest
      · simp [hr, hab]
      · simp [hr, hab, List.filter_append]

theorem mergeStep_ok_cases (parseLen : String → Option Nat) (st st' : MergeState) (r : KeyInfo)
    (h : mergeStep parseLen st r = .ok st') :
    ∃ id, r.id = some id ∧ parseLen id = some 32 ∧
      ((objGet st.ids id = none ∧
          st' = { out := st.out ++ [r], ids := objSet st.ids id st.out.length }) ∨
       (∃ n old, objGet st.ids id = some n ∧ st.out[n]? = some old ∧ old.type = r.type ∧
          findKeyConflict old.keys r.keys (objKeys r.keys) = none ∧
          st' = { out := st.out.set n
                    { id := some id, type := r.type, keys := objSpread old.keys r.keys }
                  ids := st.ids })) := by
  unfold mergeStep at h
  cases hid : r.id with
  | none => simp [hid] at h
  | some id =>
    simp only [hid] at h
    cases hp : parseLen id with
    | none => simp [hp] at h
    | some len =>
      simp only [hp] at h
      by_cases hlen : len = 32
      · subst hlen
        simp only [ne_eq, not_true_eq_false, if_false] at h
        refine ⟨id, rfl, hp, ?_⟩
        cases hg : objGet st.ids id with
        | none =>
          simp only [hg] at h
          left
          exact ⟨rfl, (Except.ok.inj h).symm⟩
        | some n =>
          simp only [hg] at h
          right
          cases ho : st.out[n]? with
          | none => simp [ho] at h
          | some old =>
            simp only [ho] at h
            by_cases ht : old.type = r.type
            · simp only [ht, ne_eq, not_true_eq_false, if_false] at h
              cases hc : findKeyConflict old.keys r.keys (objKeys r.keys) with
              | some key => simp [hc] at h
              | none =>
                simp only [hc] at h
                exact ⟨n, old, rfl, ho, ht, hc, (Except.ok.inj h).symm⟩
            · simp [ht] at h
      · simp [hlen] at h

theorem getElem?_snoc_eq_some {α : Type} (l : List α) (a o : α) (n : Nat) :
    (l ++ [a])[n]? = some o ↔ l[n]? = some o ∨ (n = l.length ∧ o = a) := by
  rw [List.getElem?_append]
  by_cases hn : n < l.length
  · simp only [hn, if_true]
    constructor
    · intro h
      exact Or.inl h
    · rintro (h | ⟨h, _⟩)
      · exact h
      · omega
  · simp only [hn, if_false]
    have hnone : l[n]? = none := List.getElem?_eq_none (by omega)
    by_cases he : n = l.length
    · subst he
      simp [hnone, eq_comm]
    · have hpos : 0 < n - l.length := by omega
      obtain ⟨m, hm⟩ : ∃ m, n - l.length = m + 1 := ⟨n - l.length - 1, by omega⟩
      simp [hm, hnone, he]

theorem set_eq_self_of_getElem? {α : Type} (l : List α) (n : Nat) (a : α)
    (h : l[n]? = some a) : l.set n a = l := by
  induction l generalizing n with
  | nil => simp
  | cons b rest ih =>
    cases n with
    | zero =>
      simp at h
      simp [h]
    | succ m =>
      simp at h
      simp [ih m h]

/-- Under `TableOK`, two entries of `out` with the same id are the same entry. -/
theorem TableOK.unique {st : MergeState} (ht : TableOK st) {n m : Nat} {o o' : KeyInfo}
    (hn : st.out[n]? = some o) (hm : st.out[m]? = some o') (hid : o.id = o'.id) :
    n = m := by
  obtain ⟨i, hi, hgi⟩ := ht.2 n o hn
  obtain ⟨j, hj, hgj⟩ := ht.2 m o' hm
  have hij : i = j := by
    rw [hi, hj] at hid
    exact Option.some.inj hid
  subst hij
  rw [hgi] at hgj
  exact Option.some.inj hgj

theorem mergeLoop_append (parseLen : String → Option Nat) (l₁ l₂ : List KeyInfo) :
    ∀ st : MergeState, mergeLoop parseLen st (l₁ ++ l₂) =
      match mergeLoop parseLen st l₁ with
      | .error e => .error e
      | .ok st' => mergeLoop parseLen st' l₂ := by
  induction l₁ with
  | nil => intro st; rfl
  | cons r rest ih =>
    intro st
    simp only [List.cons_append, mergeLoop]
    cases hs : mergeStep parseLen st r with
    | error e => rfl
    | ok st1 => exact ih st1

/-- Under `TableOK`, two records of `out` with the same id are the same record. -/
theorem TableOK.same_entry {st : MergeState} (ht : TableOK st) {o o' : KeyInfo}
    (ho : o ∈ st.out) (ho' : o' ∈ st.out) (hid : o.id = o'.id) : o = o' := by
  obtain ⟨n, hn⟩ := List.getElem?_of_mem ho
  obtain ⟨m, hm⟩ := List.getElem?_of_mem ho'
  have hnm := ht.unique hn hm hid
  subst hnm
  rw [hn] at hm
  exact Option.some.inj hm

theorem MergeInv.init (parseLen : String → Option Nat) :
    MergeInv parseLen [] { out := [], ids := [] } where
  table := ⟨fun id n h => by simp [objGet] at h, fun n o h => by simp at h⟩
  order := rfl
  valid := fun r hr => by simp at hr
  covers := fun r hr => by simp at hr
  origin := fun o ho => by simp at ho
  follows := List.Pairwise.nil
  rebuilds := by
    intro out2 h
    have : out2 = [] := by simpa using h
    subst this
    rfl

/-- The invariant survives the insertion of a record with an unseen id. -/
theorem MergeInv.insert {parseLen : String → Option Nat} {pre : List KeyInfo} {st : MergeState}
    (inv : MergeInv parseLen pre st) (r : KeyInfo) (id : String) (hid : r.id = some id)
    (hvalid : parseLen id = some 32) (hnew : objGet st.ids id = none) :
    MergeInv parseLen (pre ++ [r])
      { out := st.out ++ [r], ids := objSet st.ids id st.out.length } where
  table := by
    constructor
    · intro id' n h
      by_cases hi : id' = id
      · subst hi
        rw [objGet_objSet_same] at h
        have hn : n = st.out.length := (Option.some.inj h).symm
        subst hn
        exact ⟨r, List.getElem?_concat_length _ _, hid⟩
      · rw [objGet_objSet_other _ _ _ _ hi] at h
        obtain ⟨o, ho, hoid⟩ := inv.table.1 id' n h
        exact ⟨o, (getElem?_snoc_eq_some _ _ _ _).2 (Or.inl ho), hoid⟩
    · intro n o h
      rcases (getElem?_snoc_eq_some _ _ _ _).1 h with ho | ⟨hn, ho⟩
      · obtain ⟨id', hoid, hg⟩ := inv.table.2 n o ho
        have hne : id' ≠ id := by
          intro he
          subst he
          rw [hnew] at hg
          exact absurd hg (by simp)
        exact ⟨id', hoid, by rw [objGet_objSet_other _ _ _ _ hne]; exact hg⟩
      · subst hn
        subst ho
        exact ⟨id, hid, objGet_objSet_same _ _ _⟩
  order := by
    have hnot : r.id ∉ pre.map (fun r => r.id) := by
      intro hmem
      obtain ⟨r', hr', hr'id⟩ := List.mem_map.1 hmem
      obtain ⟨o, ho, hoid, -, -⟩ := inv.covers r' hr'
      obtain ⟨n, hn⟩ := List.getElem?_of_mem ho
      obtain ⟨id', hid', hg⟩ := inv.table.2 n o hn
      have : id' = id := by
        have := hoid.trans (hr'id.trans hid)
        rw [hid'] at this
        exact Option.some.inj this
      subst this
      rw [hnew] at hg
      exact absurd hg (by simp)
    simp only [List.map_append, List.map_singleton]
    rw [firstOccurrences_snoc, if_neg hnot, inv.order]
  valid := by
    intro r' hr'
    rcases List.mem_append.1 hr' with h | h
    · exact inv.valid r' h
    · have : r' = r := by simpa using h
      subst this
      simp [validId, hid, hvalid]
  covers := by
    intro r' hr'
    rcases List.mem_append.1 hr' with h | h
    · obtain ⟨o, ho, rest⟩ := inv.covers r' h
      exact ⟨o, List.mem_append_left _ ho, rest⟩
    · have : r' = r := by simpa using h
      subst this
      exact ⟨r', by simp, rfl, rfl, fun k v hk => ⟨⟨v, hk⟩, fun _ => hk⟩⟩
  origin := by
    intro o ho
    rcases List.mem_append.1 ho with h | h
    · obtain ⟨⟨r', hr', hr'id⟩, hkeys⟩ := inv.origin o h
      refine ⟨⟨r', List.mem_append_left _ hr', hr'id⟩, ?_⟩
      intro k v hk
      obtain ⟨r2, hr2, hr2id, hr2k⟩ := hkeys k v hk
      exact ⟨r2, List.mem_append_left _ hr2, hr2id, hr2k⟩
    · have : o = r := by simpa using h
      subst this
      exact ⟨⟨o, by simp, rfl, rfl⟩, fun k v hk => ⟨o, by simp, rfl, hk⟩⟩
  follows := by
    rw [List.pairwise_append]
    refine ⟨inv.follows, List.pairwise_singleton _ _, ?_⟩
    intro a ha b hb hab
    have hbr : b = r := by simpa using hb
    subst hbr
    exfalso
    obtain ⟨o, ho, hoid, -, -⟩ := inv.covers a ha
    obtain ⟨n, hn⟩ := List.getElem?_of_mem ho
    obtain ⟨id', hid', hg⟩ := inv.table.2 n o hn
    have : id' = id := by
      have := hoid.trans (hab.trans hid)
      rw [hid'] at this
      exact Option.some.inj this
    subst this
    rw [hnew] at hg
    exact absurd hg (by simp)
  rebuilds := by
    intro out2 h
    simp only [List.map_append, List.map_singleton] at h
    obtain ⟨l₁, l₂, rfl, h₁, h₂⟩ := List.map_eq_append_iff.1 h
    obtain ⟨r2, rfl, hr2⟩ : ∃ r2, l₂ = [r2] ∧ r2.id = r.id := by
      cases l₂ with
      | nil => simp at h₂
      | cons x rest =>
        cases rest with
        | nil => exact ⟨x, rfl, by simpa using h₂⟩
        | cons y rest2 => simp at h₂
    have hlen : l₁.length = st.out.length := by
      have := congrArg List.length h₁
      simpa using this
    rw [mergeLoop_append, inv.rebuilds l₁ h₁]
    simp only [mergeLoop, mergeStep, hr2, hid, hvalid, ne_eq, not_true_eq_false, if_false,
      hnew, hlen]

/-- The invariant survives the merge of a record into the stored record of
the same id. -/
theorem MergeInv.update {parseLen : String → Option Nat} {pre : List KeyInfo} {st : MergeState}
    (inv : MergeInv parseLen pre st) (r : KeyInfo) (id : String) (hid : r.id = some id)
    (hvalid : parseLen id = some 32) (n : Nat) (old : KeyInfo)
    (hg : objGet st.ids id = some n) (ho : st.out[n]? = some old)
    (hc : findKeyConflict old.keys r.keys (objKeys r.keys) = none) (ht : old.type = r.type) :
    MergeInv parseLen (pre ++ [r])
      { out := st.out.set n { id := some id, type := r.type, keys := objSpread old.keys r.keys }
        ids := st.ids } := by
  have holdid : old.id = some id := by
    obtain ⟨o, ho', hoid⟩ := inv.table.1 id n hg
    rw [ho] at ho'
    rw [Option.some.inj ho']
    exact hoid
  have hlt : n < st.out.length := by
    rcases List.getElem?_eq_some.1 ho with ⟨h, -⟩
    exact h
  have holdmem : old ∈ st.out := List.getElem?_mem ho
  have hpass : ∀ k w, objGet r.keys k = some w → keyConflict old.keys r.keys k = false :=
    fun k w hw => (findKeyConflict_eq_none_iff old.keys r.keys _).1 hc k
      ((objGet_isSome_iff_mem_keys r.keys k).1 ⟨w, hw⟩)
  have hnewmem : ({ id := some id, type := r.type, keys := objSpread old.keys r.keys } : KeyInfo) ∈
      st.out.set n { id := some id, type := r.type, keys := objSpread old.keys r.keys } :=
    List.getElem?_mem (List.getElem?_set_self hlt)
  refine ⟨?_, ?_, ?_, ?_, ?_, ?_, ?_⟩
  · constructor
    · intro id' m h
      obtain ⟨o, hom, hoid⟩ := inv.table.1 id' m h
      by_cases hnm : n = m
      · subst hnm
        rw [ho] at hom
        have : old = o := Option.some.inj hom
        subst this
        refine ⟨_, List.getElem?_set_self hlt, ?_⟩
        rw [← hoid, holdid]
      · exact ⟨o, by rw [List.getElem?_set_ne hnm]; exact hom, hoid⟩
    · intro m o h
      by_cases hnm : n = m
      · subst hnm
        rw [List.getElem?_set_self hlt] at h
        have := Option.some.inj h
        subst this
        exact ⟨id, rfl, hg⟩
      · rw [List.getElem?_set_ne hnm] at h
        exact inv.table.2 m o h
  · have hmem : r.id ∈ pre.map (fun r => r.id) := by
      obtain ⟨⟨r', hr', hr'id, -⟩, -⟩ := inv.origin old holdmem
      exact List.mem_map.2 ⟨r', hr', by rw [hr'id, holdid, hid]⟩
    simp only [List.map_append, List.map_singleton, List.map_set]
    rw [firstOccurrences_snoc, if_pos hmem, ← inv.order]
    apply set_eq_self_of_getElem?
    rw [List.getElem?_map, ho, Option.map_some', holdid]
  · intro r' hr'
    rcases List.mem_append.1 hr' with h | h
    · exact inv.valid r' h
    · have : r' = r := by simpa using h
      subst this
      simp [validId, hid, hvalid]
  · intro r' hr'
    rcases List.mem_append.1 hr' with h | h
    · obtain ⟨o, hoin, hoid, hotype, hokeys⟩ := inv.covers r' h
      obtain ⟨m, hm⟩ := List.getElem?_of_mem hoin
      by_cases hnm : n = m
      · subst hnm
        rw [ho] at hm
        have : old = o := Option.some.inj hm
        subst this
        refine ⟨_, hnewmem, ?_, ?_, ?_⟩
        · exact (holdid.symm.trans hoid)
        · exact ht.symm.trans hotype
        · intro k v hk
          have hold := hokeys k v hk
          show (∃ w, objGet (objSpread old.keys r.keys) k = some w) ∧
            (v ≠ .null → objGet (objSpread old.keys r.keys) k = some v)
          rw [objGet_objSpread]
          cases hr : objGet r.keys k with
          | none => exact hold
          | some w =>
            refine ⟨⟨w, rfl⟩, fun hv => ?_⟩
            have := keyConflict_false_own (hold.2 hv) hv (hpass k w hr)
            rw [hr] at this
            rw [Option.some.inj this]
      · exact ⟨o, List.getElem?_mem (by rw [List.getElem?_set_ne hnm]; exact hm), hoid, hotype,
          hokeys⟩
    · have : r' = r := by simpa using h
      subst this
      refine ⟨_, hnewmem, hid.symm, rfl, ?_⟩
      intro k v hk
      show (∃ w, objGet (objSpread old.keys r'.keys) k = some w) ∧
        (v ≠ .null → objGet (objSpread old.keys r'.keys) k = some v)
      rw [objGet_objSpread, hk]
      exact ⟨⟨v, rfl⟩, fun _ => rfl⟩
  · intro o hoin
    rcases List.mem_or_eq_of_mem_set hoin with h | h
    · obtain ⟨⟨r', hr', hr'id⟩, hkeys⟩ := inv.origin o h
      refine ⟨⟨r', List.mem_append_left _ hr', hr'id⟩, ?_⟩
      intro k v hk
      obtain ⟨r2, hr2, hr2id, hr2k⟩ := hkeys k v hk
      exact ⟨r2, List.mem_append_left _ hr2, hr2id, hr2k⟩
    · subst h
      refine ⟨⟨r, by simp, hid, rfl⟩, ?_⟩
      intro k v hk
      have hk' : objGet (objSpread old.keys r.keys) k = some v := hk
      rw [objGet_objSpread] at hk'
      cases hr : objGet r.keys k with
      | some w =>
        rw [hr] at hk'
        exact ⟨r, by simp, hid, by rw [hr]; exact hk'⟩
      | none =>
        rw [hr] at hk'
        obtain ⟨-, hkeys⟩ := inv.origin old holdmem
        obtain ⟨r2, hr2, hr2id, hr2k⟩ := hkeys k v hk'
        exact ⟨r2, List.mem_append_left _ hr2, hr2id.trans holdid, hr2k⟩
  · rw [List.pairwise_append]
    refine ⟨inv.follows, List.pairwise_singleton _ _, ?_⟩
    intro a ha b hb hab
    have hbr : b = r := by simpa using hb
    subst hbr
    obtain ⟨o, hoin, hoid, hotype, hokeys⟩ := inv.covers a ha
    have hoold : o = old :=
      inv.table.same_entry hoin holdmem (by rw [hoid, hab, hid, holdid])
    subst hoold
    refine ⟨hotype.symm.trans ht, ?_⟩
    intro k v w hv hw
    by_cases hnull : v = .null
    · exact Or.inl hnull
    · right
      have := keyConflict_false_own ((hokeys k v hv).2 hnull) hnull (hpass k w hw)
      rw [hw] at this
      exact (Option.some.inj this).symm
  · intro out2 h
    apply inv.rebuilds out2
    rw [h, List.map_set]
    apply set_eq_self_of_getElem?
    rw [List.getElem?_map, ho, Option.map_some', holdid]

/-- One successful iteration of the loop preserves the invariant. -/
theorem MergeInv.step {parseLen : String → Option Nat} {pre : List KeyInfo} {st st' : MergeState}
    (inv : MergeInv parseLen pre st) (r : KeyInfo) (h : mergeStep parseLen st r = .ok st') :
    MergeInv parseLen (pre ++ [r]) st' := by
  obtain ⟨id, hid, hvalid, hcase⟩ := mergeStep_ok_cases parseLen st st' r h
  rcases hcase with ⟨hnew, rfl⟩ | ⟨n, old, hg, ho, ht, hc, rfl⟩
  · exact inv.insert r id hid hvalid hnew
  · exact inv.update r id hid hvalid n old hg ho hc ht

/-- A successful run of the loop preserves the invariant. -/
theorem MergeInv.loop {parseLen : String → Option Nat} (l : List KeyInfo) :
    ∀ {pre : List KeyInfo} {st st' : MergeState}, MergeInv parseLen pre st →
      mergeLoop parseLen st l = .ok st' → MergeInv parseLen (pre ++ l) st' := by
  induction l with
  | nil =>
    intro pre st st' inv h
    simp only [mergeLoop] at h
    rw [List.append_nil, ← Except.ok.inj h]
    exact inv
  | cons r rest ih =>
    intro pre st st' inv h
    simp only [mergeLoop] at h
    cases hs : mergeStep parseLen st r with
    | error e => simp [hs] at h
    | ok st1 =>
      simp only [hs] at h
      have := ih (inv.step r hs) h
      simpa using this

/-- Whenever `mergeKeyInfos` returns, its loop has ended in a state that holds
the result and satisfies the invariant for the whole input. -/
theorem mergeKeyInfos_loop {parseLen : String → Option Nat} {l out : List KeyInfo}
    (h : mergeKeyInfos parseLen l = .ok out) :
    ∃ st, mergeLoop parseLen { out := [], ids := [] } l = .ok st ∧ st.out = out ∧
      MergeInv parseLen l st := by
  unfold mergeKeyInfos at h
  cases hl : mergeLoop parseLen { out := [], ids := [] } l with
  | error e => simp [hl] at h
  | ok st =>
    simp only [hl] at h
    refine ⟨st, rfl, Except.ok.inj h, ?_⟩
    have := MergeInv.loop l (MergeInv.init parseLen) hl
    simpa using this

/-- Whenever `mergeKeyInfos` returns, its result satisfies the loop invariant
for the whole input. -/
theorem mergeKeyInfos_inv {parseLen : String → Option Nat} {l out : List KeyInfo}
    (h : mergeKeyInfos parseLen l = .ok out) :
    ∃ st, st.out = out ∧ MergeInv parseLen l st := by
  obtain ⟨st, -, hout, inv⟩ := mergeKeyInfos_loop h
  exact ⟨st, hout, inv⟩

/-- Two entries of the output with the same id are the same entry. -/
theorem MergeInv.eq_of_id {parseLen : String → Option Nat} {pre : List KeyInfo}
    {st : MergeState} (inv : MergeInv parseLen pre st) {o o' : KeyInfo}
    (ho : o ∈ st.out) (ho' : o' ∈ st.out) (hid : o.id = o'.id) : o = o' :=
  inv.table.same_entry ho ho' hid

/-- Under the invariant, the output record of an id has the type of every
record read so far with that id. -/
theorem MergeInv.type_eq {parseLen : String → Option Nat} {pre : List KeyInfo}
    {st : MergeState} (inv : MergeInv parseLen pre st) {o r : KeyInfo}
    (ho : o ∈ st.out) (hr : r ∈ pre) (hid : o.id = r.id) : o.type = r.type := by
  obtain ⟨o', ho', hoid', hotype', -⟩ := inv.covers r hr
  have heq : o' = o := inv.eq_of_id ho' ho (hoid'.trans hid.symm)
  subst heq
  exact hotype'

/-- Under the invariant, the output record of an id holds a key name exactly
when a record read so far with that id holds it. -/
theorem MergeInv.keys_present {parseLen : String → Option Nat} {pre : List KeyInfo}
    {st : MergeState} (inv : MergeInv parseLen pre st) {o : KeyInfo} (ho : o ∈ st.out)
    (k : String) :
    (∃ v, objGet o.keys k = some v) ↔
      ∃ r ∈ pre, r.id = o.id ∧ ∃ v, objGet r.keys k = some v := by
  constructor
  · rintro ⟨v, hv⟩
    obtain ⟨r, hr, hrid, hrk⟩ := (inv.origin o ho).2 k v hv
    exact ⟨r, hr, hrid, v, hrk⟩
  · rintro ⟨r, hr, hrid, v, hrk⟩
    obtain ⟨o', ho', hoid', -, hokeys'⟩ := inv.covers r hr
    have heq : o' = o := inv.eq_of_id ho' ho (hoid'.trans hrid)
    subst heq
    exact (hokeys' k v hrk).1

/-- Under the invariant, the output record of an id holds a non-null value
under a key name exactly when a record read so far with that id does. -/
theorem MergeInv.keys_iff {parseLen : String → Option Nat} {pre : List KeyInfo}
    {st : MergeState} (inv : MergeInv parseLen pre st) {o : KeyInfo} (ho : o ∈ st.out)
    (k : String) (v : JVal) (hv : v ≠ .null) :
    objGet o.keys k = some v ↔ ∃ r ∈ pre, r.id = o.id ∧ objGet r.keys k = some v := by
  constructor
  · exact (inv.origin o ho).2 k v
  · rintro ⟨r, hr, hrid, hrk⟩
    obtain ⟨o', ho', hoid', -, hokeys'⟩ := inv.covers r hr
    have heq : o' = o := inv.eq_of_id ho' ho (hoid'.trans hrid)
    subst heq
    exact (hokeys' k v hrk).2 hv

/-- Under the invariant, a failing iteration fails with an integrity
violation or with the error of the base64 parser. -/
theorem MergeInv.step_error {parseLen : String → Option Nat} {pre : List KeyInfo}
    {st : MergeState} (inv : MergeInv parseLen pre st) (r : KeyInfo) (e : MergeError)
    (h : mergeStep parseLen st r = .error e) :
    e.isIntegrityViolation = true ∨
      ∃ id, r.id = some id ∧ parseLen id = none ∧ e = .base64Syntax id := by
  unfold mergeStep at h
  cases hid : r.id with
  | none =>
    simp only [hid] at h
    rw [← Except.error.inj h]
    exact Or.inl rfl
  | some id =>
    simp only [hid] at h
    cases hp : parseLen id with
    | none =>
      simp only [hp] at h
      exact Or.inr ⟨id, rfl, hp, (Except.error.inj h).symm⟩
    | some len =>
      simp only [hp] at h
      by_cases hlen : len = 32
      · subst hlen
        simp only [ne_eq, not_true_eq_false, if_false] at h
        cases hg : objGet st.ids id with
        | none => simp [hg] at h
        | some n =>
          simp only [hg] at h
          obtain ⟨o, ho, -⟩ := inv.table.1 id n hg
          simp only [ho] at h
          by_cases ht : o.type = r.type
          · simp only [ht, ne_eq, not_true_eq_false, if_false] at h
            cases hc : findKeyConflict o.keys r.keys (objKeys r.keys) with
            | none => simp [hc] at h
            | some key =>
              simp only [hc] at h
              rw [← Except.error.inj h]
              exact Or.inl rfl
          · simp only [ne_eq, ht, not_false_eq_true, if_true] at h
            rw [← Except.error.inj h]
            exact Or.inl rfl
      · simp only [ne_eq, hlen, not_false_eq_true, if_true] at h
        rw [← Except.error.inj h]
        exact Or.inl rfl

/-- Under the invariant, a failing run fails with an integrity violation, or
with the error of the base64 parser on the id of a record that it cannot
parse. -/
theorem MergeInv.loop_error {parseLen : String → Option Nat} (l : List KeyInfo) :
    ∀ {pre : List KeyInfo} {st : MergeState} (e : MergeError), MergeInv parseLen pre st →
      mergeLoop parseLen st l = .error e →
      e.isIntegrityViolation = true ∨
        ∃ r ∈ l, ∃ id, r.id = some id ∧ parseLen id = none ∧ e = .base64Syntax id := by
  induction l with
  | nil =>
    intro pre st e inv h
    simp [mergeLoop] at h
  | cons r rest ih =>
    intro pre st e inv h
    simp only [mergeLoop] at h
    cases hs : mergeStep parseLen st r with
    | error e' =>
      simp only [hs] at h
      rw [← Except.error.inj h]
      rcases inv.step_error r e' hs with hv | ⟨id, hid, hp, he⟩
      · exact Or.inl hv
      · exact Or.inr ⟨r, List.mem_cons_self _ _, id, hid, hp, he⟩
    | ok st1 =>
      simp only [hs] at h
      rcases ih e (inv.step r hs) h with hv | ⟨x, hx, id, hid, hp, he⟩
      · exact Or.inl hv
      · exact Or.inr ⟨x, List.mem_cons_of_mem _ hx, id, hid, hp, he⟩

/-- An iteration on a record with an invalid id throws. -/
theorem mergeStep_invalid (parseLen : String → Option Nat) (st : MergeState) (r : KeyInfo)
    (h : validId parseLen r = false) : ∃ e, mergeStep parseLen st r = .error e := by
  unfold mergeStep
  cases hid : r.id with
  | none => exact ⟨_, rfl⟩
  | some id =>
    cases hp : parseLen id with
    | none => exact ⟨.base64Syntax id, by simp only [hp]⟩
    | some len =>
      have hlen : len ≠ 32 := by
        intro h32
        simp [validId, hid, hp, h32] at h
      exact ⟨.invalidId (some id), by simp [hp, hlen]⟩

/-- A failing `mergeKeyInfos` fails with an integrity violation, or with the
error of the base64 parser on the id of a record that it cannot parse. -/
theorem mergeKeyInfos_error_kind (parseLen : String → Option Nat) (l : List KeyInfo)
    (e : MergeError) (h : mergeKeyInfos parseLen l = .error e) :
    e.isIntegrityViolation = true ∨
      ∃ r ∈ l, ∃ id, r.id = some id ∧ parseLen id = none ∧ e = .base64Syntax id := by
  unfold mergeKeyInfos at h
  cases hl : mergeLoop parseLen { out := [], ids := [] } l with
  | ok st => simp [hl] at h
  | error e' =>
    simp only [hl] at h
    rw [← Except.error.inj h]
    exact MergeInv.loop_error l e' (MergeInv.init parseLen) hl

theorem validId_congr (parseLen : String → Option Nat) {a b : KeyInfo} (h : a.id = b.id) :
    validId parseLen a = validId parseLen b := by
  simp [validId, h]

/-- An iteration on a record that the output already absorbs leaves the
state as it is. -/
theorem mergeStep_absorbed (parseLen : String → Option Nat) (st : MergeState)
    (htable : TableOK st) (b o : KeyInfo) (hvalid : validId parseLen b = true)
    (ho : o ∈ st.out) (hid : o.id = b.id) (htype : o.type = b.type)
    (hkeys : ∀ k v, objGet b.keys k = some v → objGet o.keys k = some v) :
    mergeStep parseLen st b = .ok st := by
  cases hbid : b.id with
  | none => simp [validId, hbid] at hvalid
  | some id =>
    have hp : parseLen id = some 32 := by simpa [validId, hbid] using hvalid
    obtain ⟨n, hn⟩ := List.getElem?_of_mem ho
    obtain ⟨id', hid', hg⟩ := htable.2 n o hn
    have hidEq : id' = id := by
      rw [hid, hbid] at hid'
      exact (Option.some.inj hid').symm
    subst hidEq
    have hnone : findKeyConflict o.keys b.keys (objKeys b.keys) = none := by
      rw [findKeyConflict_eq_none_iff]
      intro k hk
      obtain ⟨v, hv⟩ := (objGet_isSome_iff_mem_keys b.keys k).2 hk
      exact keyConflict_agree (hkeys k v hv) hv
    have hrec : ({ id := some id', type := b.type, keys := objSpread o.keys b.keys } : KeyInfo)
        = o := by
      rw [objSpread_eq_self o.keys b.keys hkeys, ← htype, ← hid']
    have hstep : mergeStep parseLen st b =
        .ok { out := st.out.set n
                { id := some id', type := b.type, keys := objSpread o.keys b.keys }
              ids := st.ids } := by
      simp [mergeStep, hbid, hp, hg, hn, htype, hnone]
    rw [hstep, hrec, set_eq_self_of_getElem? st.out n o hn]

/-- The loop leaves the state as it is on records that the output absorbs. -/
theorem mergeLoop_absorbed (parseLen : String → Option Nat) (st : MergeState)
    (htable : TableOK st) (l : List KeyInfo)
    (h : ∀ b ∈ l, validId parseLen b = true ∧ ∃ o ∈ st.out, o.id = b.id ∧ o.type = b.type ∧
      ∀ k v, objGet b.keys k = some v → objGet o.keys k = some v) :
    mergeLoop parseLen st l = .ok st := by
  induction l with
  | nil => rfl
  | cons b rest ih =>
    obtain ⟨hvalid, o, ho, hid, htype, hkeys⟩ := h b (by simp)
    simp only [mergeLoop, mergeStep_absorbed parseLen st htable b o hvalid ho hid htype hkeys]
    exact ih (fun x hx => h x (List.mem_cons_of_mem _ hx))

/-- Merging the output of a merge again rebuilds the state in which the loop
ended. -/
theorem mergeKeyInfos_rebuild {parseLen : String → Option Nat} {l M : List KeyInfo}
    (h : mergeKeyInfos parseLen l = .ok M) :
    ∃ st, mergeLoop parseLen { out := [], ids := [] } l = .ok st ∧ st.out = M ∧
      MergeInv parseLen l st ∧ mergeLoop parseLen { out := [], ids := [] } M = .ok st := by
  obtain ⟨st, hloop, hout, inv⟩ := mergeKeyInfos_loop h
  refine ⟨st, hloop, hout, inv, ?_⟩
  rw [← hout]
  exact inv.rebuilds st.out rfl

/-- Merging a list after another list is merging it after the merge of that
other list. -/
theorem mergeKeyInfos_append_merged (parseLen : String → Option Nat) (X Y M : List KeyInfo)
    (hX : mergeKeyInfos parseLen X = .ok M) :
    mergeKeyInfos parseLen (X ++ Y) = mergeKeyInfos parseLen (M ++ Y) := by
  obtain ⟨st, hloop, -, -, hre⟩ := mergeKeyInfos_rebuild hX
  unfold mergeKeyInfos
  rw [mergeLoop_append, mergeLoop_append, hloop, hre]

/-- A stored null passes the test. -/
theorem keyConflict_null {oldKeys keys : List (String × JVal)} {k : String}
    (ho : objGet oldKeys k = some .null) : keyConflict oldKeys keys k = false := by
  unfold keyConflict
  rw [ho]

/-- Under the invariant, an iteration succeeds on a record with a valid id
that brings no key name of `Object.prototype` and passes the checks against
the records read so far. -/
theorem MergeInv.step_ok {parseLen : String → Option Nat} {pre : List KeyInfo}
    {st : MergeState} (inv : MergeInv parseLen pre st) (r : KeyInfo)
    (hvalid : validId parseLen r = true)
    (hnames : ∀ k v, objGet r.keys k = some v → k ∉ objectPrototypeNames)
    (hfollows : ∀ a ∈ pre, Follows a r) :
    ∃ st', mergeStep parseLen st r = .ok st' := by
  unfold mergeStep
  cases hid : r.id with
  | none => simp [validId, hid] at hvalid
  | some id =>
    have hp : parseLen id = some 32 := by simpa [validId, hid] using hvalid
    simp only [hp, ne_eq, not_true_eq_false, if_false]
    cases hg : objGet st.ids id with
    | none => exact ⟨_, rfl⟩
    | some n =>
      obtain ⟨o, ho, hoid⟩ := inv.table.1 id n hg
      have homem : o ∈ st.out := List.getElem?_mem ho
      obtain ⟨⟨r', hr', hr'id, hr'type⟩, hkeys⟩ := inv.origin o homem
      have hsame : r'.id = r.id := by rw [hr'id, hoid, hid]
      have htype : o.type = r.type := hr'type.symm.trans (hfollows r' hr' hsame).1
      have hnone : findKeyConflict o.keys r.keys (objKeys r.keys) = none := by
        rw [findKeyConflict_eq_none_iff]
        intro k hk
        obtain ⟨w, hw⟩ := (objGet_isSome_iff_mem_keys r.keys k).2 hk
        cases hok : objGet o.keys k with
        | none =>
          rw [keyConflict_absent hok]
          exact decide_eq_false (hnames k w hw)
        | some v =>
          by_cases hv : v = .null
          · subst hv
            exact keyConflict_null hok
          · obtain ⟨r2, hr2, hr2id, hr2k⟩ := hkeys k v hok
            have hsame2 : r2.id = r.id := by rw [hr2id, hoid, hid]
            rcases (hfollows r2 hr2 hsame2).2 k v w hr2k hw with h | h
            · exact absurd h hv
            · subst h
              exact keyConflict_agree hok hw
      simp only [ho, htype, ne_eq, not_true_eq_false, if_false, hnone]
      exact ⟨_, rfl⟩

/-- Under the invariant, the loop succeeds on records with valid ids that
bring no key name of `Object.prototype` and pass the checks against each other
and against the records read so far. -/
theorem MergeInv.loop_ok {parseLen : String → Option Nat} (l : List KeyInfo) :
    ∀ {pre : List KeyInfo} {st : MergeState}, MergeInv parseLen pre st →
      (∀ r ∈ l, validId parseLen r = true) →
      (∀ r ∈ l, ∀ k v, objGet r.keys k = some v → k ∉ objectPrototypeNames) →
      (∀ a ∈ pre ++ l, ∀ b ∈ pre ++ l, Follows a b) →
      ∃ st', mergeLoop parseLen st l = .ok st' := by
  induction l with
  | nil =>
    intro pre st _ _ _ _
    exact ⟨st, rfl⟩
  | cons r rest ih =>
    intro pre st inv hvalid hnames hfollows
    have hr : r ∈ pre ++ r :: rest := by simp
    obtain ⟨st1, hs⟩ := inv.step_ok r (hvalid r (by simp)) (hnames r (by simp))
      (fun a ha => hfollows a (List.mem_append_left _ ha) r hr)
    simp only [mergeLoop, hs]
    apply ih (inv.step r hs) (fun x hx => hvalid x (List.mem_cons_of_mem _ hx))
      (fun x hx => hnames x (List.mem_cons_of_mem _ hx))
    intro a ha b hb
    exact hfollows a (by simpa using ha) b (by simpa using hb)

/-- On records that give null to no key name to which a record of the same id
gives another value, the records of a list on which `mergeKeyInfos` returns
are pairwise compatible. -/
theorem MergeInv.compatible {parseLen : String → Option Nat} {pre : List KeyInfo}
    {st : MergeState} (inv : MergeInv parseLen pre st)
    (hnull : ∀ a ∈ pre, ∀ b ∈ pre, a.id = b.id → ∀ k w,
      objGet a.keys k = some .null → objGet b.keys k = some w → w = .null)
    {a b : KeyInfo} (ha : a ∈ pre) (hb : b ∈ pre) : Compatible a b := by
  have hsym : pre.Pairwise (fun a b => Compatible a b ∧ Compatible b a) := by
    refine List.Pairwise.imp_of_mem ?_ inv.follows
    intro a b ha hb hab
    constructor
    · intro hid
      obtain ⟨ht, hk⟩ := hab hid
      refine ⟨ht, fun k v w hv hw => ?_⟩
      rcases hk k v w hv hw with h | h
      · subst h
        exact (hnull a ha b hb hid k w hv hw).symm
      · exact h
    · intro hid
      obtain ⟨ht, hk⟩ := hab hid.symm
      refine ⟨ht.symm, fun k v w hv hw => ?_⟩
      rcases hk k w v hw hv with h | h
      · subst h
        exact hnull a ha b hb hid.symm k v hw hv
      · exact h.symm
  have hall := List.Pairwise.forall_of_forall
    (fun x y (h : Compatible x y ∧ Compatible y x) => And.intro h.2 h.1)
    (fun x _ => by
      have hself : Compatible x x := by
        intro _
        refine ⟨rfl, fun k v w hv hw => ?_⟩
        rw [hv] at hw
        exact Option.some.inj hw
      exact ⟨hself, hself⟩)
    hsym
  exact (hall ha hb).1

/-- Lists with the same records, pairwise compatible, merge to the same
records, whatever their order. -/
theorem mergeKeyInfos_same_records (parseLen : String → Option Nat) (l l' M M' : List KeyInfo)
    (hmem : ∀ r, r ∈ l → r ∈ l') (hmem' : ∀ r, r ∈ l' → r ∈ l)
    (hcompat : ∀ a ∈ l, ∀ b ∈ l, Compatible a b)
    (h : mergeKeyInfos parseLen l = .ok M) (h' : mergeKeyInfos parseLen l' = .ok M') :
    ∀ o ∈ M, ∃ o' ∈ M', SameRecord o o' := by
  obtain ⟨st, rfl, inv⟩ := mergeKeyInfos_inv h
  obtain ⟨st', rfl, inv'⟩ := mergeKeyInfos_inv h'
  intro o ho
  obtain ⟨⟨r, hr, hrid, hrtype⟩, -⟩ := inv.origin o ho
  obtain ⟨o', ho', hoid', hotype', -⟩ := inv'.covers r (hmem r hr)
  have hids : o.id = o'.id := hrid.symm.trans hoid'.symm
  refine ⟨o', ho', hids, hrtype.symm.trans hotype'.symm, ?_⟩
  intro k
  cases hk : objGet o.keys k with
  | none =>
    cases hk' : objGet o'.keys k with
    | none => rfl
    | some v' =>
      exfalso
      obtain ⟨r2, hr2, hr2id, hr2k⟩ := (inv'.origin o' ho').2 k v' hk'
      obtain ⟨w, hw⟩ := (inv.keys_present ho k).2
        ⟨r2, hmem' r2 hr2, hr2id.trans hids.symm, v', hr2k⟩
      rw [hk] at hw
      exact absurd hw (by simp)
  | some v =>
    obtain ⟨r1, hr1, hr1id, hr1k⟩ := (inv.origin o ho).2 k v hk
    obtain ⟨v', hv'⟩ := (inv'.keys_present ho' k).2
      ⟨r1, hmem r1 hr1, hr1id.trans hids, v, hr1k⟩
    obtain ⟨r2, hr2, hr2id, hr2k⟩ := (inv'.origin o' ho').2 k v' hv'
    have := (hcompat r1 hr1 r2 (hmem' r2 hr2) (by rw [hr1id, hr2id, hids])).2 k v v' hr1k hr2k
    rw [hv', this]

/-! ## The key info merger -/

/-- C1, the claim as worded fails twice. A list that holds a forged data key
behind a record whose id is not base64 text makes `mergeKeyInfos` throw the
error of `base64.parse`, which is none of the key integrity violations; and
`mergeKeyInfos` returns on two records of one id that hold a null and a
string under the same key name. -/
theorem mergeKeyInfos_bad_id_hides_conflict :
    (walletData.id = walletForged.id ∧
      objGet walletData.keys "dataKey" = some (.str "d0") ∧
      objGet walletForged.keys "dataKey" = some (.str "d1") ∧
      mergeKeyInfos base64Length [walletBadId, walletData, walletForged] =
        .error (.base64Syntax "!!!!") ∧
      (MergeError.base64Syntax "!!!!").isIntegrityViolation = false) ∧
    (walletNull.id = walletData.id ∧
      objGet walletNull.keys "dataKey" = some .null ∧
      objGet walletData.keys "dataKey" = some (.str "d0") ∧
      mergeKeyInfos base64Length [walletNull, walletData] = .ok [walletData]) :=
  ⟨⟨rfl, rfl, rfl, rfl, rfl⟩, rfl, rfl, rfl, rfl⟩

/-- C1, amended: if `mergeKeyInfos` returns on a list, any record `a` of the
list and any record `b` after it with equal id have equal type and, under every
key name present in both, `a` holds null or the value that `b` holds; and a
list holding a record and, after it, a record with equal id and a different
type, or a different value under a key name where the earlier value is not
null, makes `mergeKeyInfos` throw: one of its key integrity violations, or the
error of `base64.parse` on an id of the list that it rejects. -/
theorem mergeKeyInfos_rejects_conflicts (parseLen : String → Option Nat) (l : List KeyInfo) :
    (∀ out, mergeKeyInfos parseLen l = .ok out →
      ∀ a b, [a, b].Sublist l → a.id = b.id →
        a.type = b.type ∧
          ∀ k v w, objGet a.keys k = some v → objGet b.keys k = some w →
            v = .null ∨ v = w) ∧
    ((∃ a b, [a, b].Sublist l ∧ a.id = b.id ∧
        (a.type ≠ b.type ∨
          ∃ k v w, objGet a.keys k = some v ∧ objGet b.keys k = some w ∧
            v ≠ .null ∧ v ≠ w)) →
      ∃ e, mergeKeyInfos parseLen l = .error e ∧
        (e.isIntegrityViolation = true ∨
          ∃ r ∈ l, ∃ id, r.id = some id ∧ parseLen id = none ∧ e = .base64Syntax id)) := by
  have hfirst : ∀ out, mergeKeyInfos parseLen l = .ok out →
      ∀ a b, [a, b].Sublist l → a.id = b.id →
        a.type = b.type ∧
          ∀ k v w, objGet a.keys k = some v → objGet b.keys k = some w →
            v = .null ∨ v = w := by
    intro out h a b hab hid
    obtain ⟨st, -, inv⟩ := mergeKeyInfos_inv h
    exact List.pairwise_iff_forall_sublist.1 inv.follows hab hid
  refine ⟨hfirst, ?_⟩
  rintro ⟨a, b, hab, hid, hconflict⟩
  cases hm : mergeKeyInfos parseLen l with
  | error e => exact ⟨e, rfl, mergeKeyInfos_error_kind parseLen l e hm⟩
  | ok out =>
    exfalso
    obtain ⟨htype, hkeys⟩ := hfirst out hm a b hab hid
    rcases hconflict with hne | ⟨k, v, w, hv, hw, hnull, hne⟩
    · exact hne htype
    · rcases hkeys k v w hv hw with h | h
      · exact hnull h
      · exact hne h

/-- Both halves of the amended C1 on sample records: a list of two records of
one id on which the merge returns, and a list with a forged data key on which
it throws. -/
theorem mergeKeyInfos_rejects_conflicts_witness :
    (mergeKeyInfos base64Length [walletData, walletBoth] = .ok [walletBoth] ∧
      walletData.id = walletBoth.id ∧ walletData.type = walletBoth.type ∧
      (objGet walletData.keys "dataKey" = some (.str "d0") ∧
        objGet walletBoth.keys "dataKey" = some (.str "d0"))) ∧
    (walletData.id = walletForged.id ∧
      objGet walletData.keys "dataKey" ≠ objGet walletForged.keys "dataKey" ∧
      ∃ e, mergeKeyInfos base64Length [walletData, walletForged] = .error e ∧
        (e.isIntegrityViolation = true ∨
          ∃ r ∈ [walletData, walletForged], ∃ id, r.id = some id ∧
            base64Length id = none ∧ e = .base64Syntax id)) :=
  ⟨⟨rfl, rfl,
      ((mergeKeyInfos_rejects_conflicts base64Length [walletData, walletBoth]).1
        [walletBoth] rfl walletData walletBoth (List.Sublist.refl _) rfl).1,
      rfl, rfl⟩,
    rfl, by decide,
    (mergeKeyInfos_rejects_conflicts base64Length [walletData, walletForged]).2
      ⟨walletData, walletForged, List.Sublist.refl _, rfl,
        Or.inr ⟨"dataKey", .str "d0", .str "d1", rfl, rfl, by decide, by decide⟩⟩⟩

/-- The ids of an output: those of the input, without repetition, in the order
of their first occurrence. -/
theorem mergeKeyInfos_ids (parseLen : String → Option Nat)
    (l out : List KeyInfo) (h : mergeKeyInfos parseLen l = .ok out) :
    (out.map (fun o => o.id)).Nodup ∧
    (∀ i, i ∈ out.map (fun o => o.id) ↔ i ∈ l.map (fun r => r.id)) ∧
    out.map (fun o => o.id) = firstOccurrences (l.map (fun r => r.id)) := by
  obtain ⟨st, rfl, inv⟩ := mergeKeyInfos_inv h
  refine ⟨?_, ?_, inv.order⟩
  · rw [inv.order]
    exact firstOccurrences_nodup _
  · intro i
    rw [inv.order]
    exact firstOccurrences_mem _ i

/-- C2: when `mergeKeyInfos` returns, the ids of its output are the ids of the
input, each exactly once, in the order of their first occurrence in the
input. -/
theorem mergeKeyInfos_ids_first_occurrence (parseLen : String → Option Nat)
    (l out : List KeyInfo) (h : mergeKeyInfos parseLen l = .ok out) :
    (out.map (fun o => o.id)).Nodup ∧
    (∀ i, i ∈ out.map (fun o => o.id) ↔ i ∈ l.map (fun r => r.id)) ∧
    out.map (fun o => o.id) = firstOccurrences (l.map (fun r => r.id)) :=
  mergeKeyInfos_ids parseLen l out h

/-- C2 on sample records: the id of the first wallet, met again at the end,
keeps its first place. -/
theorem mergeKeyInfos_ids_first_occurrence_witness :
    mergeKeyInfos base64Length [walletData, walletOther, walletSync] =
        .ok [walletBoth, walletOther] ∧
      [walletBoth, walletOther].map (fun o => o.id) =
        firstOccurrences ([walletData, walletOther, walletSync].map (fun r => r.id)) ∧
      firstOccurrences ([walletData, walletOther, walletSync].map (fun r => r.id)) =
        [some idZero, some idOne] :=
  ⟨rfl,
    (mergeKeyInfos_ids_first_occurrence base64Length [walletData, walletOther, walletSync]
      [walletBoth, walletOther] rfl).2.2,
    by decide⟩

/-- C3, the claim as worded fails: a later record overwrites a stored null.
The merge of a record with a null data key and a record of the same id with
the data key `d0` returns one record whose data key is `d0`, not the null that
the first record gives. -/
theorem mergeKeyInfos_replaces_stored_null :
    mergeKeyInfos base64Length [walletNull, walletData] = .ok [walletData] ∧
      walletNull ∈ [walletNull, walletData] ∧ walletNull.id = walletData.id ∧
      objGet walletNull.keys "dataKey" = some .null ∧
      objGet walletData.keys "dataKey" = some (.str "d0") ∧
      ¬ (∀ k v, objGet walletData.keys k = some v ↔
          ∃ r' ∈ [walletNull, walletData], r'.id = walletData.id ∧
            objGet r'.keys k = some v) := by
  refine ⟨rfl, by simp, rfl, rfl, rfl, ?_⟩
  intro h
  have := (h "dataKey" .null).2 ⟨walletNull, by simp, rfl, rfl⟩
  exact absurd this (by decide)

/-- C3, amended: when `mergeKeyInfos` returns, each input record has exactly
one output record with its id; that record has the type of the input records
with the id, and its key map is the union of their key maps: a key name is
present in the output exactly when it is present in some input record with the
id; the value in the output is a value that one of those records gives; and a
value that is not null is in the output whenever one of those records gives
it (a stored null is replaced, another stored value never is). -/
theorem mergeKeyInfos_union (parseLen : String → Option Nat) (l out : List KeyInfo)
    (h : mergeKeyInfos parseLen l = .ok out) (r : KeyInfo) (hr : r ∈ l) :
    ∃ o ∈ out, o.id = r.id ∧ (∀ o' ∈ out, o'.id = r.id → o' = o) ∧
      (∀ r' ∈ l, r'.id = r.id → o.type = r'.type) ∧
      (∀ k, (∃ v, objGet o.keys k = some v) ↔
        ∃ r' ∈ l, r'.id = r.id ∧ ∃ v, objGet r'.keys k = some v) ∧
      (∀ k v, objGet o.keys k = some v →
        ∃ r' ∈ l, r'.id = r.id ∧ objGet r'.keys k = some v) ∧
      (∀ k v, v ≠ .null → ∀ r' ∈ l, r'.id = r.id → objGet r'.keys k = some v →
        objGet o.keys k = some v) := by
  obtain ⟨st, rfl, inv⟩ := mergeKeyInfos_inv h
  obtain ⟨o, ho, hoid, hotype, -⟩ := inv.covers r hr
  refine ⟨o, ho, hoid, ?_, ?_, ?_, ?_, ?_⟩
  · intro o' ho' hid'
    exact inv.eq_of_id ho' ho (hid'.trans hoid.symm)
  · intro r' hr' hid'
    exact inv.type_eq ho hr' (hoid.trans hid'.symm)
  · intro k
    rw [inv.keys_present ho, hoid]
  · intro k v hv
    obtain ⟨r', hr', hrid, hrk⟩ := (inv.origin o ho).2 k v hv
    exact ⟨r', hr', hrid.trans hoid, hrk⟩
  · intro k v hv r' hr' hid' hk
    exact (inv.keys_iff ho k v hv).2 ⟨r', hr', hid'.trans hoid.symm, hk⟩

/-- The amended C3 on sample records: the merged wallet holds the data key of
the second record in the place of the null of the first, and the sync key of
the fourth. -/
theorem mergeKeyInfos_union_witness :
    mergeKeyInfos base64Length [walletNull, walletData, walletOther, walletSync] =
        .ok [walletBoth, walletOther] ∧
      walletSync ∈ [walletNull, walletData, walletOther, walletSync] ∧
      ∃ o ∈ [walletBoth, walletOther], o.id = walletSync.id ∧
        (∀ o' ∈ [walletBoth, walletOther], o'.id = walletSync.id → o' = o) ∧
        (∀ r' ∈ [walletNull, walletData, walletOther, walletSync],
          r'.id = walletSync.id → o.type = r'.type) ∧
        (∀ k, (∃ v, objGet o.keys k = some v) ↔
          ∃ r' ∈ [walletNull, walletData, walletOther, walletSync],
            r'.id = walletSync.id ∧ ∃ v, objGet r'.keys k = some v) ∧
        (∀ k v, objGet o.keys k = some v →
          ∃ r' ∈ [walletNull, walletData, walletOther, walletSync],
            r'.id = walletSync.id ∧ objGet r'.keys k = some v) ∧
        (∀ k v, v ≠ .null → ∀ r' ∈ [walletNull, walletData, walletOther, walletSync],
          r'.id = walletSync.id → objGet r'.keys k = some v → objGet o.keys k = some v) :=
  ⟨rfl, by simp,
    mergeKeyInfos_union base64Length [walletNull, walletData, walletOther, walletSync]
      [walletBoth, walletOther] rfl walletSync (by simp)⟩

/-- C4: `mergeKeyInfos` throws on every list that contains a record whose id is
null or does not decode to exactly 32 bytes, whatever the other records are;
and every record of an output has an id that decodes to exactly 32 bytes. -/
theorem mergeKeyInfos_invalid_id (parseLen : String → Option Nat) (l : List KeyInfo) :
    ((∃ r ∈ l, r.id = none ∨ ∃ id, r.id = some id ∧ parseLen id ≠ some 32) →
      ∃ e, mergeKeyInfos parseLen l = .error e) ∧
    (∀ out, mergeKeyInfos parseLen l = .ok out →
      ∀ o ∈ out, ∃ id, o.id = some id ∧ parseLen id = some 32) := by
  constructor
  · rintro ⟨r, hr, hbad⟩
    have hinvalid : validId parseLen r = false := by
      rcases hbad with hnone | ⟨id, hid, hlen⟩
      · simp [validId, hnone]
      · simp [validId, hid, hlen]
    cases hm : mergeKeyInfos parseLen l with
    | error e => exact ⟨e, rfl⟩
    | ok out =>
      obtain ⟨st, -, inv⟩ := mergeKeyInfos_inv hm
      have hall := inv.valid r hr
      rw [hinvalid] at hall
      exact absurd hall (by simp)
  · intro out h o ho
    obtain ⟨st, rfl, inv⟩ := mergeKeyInfos_inv h
    obtain ⟨⟨r, hr, hrid, -⟩, -⟩ := inv.origin o ho
    have hv := inv.valid r hr
    rw [validId_congr parseLen hrid] at hv
    cases hid : o.id with
    | none => simp [validId, hid] at hv
    | some id => exact ⟨id, rfl, by simpa [validId, hid] using hv⟩

/-- C4 on sample records: a record with a 3-byte id after a good one, and a
record with a null id before a good one, both make the merge throw. -/
theorem mergeKeyInfos_invalid_id_witness :
    (base64Length "AAAA" = some 3 ∧
      ∃ e, mergeKeyInfos base64Length [walletData, walletShortId] = .error e) ∧
    (∃ e, mergeKeyInfos base64Length
      [{ id := none, type := "wallet:bitcoin", keys := [] }, walletData] = .error e) ∧
    (mergeKeyInfos base64Length [walletData, walletOther] = .ok [walletData, walletOther] ∧
      ∀ o ∈ [walletData, walletOther], ∃ id, o.id = some id ∧ base64Length id = some 32) :=
  ⟨⟨rfl, (mergeKeyInfos_invalid_id base64Length [walletData, walletShortId]).1
      ⟨walletShortId, by simp, Or.inr ⟨"AAAA", rfl, by decide⟩⟩⟩,
    (mergeKeyInfos_invalid_id base64Length
      [{ id := none, type := "wallet:bitcoin", keys := [] }, walletData]).1
      ⟨{ id := none, type := "wallet:bitcoin", keys := [] }, by simp, Or.inl rfl⟩,
    rfl,
    (mergeKeyInfos_invalid_id base64Length [walletData, walletOther]).2
      [walletData, walletOther] rfl⟩

/-- C5, the claim as worded fails on a null key value. The merge of a record
with a null data key and a record of the same id with the data key `d0` returns
the one record `walletData`; merging that result with the same two records
again throws, for the stored `d0` is not the incoming null. -/
theorem mergeKeyInfos_null_breaks_idempotence :
    mergeKeyInfos base64Length ([] ++ [walletNull, walletData]) = .ok [walletData] ∧
      mergeKeyInfos base64Length ([walletData] ++ [walletNull, walletData]) =
        .error (.keysMismatch idZero "dataKey") :=
  ⟨rfl, rfl⟩

/-- C5, amended: merge idempotence. Whenever `mergeKeyInfos (A ++ B)` returns
`M`, and no record of `B` gives null to a key name to which a record of
`A ++ B` with the same id gives another value, `mergeKeyInfos (M ++ B)` returns
too, and returns `M` itself: the same records in the same order. -/
theorem mergeKeyInfos_idempotent (parseLen : String → Option Nat) (A B M : List KeyInfo)
    (h : mergeKeyInfos parseLen (A ++ B) = .ok M)
    (hnull : ∀ b ∈ B, ∀ k, objGet b.keys k = some .null →
      ∀ r ∈ A ++ B, r.id = b.id → ∀ w, objGet r.keys k = some w → w = .null) :
    mergeKeyInfos parseLen (M ++ B) = .ok M := by
  obtain ⟨st, -, hout, inv, hre⟩ := mergeKeyInfos_rebuild h
  subst hout
  have habsorb : mergeLoop parseLen st B = .ok st := by
    apply mergeLoop_absorbed parseLen st inv.table B
    intro b hb
    have hb' : b ∈ A ++ B := List.mem_append_right _ hb
    obtain ⟨o, ho, hoid, hotype, hokeys⟩ := inv.covers b hb'
    refine ⟨inv.valid b hb', o, ho, hoid, hotype, ?_⟩
    intro k v hv
    by_cases hvn : v = .null
    · subst hvn
      obtain ⟨w, hw⟩ := (hokeys k .null hv).1
      obtain ⟨r, hr, hrid, hrk⟩ := (inv.origin o ho).2 k w hw
      rw [hw, hnull b hb k hv r hr (hrid.trans hoid) w hrk]
    · exact (hokeys k v hv).2 hvn
  unfold mergeKeyInfos
  rw [mergeLoop_append, hre]
  simp only [habsorb]

/-- The amended C5 on sample records: merging the merged list with the incoming
records again gives the merged list; the null data key of the first list does
not stand in the way. -/
theorem mergeKeyInfos_idempotent_witness :
    mergeKeyInfos base64Length ([walletNull, walletOther] ++ [walletData, walletSync]) =
        .ok [walletBoth, walletOther] ∧
      mergeKeyInfos base64Length ([walletBoth, walletOther] ++ [walletData, walletSync]) =
        .ok [walletBoth, walletOther] :=
  ⟨rfl, mergeKeyInfos_idempotent base64Length [walletNull, walletOther]
    [walletData, walletSync] [walletBoth, walletOther] rfl (by
      intro b hb k hk
      simp only [List.mem_cons, List.mem_singleton, List.not_mem_nil, or_false] at hb
      rcases hb with rfl | rfl
      · simp [walletData, objGet] at hk
      · simp [walletSync, objGet] at hk)⟩

/-- C6, the claim as worded fails on a null key value. On a record with a null
data key followed by a record of the same id with the data key `d0` the merge
returns, for the stored null passes the check; in the other order it throws,
for the stored `d0` is not the incoming null. -/
theorem mergeKeyInfos_null_breaks_commutativity :
    walletNull.id = walletData.id ∧ walletNull.type = walletData.type ∧
      mergeKeyInfos base64Length ([walletNull] ++ [walletData]) = .ok [walletData] ∧
      mergeKeyInfos base64Length ([walletData] ++ [walletNull]) =
        .error (.keysMismatch idZero "dataKey") :=
  ⟨rfl, rfl, rfl, rfl⟩

/-- The order of the input also decides on a key name of `Object.prototype`.
Two records of one id and one type hold the key names `constructor` and
`dataKey`, so no key name is present in both; `mergeKeyInfos` returns on them
in one order and throws `constructor keys do not match` in the other, where
the read `old.keys['constructor']` finds the inherited function. -/
theorem mergeKeyInfos_inherited_name_order :
    walletConstructor.id = walletData.id ∧ walletConstructor.type = walletData.type ∧
      objGet walletData.keys "constructor" = none ∧
      objGet walletConstructor.keys "dataKey" = none ∧
      mergeKeyInfos base64Length ([walletConstructor] ++ [walletData]) =
        .ok [{ id := some idZero, type := "wallet:bitcoin",
               keys := [("constructor", .str "c0"), ("dataKey", .str "d0")] }] ∧
      mergeKeyInfos base64Length ([walletData] ++ [walletConstructor]) =
        .error (.keysMismatch idZero "constructor") :=
  ⟨rfl, rfl, rfl, rfl, rfl, rfl⟩

/-- C6, amended: merge commutativity on compatible input. Whenever
`mergeKeyInfos (A ++ B)` returns `M`, no record of `A ++ B` gives null to a key
name to which a record with the same id gives another value, and no key name
of `A ++ B` is a property name of `Object.prototype`, `mergeKeyInfos (B ++ A)`
returns some `M'` that holds the same records: each record of `M` has a record
of `M'` with equal id, type and key map, and conversely; both lists have the
same length and no repeated id. -/
theorem mergeKeyInfos_commutative (parseLen : String → Option Nat) (A B M : List KeyInfo)
    (h : mergeKeyInfos parseLen (A ++ B) = .ok M)
    (hnull : ∀ a ∈ A ++ B, ∀ b ∈ A ++ B, a.id = b.id → ∀ k w,
      objGet a.keys k = some .null → objGet b.keys k = some w → w = .null)
    (hnames : ∀ r ∈ A ++ B, ∀ k v, objGet r.keys k = some v → k ∉ objectPrototypeNames) :
    ∃ M', mergeKeyInfos parseLen (B ++ A) = .ok M' ∧
      (∀ o ∈ M, ∃ o' ∈ M', SameRecord o o') ∧
      (∀ o' ∈ M', ∃ o ∈ M, SameRecord o' o) ∧
      (M.map (fun o => o.id)).Nodup ∧ (M'.map (fun o => o.id)).Nodup ∧
      M'.length = M.length := by
  have hswap : ∀ r, r ∈ B ++ A ↔ r ∈ A ++ B := by
    intro r
    simp only [List.mem_append]
    exact Or.comm
  obtain ⟨st, -, inv⟩ := mergeKeyInfos_inv h
  have hcompat : ∀ a ∈ A ++ B, ∀ b ∈ A ++ B, Compatible a b :=
    fun a ha b hb => inv.compatible hnull ha hb
  have hfollows : ∀ a ∈ B ++ A, ∀ b ∈ B ++ A, Follows a b := by
    intro a ha b hb hid
    obtain ⟨ht, hk⟩ := hcompat a ((hswap a).1 ha) b ((hswap b).1 hb) hid
    exact ⟨ht, fun k v w hv hw => Or.inr (hk k v w hv hw)⟩
  obtain ⟨st', hs'⟩ := MergeInv.loop_ok (B ++ A) (MergeInv.init parseLen)
    (fun r hr => inv.valid r ((hswap r).1 hr))
    (fun r hr => hnames r ((hswap r).1 hr)) (by simpa using hfollows)
  have h' : mergeKeyInfos parseLen (B ++ A) = .ok st'.out := by
    simp [mergeKeyInfos, hs']
  have hids := mergeKeyInfos_ids parseLen (A ++ B) M h
  have hids' := mergeKeyInfos_ids parseLen (B ++ A) st'.out h'
  refine ⟨st'.out, h', ?_, ?_, hids.1, hids'.1, ?_⟩
  · exact mergeKeyInfos_same_records parseLen (A ++ B) (B ++ A) M st'.out
      (fun r hr => (hswap r).2 hr) (fun r hr => (hswap r).1 hr) hcompat h h'
  · exact mergeKeyInfos_same_records parseLen (B ++ A) (A ++ B) st'.out M
      (fun r hr => (hswap r).1 hr) (fun r hr => (hswap r).2 hr)
      (fun a ha b hb => hcompat a ((hswap a).1 ha) b ((hswap b).1 hb)) h' h
  · have hperm : (st'.out.map (fun o => o.id)).Perm (M.map (fun o => o.id)) := by
      rw [List.perm_ext_iff_of_nodup hids'.1 hids.1]
      intro i
      rw [hids'.2.1, hids.2.1]
      simp only [List.mem_map]
      constructor
      · rintro ⟨r, hr, hri⟩
        exact ⟨r, (hswap r).1 hr, hri⟩
      · rintro ⟨r, hr, hri⟩
        exact ⟨r, (hswap r).2 hr, hri⟩
    simpa using hperm.length_eq

/-- The key names of the three sample wallets are no property names of
`Object.prototype`, and none of their values is null. -/
theorem sampleWallets_plain (r : KeyInfo) (hr : r ∈ [walletData, walletOther] ++ [walletSync])
    (k : String) (v : JVal) (hk : objGet r.keys k = some v) :
    k ∉ objectPrototypeNames ∧ v ≠ .null := by
  simp only [List.cons_append, List.nil_append, List.mem_cons, List.mem_singleton,
    List.not_mem_nil, or_false] at hr
  rcases hr with rfl | rfl | rfl
  · by_cases hkk : "dataKey" = k
    · subst hkk
      simp only [walletData, objGet, if_true] at hk
      rw [← Option.some.inj hk]
      exact ⟨by decide, by decide⟩
    · simp [walletData, objGet, hkk] at hk
  · by_cases hkk : "ethereumKey" = k
    · subst hkk
      simp only [walletOther, objGet, if_true] at hk
      rw [← Option.some.inj hk]
      exact ⟨by decide, by decide⟩
    · simp [walletOther, objGet, hkk] at hk
  · by_cases hkk : "syncKey" = k
    · subst hkk
      simp only [walletSync, objGet, if_true] at hk
      rw [← Option.some.inj hk]
      exact ⟨by decide, by decide⟩
    · simp [walletSync, objGet, hkk] at hk

/-- The amended C6 on sample records: merging in the other order returns, with
the same wallets in another order and the same key maps under another key
order. -/
theorem mergeKeyInfos_commutative_witness :
    mergeKeyInfos base64Length ([walletData, walletOther] ++ [walletSync]) =
        .ok [walletBoth, walletOther] ∧
      mergeKeyInfos base64Length ([walletSync] ++ [walletData, walletOther]) =
        .ok [{ id := some idZero, type := "wallet:bitcoin",
               keys := [("syncKey", .str "s0"), ("dataKey", .str "d0")] }, walletOther] ∧
      ∃ M', mergeKeyInfos base64Length ([walletSync] ++ [walletData, walletOther]) = .ok M' ∧
        (∀ o ∈ [walletBoth, walletOther], ∃ o' ∈ M', SameRecord o o') ∧
        (∀ o' ∈ M', ∃ o ∈ [walletBoth, walletOther], SameRecord o' o) ∧
        ([walletBoth, walletOther].map (fun o => o.id)).Nodup ∧
        (M'.map (fun o => o.id)).Nodup ∧ M'.length = [walletBoth, walletOther].length :=
  ⟨rfl, rfl, mergeKeyInfos_commutative base64Length [walletData, walletOther] [walletSync]
    [walletBoth, walletOther] rfl
    (fun a ha _ _ _ k _ hk _ => absurd rfl (sampleWallets_plain a ha k .null hk).2)
    (fun r hr k v hk => (sampleWallets_plain r hr k v hk).1)⟩

/-! ## Searching and updating trees -/

/-- Induction on trees: a property holds of every node when it holds of a
node whose children all have it. -/
theorem TreeNode.induct {α : Type} {P : TreeNode α → Prop}
    (h : ∀ data children, (∀ c ∈ children, P c) → P (.node data children)) : ∀ t, P t
  | .node data children => h data children (fun c _ => TreeNode.induct h c)
termination_by t => sizeOf t
decreasing_by
  simp_wf
  have := List.sizeOf_lt_of_mem ‹c ∈ children›
  omega

theorem searchTreeList_eq_none {α : Type} (predicate : TreeNode α → Bool)
    (children : List (TreeNode α)) (h : ∀ c ∈ children, searchTree predicate c = none) :
    searchTreeList predicate children = none := by
  induction children with
  | nil => rfl
  | cons c rest ih =>
    rw [searchTreeList, h c (by simp)]
    exact ih (fun x hx => h x (List.mem_cons_of_mem _ hx))

/-- A tree without a node that satisfies the predicate: the search finds nothing. -/
theorem searchTree_eq_none {α : Type} (predicate : TreeNode α → Bool) :
    ∀ t : TreeNode α, (∀ q n, t.subtreeAt q = some n → predicate n = false) →
      searchTree predicate t = none := by
  intro t
  induction t using TreeNode.induct with
  | h data children ih =>
    intro hno
    have hroot : predicate (.node data children) = false := hno [] _ rfl
    rw [searchTree, hroot]
    simp only [Bool.false_eq_true, if_false]
    apply searchTreeList_eq_none
    intro c hc
    apply ih c hc
    intro q n hq
    obtain ⟨i, hi⟩ := List.getElem?_of_mem hc
    apply hno (i :: q) n
    simp only [TreeNode.subtreeAt, hi]
    exact hq

theorem searchTreeList_none_mem {α : Type} (predicate : TreeNode α → Bool)
    (children : List (TreeNode α)) (h : searchTreeList predicate children = none) :
    ∀ c ∈ children, searchTree predicate c = none := by
  induction children with
  | nil => intro c hc; simp at hc
  | cons c0 rest ih =>
    rw [searchTreeList] at h
    cases h0 : searchTree predicate c0 with
    | some out => simp [h0] at h
    | none =>
      rw [h0] at h
      intro c hc
      rcases List.mem_cons.1 hc with rfl | hc'
      · exact h0
      · exact ih h c hc'

theorem searchTreeList_some {α : Type} (predicate : TreeNode α → Bool)
    (children : List (TreeNode α)) (n : TreeNode α)
    (h : searchTreeList predicate children = some n) :
    ∃ i c, children[i]? = some c ∧ searchTree predicate c = some n ∧
      ∀ (j : Nat) (c' : TreeNode α), j < i → children[j]? = some c' →
        searchTree predicate c' = none := by
  induction children with
  | nil => simp [searchTreeList] at h
  | cons c rest ih =>
    rw [searchTreeList] at h
    cases hc : searchTree predicate c with
    | some out =>
      rw [hc] at h
      refine ⟨0, c, by simp, by rw [hc]; exact h, ?_⟩
      intro j c' hj
      omega
    | none =>
      rw [hc] at h
      obtain ⟨i, c1, hi, hs, hbefore⟩ := ih h
      refine ⟨i + 1, c1, by simpa using hi, hs, ?_⟩
      intro j c' hj hjc
      cases j with
      | zero =>
        simp at hjc
        rw [← hjc]
        exact hc
      | succ k =>
        exact hbefore k c' (by omega) (by simpa using hjc)

/-- The node that the search returns satisfies the predicate and sits in the tree. -/
theorem searchTree_some {α : Type} (predicate : TreeNode α → Bool) :
    ∀ (t n : TreeNode α), searchTree predicate t = some n →
      predicate n = true ∧ ∃ q, t.subtreeAt q = some n := by
  intro t
  induction t using TreeNode.induct with
  | h data children ih =>
    intro n h
    rw [searchTree] at h
    by_cases hp : predicate (.node data children) = true
    · simp only [hp, if_true] at h
      rw [← Option.some.inj h]
      exact ⟨hp, [], rfl⟩
    · simp only [hp, if_false] at h
      obtain ⟨i, c, hi, hs, -⟩ := searchTreeList_some predicate children n h
      obtain ⟨hpn, q, hq⟩ := ih c (List.getElem?_mem hi) n hs
      refine ⟨hpn, i :: q, ?_⟩
      simp only [TreeNode.subtreeAt, hi]
      exact hq

theorem updateTreeList_unchanged {α ε : Type} (predicate : TreeNode α → Bool)
    (update : TreeNode α → Except ε (TreeNode α)) (children : List (TreeNode α))
    (h : ∀ c ∈ children, updateTree predicate update cloneNode c = .ok c) :
    updateTreeList predicate update cloneNode children = .ok children := by
  induction children with
  | nil => rfl
  | cons c rest ih =>
    rw [updateTreeList, h c (by simp)]
    simp only [ih (fun x hx => h x (List.mem_cons_of_mem _ hx))]

/-- On a tree in which the search finds nothing, `updateTree` with the
default clone returns the tree as it is. -/
theorem updateTree_unchanged {α ε : Type} (predicate : TreeNode α → Bool)
    (update : TreeNode α → Except ε (TreeNode α)) :
    ∀ t : TreeNode α, searchTree predicate t = none →
      updateTree predicate update cloneNode t = .ok t := by
  intro t
  induction t using TreeNode.induct with
  | h data children ih =>
    intro hnone
    rw [searchTree] at hnone
    by_cases hp : predicate (.node data children) = true
    · simp [hp] at hnone
    · simp only [hp, if_false] at hnone
      rw [updateTree]
      simp only [hp, if_false]
      have hchildren := searchTreeList_none_mem predicate children hnone
      rw [updateTreeList_unchanged predicate update children
        (fun c hc => ih c hc (hchildren c hc))]
      rfl

theorem updateTreeList_error_at {α ε : Type} (predicate : TreeNode α → Bool)
    (update : TreeNode α → Except ε (TreeNode α)) (e : ε) :
    ∀ (children : List (TreeNode α)) (i : Nat) (c : TreeNode α), children[i]? = some c →
      updateTree predicate update cloneNode c = .error e →
      (∀ (j : Nat) (c' : TreeNode α), j < i → children[j]? = some c' →
        searchTree predicate c' = none) →
      updateTreeList predicate update cloneNode children = .error e := by
  intro children
  induction children with
  | nil => intro i c hi; simp at hi
  | cons c0 rest ih =>
    intro i c hi herr hbefore
    rw [updateTreeList]
    cases i with
    | zero =>
      have : c0 = c := by simpa using hi
      subst this
      rw [herr]
    | succ k =>
      have h0 := hbefore 0 c0 (by omega) (by simp)
      rw [updateTree_unchanged predicate update c0 h0]
      have := ih k c (by simpa using hi) herr
        (fun j c' hj hjc => hbefore (j + 1) c' (by omega) (by simpa using hjc))
      simp only [this]

/-- When the `update` callback throws on the node that the search finds,
`updateTree` throws the same error. -/
theorem updateTree_error {α ε : Type} (predicate : TreeNode α → Bool)
    (update : TreeNode α → Except ε (TreeNode α)) (e : ε) :
    ∀ (t n : TreeNode α), searchTree predicate t = some n → update n = .error e →
      updateTree predicate update cloneNode t = .error e := by
  intro t
  induction t using TreeNode.induct with
  | h data children ih =>
    intro n hs herr
    rw [searchTree] at hs
    rw [updateTree]
    by_cases hp : predicate (.node data children) = true
    · simp only [hp, if_true] at hs ⊢
      rw [Option.some.inj hs]
      exact herr
    · simp only [hp, Bool.false_eq_true, if_false] at hs ⊢
      obtain ⟨i, c, hi, hsc, hbefore⟩ := searchTreeList_some predicate children n hs
      rw [updateTreeList_error_at predicate update e children i c hi
        (ih c (List.getElem?_mem hi) n hsc herr) hbefore]

theorem updateTreeList_at {α ε : Type} (predicate : TreeNode α → Bool)
    (update : TreeNode α → Except ε (TreeNode α)) :
    ∀ (children : List (TreeNode α)) (i : Nat) (c : TreeNode α), children[i]? = some c →
      (∀ (j : Nat) (c' : TreeNode α), j ≠ i → children[j]? = some c' →
        searchTree predicate c' = none) →
      updateTreeList predicate update cloneNode children =
        match updateTree predicate update cloneNode c with
        | .error e => .error e
        | .ok c2 => .ok (children.set i c2) := by
  intro children
  induction children with
  | nil => intro i c hi; simp at hi
  | cons c0 rest ih =>
    intro i c hi hothers
    rw [updateTreeList]
    cases i with
    | zero =>
      have : c0 = c := by simpa using hi
      subst this
      have hrest : updateTreeList predicate update cloneNode rest = .ok rest :=
        updateTreeList_unchanged predicate update rest (fun x hx => by
          obtain ⟨j, hj⟩ := List.getElem?_of_mem hx
          exact updateTree_unchanged predicate update x
            (hothers (j + 1) x (by omega) (by simpa using hj)))
      cases hu : updateTree predicate update cloneNode c0 with
      | error e => rfl
      | ok c2 => simp [hrest]
    | succ k =>
      have h0 := hothers 0 c0 (by omega) (by simp)
      rw [updateTree_unchanged predicate update c0 h0]
      have := ih k c (by simpa using hi)
        (fun j c' hj hjc => hothers (j + 1) c' (by omega) (by simpa using hjc))
      simp only [this]
      cases hu : updateTree predicate update cloneNode c with
      | error e => rfl
      | ok c2 => simp

/-- When exactly one node satisfies the predicate, `updateTree` with the
default clone replaces that node by its update and keeps every other node. -/
theorem updateTree_replaceAt {α ε : Type} (predicate : TreeNode α → Bool)
    (update : TreeNode α → Except ε (TreeNode α)) (target : TreeNode α) :
    ∀ (path : List Nat) (t : TreeNode α), t.subtreeAt path = some target →
      predicate target = true →
      (∀ q n, t.subtreeAt q = some n → predicate n = true → q = path) →
      updateTree predicate update cloneNode t =
        match update target with
        | .error e => .error e
        | .ok new => .ok (t.replaceAt path new) := by
  intro path
  induction path with
  | nil =>
    intro t hsub hp _
    have ht : t = target := by simpa [TreeNode.subtreeAt] using hsub
    subst ht
    cases t with
    | node data children =>
      rw [updateTree]
      simp only [hp, if_true]
      cases update (.node data children) with
      | error e => rfl
      | ok new => rfl
  | cons i rest ih =>
    intro t hsub hp huniq
    cases t with
    | node data children =>
      have hroot : ¬ predicate (.node data children) = true := by
        intro h
        have := huniq [] _ rfl h
        simp at this
      rw [TreeNode.subtreeAt] at hsub
      cases hi : children[i]? with
      | none => simp [hi] at hsub
      | some c =>
        simp only [hi] at hsub
        have hothers : ∀ (j : Nat) (c' : TreeNode α), j ≠ i → children[j]? = some c' →
            searchTree predicate c' = none := by
          intro j c' hj hjc
          apply searchTree_eq_none
          intro q n hq
          cases hpn : predicate n with
          | false => rfl
          | true =>
            have := huniq (j :: q) n (by simp only [TreeNode.subtreeAt, hjc]; exact hq) hpn
            simp at this
            exact absurd this.1 hj
        have hc := ih c hsub hp (by
          intro q n hq hpn
          have := huniq (i :: q) n (by simp only [TreeNode.subtreeAt, hi]; exact hq) hpn
          simpa using this)
        rw [updateTree]
        simp only [hroot, if_false]
        rw [updateTreeList_at predicate update children i c hi hothers, hc]
        cases update target with
        | error e => rfl
        | ok new => simp [TreeNode.replaceAt, hi, cloneNode, TreeNode.data]

/-- The replaced node is found at the path of the replacement. -/
theorem subtreeAt_replaceAt_self {α : Type} (new : TreeNode α) :
    ∀ (path : List Nat) (t x : TreeNode α), t.subtreeAt path = some x →
      (t.replaceAt path new).subtreeAt path = some new := by
  intro path
  induction path with
  | nil =>
    intro t x _
    cases t with
    | node data children => simp [TreeNode.replaceAt, TreeNode.subtreeAt]
  | cons i rest ih =>
    intro t x hsub
    cases t with
    | node data children =>
      rw [TreeNode.subtreeAt] at hsub
      cases hi : children[i]? with
      | none => simp [hi] at hsub
      | some c =>
        simp only [hi] at hsub
        have hlt : i < children.length := (List.getElem?_eq_some.1 hi).1
        simp only [TreeNode.replaceAt, hi, TreeNode.subtreeAt, List.getElem?_set_self hlt]
        exact ih c x hsub

/-- A node whose path does not run through the replaced node keeps its
fields and its place. -/
theorem subtreeAt_replaceAt_other {α : Type} (new : TreeNode α) :
    ∀ (path : List Nat) (t x : TreeNode α) (q : List Nat) (n : TreeNode α),
      t.subtreeAt path = some x → t.subtreeAt q = some n → ¬ path <+: q →
      ∃ n', (t.replaceAt path new).subtreeAt q = some n' ∧ n'.data = n.data := by
  intro path
  induction path with
  | nil =>
    intro t x q n _ _ hpre
    exact absurd List.nil_prefix hpre
  | cons i rest ih =>
    intro t x q n hsub hq hpre
    cases t with
    | node data children =>
      rw [TreeNode.subtreeAt] at hsub
      cases hi : children[i]? with
      | none => simp [hi] at hsub
      | some c =>
        simp only [hi] at hsub
        cases q with
        | nil =>
          have hn : TreeNode.node data children = n := by
            simpa [TreeNode.subtreeAt] using hq
          subst hn
          exact ⟨.node data (children.set i (c.replaceAt rest new)),
            by simp only [TreeNode.replaceAt, hi, TreeNode.subtreeAt], rfl⟩
        | cons j q' =>
          rw [TreeNode.subtreeAt] at hq
          cases hj : children[j]? with
          | none => simp [hj] at hq
          | some c' =>
            simp only [hj] at hq
            by_cases hji : i = j
            · subst hji
              have hcc : c' = c := by
                rw [hi] at hj
                exact (Option.some.inj hj).symm
              subst hcc
              have hpre' : ¬ rest <+: q' := by
                intro h
                exact hpre (List.cons_prefix_cons.2 ⟨rfl, h⟩)
              obtain ⟨n', hn', hdata⟩ := ih c' x q' n hsub hq hpre'
              have hlt : i < children.length := (List.getElem?_eq_some.1 hi).1
              exact ⟨n', by
                simp only [TreeNode.replaceAt, hi, TreeNode.subtreeAt,
                  List.getElem?_set_self hlt]
                exact hn', hdata⟩
            · exact ⟨n, by
                simp only [TreeNode.replaceAt, hi, TreeNode.subtreeAt,
                  List.getElem?_set_ne hji, hj]
                exact hq, rfl⟩

/-! ## The kit application protocol -/

theorem softCat_pair {α : Type} (a : List α) (b : Option (List α)) :
    softCat [some a, b] = a ++ b.getD [] := by
  cases b with
  | none => simp [softCat]
  | some l => simp [softCat]

/-- The outcome of `applyKit` once the target is found, the stash is loaded,
the authorization is built and the server has accepted the request. -/
theorem applyKit_after_request {S D P : Type} (env : LoginEnv S D P) (w : World S D P)
    (loginTree login : TreeNode LoginData) (kit : LoginKit P) (stashTree : TreeNode StashData)
    (auth : AuthJson)
    (hsearch : searchTree (hasLoginId kit.loginId) loginTree = some login)
    (hload : env.load w.store loginTree.data.username = .ok stashTree)
    (hauth : makeAuthJson env.stringify login.data = .ok auth)
    (hreq : (env.authRequest w.server "POST" kit.serverPath
      { auth := auth, data := kit.server }).1 = .ok ()) :
    applyKit env w loginTree kit =
      match updateTree (hasLoginId kit.loginId) (applyKitLogin env.parseLen kit) cloneNode
          loginTree with
      | .error e =>
        (.error e,
          { server := (env.authRequest w.server "POST" kit.serverPath
              { auth := auth, data := kit.server }).2
            store := w.store
            trace := w.trace ++ [.load loginTree.data.username] ++
              [.request "POST" kit.serverPath { auth := auth, data := kit.server }] })
      | .ok newLoginTree =>
        match updateTree (stashHasLoginId kit.loginId) (applyKitStash kit) cloneNode
            stashTree with
        | .error e => nomatch e
        | .ok newStashTree =>
          match env.save w.store newStashTree with
          | .error message =>
            (.error (.saveFailed message),
              { server := (env.authRequest w.server "POST" kit.serverPath
                  { auth := auth, data := kit.server }).2
                store := w.store
                trace := w.trace ++ [.load loginTree.data.username] ++
                  [.request "POST" kit.serverPath { auth := auth, data := kit.server }] ++
                  [.save newStashTree] })
          | .ok store =>
            (.ok newLoginTree,
              { server := (env.authRequest w.server "POST" kit.serverPath
                  { auth := auth, data := kit.server }).2
                store := store
                trace := w.trace ++ [.load loginTree.data.username] ++
                  [.request "POST" kit.serverPath { auth := auth, data := kit.server }] ++
                  [.save newStashTree] }) := by
  simp only [applyKit, hsearch, hload, hauth, hreq]

/-- C7: kit atomicity. If the request that `applyKit` sends to the server
fails, `applyKit` fails with that failure, the stored stash is what it was,
and the only effects performed are the load and the request: no stash is
saved. The login tree passed in is a value that `applyKit` only reads. -/
theorem applyKit_request_failed {S D P : Type} (env : LoginEnv S D P) (w : World S D P)
    (loginTree login : TreeNode LoginData) (kit : LoginKit P) (stashTree : TreeNode StashData)
    (auth : AuthJson) (message : String)
    (hsearch : searchTree (hasLoginId kit.loginId) loginTree = some login)
    (hload : env.load w.store loginTree.data.username = .ok stashTree)
    (hauth : makeAuthJson env.stringify login.data = .ok auth)
    (hfail : (env.authRequest w.server "POST" kit.serverPath
      { auth := auth, data := kit.server }).1 = .error message) :
    (applyKit env w loginTree kit).1 = .error (.requestFailed message) ∧
    (applyKit env w loginTree kit).2.store = w.store ∧
    (applyKit env w loginTree kit).2.trace =
      w.trace ++ [.load loginTree.data.username,
        .request "POST" kit.serverPath { auth := auth, data := kit.server }] := by
  simp only [applyKit, hsearch, hload, hauth, hfail, List.append_assoc, List.singleton_append,
    and_self]

/-- C7 on the simulated server: it rejects the kit, `applyKit` fails, and the
stored stash is the one stored before. -/
theorem applyKit_request_failed_witness :
    (applyKit (fakeEnv false) startWorld rootLogin syncKit).1 =
        .error (.requestFailed "rejected") ∧
      (applyKit (fakeEnv false) startWorld rootLogin syncKit).2.store = some rootStash ∧
      (applyKit (fakeEnv false) startWorld rootLogin syncKit).2.trace =
        startWorld.trace ++ [.load (some "alice"),
          .request "POST" "/v2/login/keys"
            { auth := .byLoginAuth (some "child") "A", data := 11 }] :=
  applyKit_request_failed (fakeEnv false) startWorld rootLogin childLogin syncKit rootStash
    (.byLoginAuth (some "child") "A") "rejected" rfl rfl rfl rfl

/-- C10: when no node of the tree has the login id of the kit, `applyKit`
fails with the missing login error and leaves the world as it is: the stash
is not loaded and no request is sent. -/
theorem applyKit_missing_login {S D P : Type} (env : LoginEnv S D P) (w : World S D P)
    (loginTree : TreeNode LoginData) (kit : LoginKit P)
    (h : ∀ q n, loginTree.subtreeAt q = some n → n.data.loginId ≠ some kit.loginId) :
    applyKit env w loginTree kit = (.error .missingLogin, w) := by
  have hnone : searchTree (hasLoginId kit.loginId) loginTree = none := by
    apply searchTree_eq_none
    intro q n hq
    simp [hasLoginId, h q n hq]
  simp only [applyKit, hnone]

/-- The nodes of `rootLogin`. -/
theorem rootLogin_subtreeAt (q : List Nat) (n : TreeNode LoginData)
    (hq : rootLogin.subtreeAt q = some n) :
    (q = [] ∧ n = rootLogin) ∨ (q = [0] ∧ n = childLogin) := by
  rcases q with _ | ⟨i, q⟩
  · left
    exact ⟨rfl, by simpa [TreeNode.subtreeAt] using hq.symm⟩
  · rcases i with _ | i
    · rcases q with _ | ⟨j, q⟩
      · right
        simp [rootLogin, TreeNode.subtreeAt] at hq
        exact ⟨rfl, hq.symm⟩
      · simp [rootLogin, childLogin, TreeNode.subtreeAt] at hq
    · simp [rootLogin, TreeNode.subtreeAt] at hq

/-- C10 on the sample tree: a kit for a login id that no node has changes
nothing, against a server that would accept it. -/
theorem applyKit_missing_login_witness :
    applyKit (fakeEnv true) startWorld rootLogin strayKit = (.error .missingLogin, startWorld) :=
  applyKit_missing_login (fakeEnv true) startWorld rootLogin strayKit (by
    intro q n hq
    rcases rootLogin_subtreeAt q n hq with ⟨-, rfl⟩ | ⟨-, rfl⟩
    · decide
    · decide)

/-- A successful `applyKit` has found the target, loaded the stash, built the
authorization, had its request accepted and updated the login tree. -/
theorem applyKit_ok_inv {S D P : Type} (env : LoginEnv S D P) (w w' : World S D P)
    (loginTree newLoginTree : TreeNode LoginData) (kit : LoginKit P)
    (hok : applyKit env w loginTree kit = (.ok newLoginTree, w')) :
    ∃ login stashTree auth,
      searchTree (hasLoginId kit.loginId) loginTree = some login ∧
      env.load w.store loginTree.data.username = .ok stashTree ∧
      makeAuthJson env.stringify login.data = .ok auth ∧
      (env.authRequest w.server "POST" kit.serverPath
        { auth := auth, data := kit.server }).1 = .ok () ∧
      updateTree (hasLoginId kit.loginId) (applyKitLogin env.parseLen kit) cloneNode loginTree =
        .ok newLoginTree := by
  cases hsearch : searchTree (hasLoginId kit.loginId) loginTree with
  | none => simp [applyKit, hsearch] at hok
  | some login =>
    cases hload : env.load w.store loginTree.data.username with
    | error message => simp [applyKit, hsearch, hload] at hok
    | ok stashTree =>
      cases hauth : makeAuthJson env.stringify login.data with
      | error e => simp [applyKit, hsearch, hload, hauth] at hok
      | ok auth =>
        cases hreq : (env.authRequest w.server "POST" kit.serverPath
            { auth := auth, data := kit.server }).1 with
        | error message => simp [applyKit, hsearch, hload, hauth, hreq] at hok
        | ok reply =>
          refine ⟨login, stashTree, auth, rfl, rfl, hauth, hreq, ?_⟩
          rw [applyKit_after_request env w loginTree login kit stashTree auth hsearch hload
            hauth hreq] at hok
          cases hupd : updateTree (hasLoginId kit.loginId) (applyKitLogin env.parseLen kit)
              cloneNode loginTree with
          | error e => simp [hupd] at hok
          | ok t =>
            simp only [hupd] at hok
            cases hst : updateTree (stashHasLoginId kit.loginId) (applyKitStash kit) cloneNode
                stashTree with
            | error e => exact nomatch e
            | ok newStashTree =>
              simp only [hst] at hok
              cases hsave : env.save w.store newStashTree with
              | error message => simp [hsave] at hok
              | ok store =>
                simp only [hsave] at hok
                have := (Prod.mk.inj hok).1
                rw [Except.ok.inj this]

/-- C8, as amended: when the key infos of the kit conflict with those of the
target node, `applyKit` fails, the stored stash is what it was and no stash
is saved; but the conflict is found only after the request: once the stash is
loaded, the node has an authentication method and the server accepts the
request, the kit has been posted and the server is in its next state. -/
theorem applyKit_conflict_after_post {S D P : Type} (env : LoginEnv S D P) (w : World S D P)
    (loginTree login : TreeNode LoginData) (kit : LoginKit P) (e : MergeError)
    (hsearch : searchTree (hasLoginId kit.loginId) loginTree = some login)
    (hconflict : mergeKeyInfos env.parseLen
      (softCat [login.data.keyInfos, kit.login.fields.keyInfos]) = .error e) :
    (∃ err, (applyKit env w loginTree kit).1 = .error err) ∧
    (applyKit env w loginTree kit).2.store = w.store ∧
    (∃ effects, (applyKit env w loginTree kit).2.trace = w.trace ++ effects ∧
      ∀ stashTree, Effect.save stashTree ∉ effects) ∧
    (∀ stashTree auth, env.load w.store loginTree.data.username = .ok stashTree →
      makeAuthJson env.stringify login.data = .ok auth →
      (env.authRequest w.server "POST" kit.serverPath
        { auth := auth, data := kit.server }).1 = .ok () →
      (applyKit env w loginTree kit).1 = .error (.merge e) ∧
      (applyKit env w loginTree kit).2.server =
        (env.authRequest w.server "POST" kit.serverPath
          { auth := auth, data := kit.server }).2 ∧
      (applyKit env w loginTree kit).2.trace =
        w.trace ++ [.load loginTree.data.username,
          .request "POST" kit.serverPath { auth := auth, data := kit.server }]) := by
  have hupdate : applyKitLogin env.parseLen kit login = .error (.merge e) := by
    simp only [applyKitLogin, hconflict]
  have htree := updateTree_error (hasLoginId kit.loginId) (applyKitLogin env.parseLen kit)
    (.merge e) loginTree login hsearch hupdate
  have hposted : ∀ stashTree auth, env.load w.store loginTree.data.username = .ok stashTree →
      makeAuthJson env.stringify login.data = .ok auth →
      (env.authRequest w.server "POST" kit.serverPath
        { auth := auth, data := kit.server }).1 = .ok () →
      applyKit env w loginTree kit =
        (.error (.merge e),
          { server := (env.authRequest w.server "POST" kit.serverPath
              { auth := auth, data := kit.server }).2
            store := w.store
            trace := w.trace ++ [.load loginTree.data.username] ++
              [.request "POST" kit.serverPath { auth := auth, data := kit.server }] }) := by
    intro stashTree auth hload hauth hreq
    rw [applyKit_after_request env w loginTree login kit stashTree auth hsearch hload hauth
      hreq, htree]
  refine ⟨?_, ?_, ?_, ?_⟩
  · cases hload : env.load w.store loginTree.data.username with
    | error message => exact ⟨.loadFailed message, by simp only [applyKit, hsearch, hload]⟩
    | ok stashTree =>
      cases hauth : makeAuthJson env.stringify login.data with
      | error err => exact ⟨err, by simp only [applyKit, hsearch, hload, hauth]⟩
      | ok auth =>
        cases hreq : (env.authRequest w.server "POST" kit.serverPath
            { auth := auth, data := kit.server }).1 with
        | error message =>
          exact ⟨.requestFailed message, by simp only [applyKit, hsearch, hload, hauth, hreq]⟩
        | ok reply => exact ⟨.merge e, by rw [hposted stashTree auth hload hauth hreq]⟩
  · cases hload : env.load w.store loginTree.data.username with
    | error message => simp only [applyKit, hsearch, hload]
    | ok stashTree =>
      cases hauth : makeAuthJson env.stringify login.data with
      | error err => simp only [applyKit, hsearch, hload, hauth]
      | ok auth =>
        cases hreq : (env.authRequest w.server "POST" kit.serverPath
            { auth := auth, data := kit.server }).1 with
        | error message => simp only [applyKit, hsearch, hload, hauth, hreq]
        | ok reply => rw [hposted stashTree auth hload hauth hreq]
  · cases hload : env.load w.store loginTree.data.username with
    | error message =>
      exact ⟨[.load loginTree.data.username], by simp only [applyKit, hsearch, hload],
        by simp⟩
    | ok stashTree =>
      cases hauth : makeAuthJson env.stringify login.data with
      | error err =>
        exact ⟨[.load loginTree.data.username], by simp only [applyKit, hsearch, hload, hauth],
          by simp⟩
      | ok auth =>
        cases hreq : (env.authRequest w.server "POST" kit.serverPath
            { auth := auth, data := kit.server }).1 with
        | error message =>
          exact ⟨[.load loginTree.data.username,
              .request "POST" kit.serverPath { auth := auth, data := kit.server }],
            by simp only [applyKit, hsearch, hload, hauth, hreq, List.append_assoc,
              List.singleton_append], by simp⟩
        | ok reply =>
          exact ⟨[.load loginTree.data.username,
              .request "POST" kit.serverPath { auth := auth, data := kit.server }],
            by rw [hposted stashTree auth hload hauth hreq]; simp, by simp⟩
  · intro stashTree auth hload hauth hreq
    rw [hposted stashTree auth hload hauth hreq]
    simp

/-- The amended C8 on the simulated server: the forged kit fails, the stash
is kept, and the server has received the payload. -/
theorem applyKit_conflict_after_post_witness :
    searchTree (hasLoginId forgedKit.loginId) rootLogin = some childLogin ∧
    mergeKeyInfos (fakeEnv true).parseLen
      (softCat [childLogin.data.keyInfos, forgedKit.login.fields.keyInfos]) =
        .error (.keysMismatch idZero "dataKey") ∧
    (applyKit (fakeEnv true) startWorld rootLogin forgedKit).1 =
      .error (.merge (.keysMismatch idZero "dataKey")) ∧
    (applyKit (fakeEnv true) startWorld rootLogin forgedKit).2.server = [13] :=
  ⟨rfl, rfl,
    ((applyKit_conflict_after_post (fakeEnv true) startWorld rootLogin childLogin forgedKit
      (.keysMismatch idZero "dataKey") rfl rfl).2.2.2 rootStash
      (.byLoginAuth (some "child") "A") rfl rfl rfl).1,
    ((applyKit_conflict_after_post (fakeEnv true) startWorld rootLogin childLogin forgedKit
      (.keysMismatch idZero "dataKey") rfl rfl).2.2.2 rootStash
      (.byLoginAuth (some "child") "A") rfl rfl rfl).2.1⟩

/-- Against C8 as stated: the key info of `forgedKit` conflicts with the
wallet of the target node, `applyKit` fails, and yet the server is not what it
was: it has accepted the payload of the kit. -/
theorem applyKit_conflict_posts_kit :
    searchTree (hasLoginId forgedKit.loginId) rootLogin = some childLogin ∧
    mergeKeyInfos (fakeEnv true).parseLen
      (softCat [childLogin.data.keyInfos, forgedKit.login.fields.keyInfos]) =
        .error (.keysMismatch idZero "dataKey") ∧
    (applyKit (fakeEnv true) startWorld rootLogin forgedKit).1 =
      .error (.merge (.keysMismatch idZero "dataKey")) ∧
    startWorld.server = [] ∧
    (applyKit (fakeEnv true) startWorld rootLogin forgedKit).2.server = [forgedKit.server] ∧
    (applyKit (fakeEnv true) startWorld rootLogin forgedKit).2.server ≠ startWorld.server :=
  ⟨rfl, rfl, rfl, rfl, rfl, by decide⟩

theorem subtreeAt_append {α : Type} :
    ∀ (p r : List Nat) (t x : TreeNode α), t.subtreeAt p = some x →
      t.subtreeAt (p ++ r) = x.subtreeAt r := by
  intro p
  induction p with
  | nil =>
    intro r t x h
    cases t with
    | node data children =>
      have : TreeNode.node data children = x := by simpa [TreeNode.subtreeAt] using h
      rw [← this]
      rfl
  | cons i rest ih =>
    intro r t x h
    cases t with
    | node data children =>
      rw [TreeNode.subtreeAt] at h
      cases hi : children[i]? with
      | none => simp [hi] at h
      | some c =>
        simp only [hi] at h
        simp only [List.cons_append, TreeNode.subtreeAt, hi]
        exact ih r c x h

theorem hasLoginId_iff (loginId : String) (n : TreeNode LoginData) :
    hasLoginId loginId n = true ↔ n.data.loginId = some loginId := by
  simp [hasLoginId]

/-- C9: when exactly one node of the tree has the login id of the kit, a
successful `applyKit` returns the input tree with that node replaced by a
node whose fields are shallow-merged with `kit.login` (each field is the one
of `kit.login` when the kit has it, the old one otherwise), whose children
are the old children followed by `kit.login.children`, and whose key infos
are the merge of the old key infos followed by those of the kit. Every other
node keeps its fields and its place: the nodes outside the target's subtree
at their path, the nodes below the target as they are. -/
theorem applyKit_success_tree {S D P : Type} (env : LoginEnv S D P) (w w' : World S D P)
    (loginTree newLoginTree target : TreeNode LoginData) (kit : LoginKit P) (path : List Nat)
    (htarget : loginTree.subtreeAt path = some target)
    (hid : target.data.loginId = some kit.loginId)
    (huniq : ∀ q n, loginTree.subtreeAt q = some n → n.data.loginId = some kit.loginId →
      q = path)
    (hok : applyKit env w loginTree kit = (.ok newLoginTree, w')) :
    ∃ keyInfos,
      mergeKeyInfos env.parseLen
        (softCat [target.data.keyInfos, kit.login.fields.keyInfos]) = .ok keyInfos ∧
      newLoginTree = loginTree.replaceAt path
        (.node
          { username := kit.login.fields.username <|> target.data.username
            appId := kit.login.fields.appId <|> target.data.appId
            loginId := kit.login.fields.loginId <|> target.data.loginId
            loginKey := kit.login.fields.loginKey <|> target.data.loginKey
            userId := kit.login.fields.userId <|> target.data.userId
            loginAuth := kit.login.fields.loginAuth <|> target.data.loginAuth
            passwordAuth := kit.login.fields.passwordAuth <|> target.data.passwordAuth
            pin2Key := kit.login.fields.pin2Key <|> target.data.pin2Key
            recovery2Key := kit.login.fields.recovery2Key <|> target.data.recovery2Key
            keyInfos := some keyInfos }
          (target.children ++ kit.login.children.getD [])) ∧
      newLoginTree.subtreeAt path = some
        (.node
          { username := kit.login.fields.username <|> target.data.username
            appId := kit.login.fields.appId <|> target.data.appId
            loginId := kit.login.fields.loginId <|> target.data.loginId
            loginKey := kit.login.fields.loginKey <|> target.data.loginKey
            userId := kit.login.fields.userId <|> target.data.userId
            loginAuth := kit.login.fields.loginAuth <|> target.data.loginAuth
            passwordAuth := kit.login.fields.passwordAuth <|> target.data.passwordAuth
            pin2Key := kit.login.fields.pin2Key <|> target.data.pin2Key
            recovery2Key := kit.login.fields.recovery2Key <|> target.data.recovery2Key
            keyInfos := some keyInfos }
          (target.children ++ kit.login.children.getD [])) ∧
      (∀ q n, loginTree.subtreeAt q = some n → ¬ path <+: q →
        ∃ n', newLoginTree.subtreeAt q = some n' ∧ n'.data = n.data) ∧
      (∀ (i : Nat) (c : TreeNode LoginData) (q : List Nat), target.children[i]? = some c →
        newLoginTree.subtreeAt (path ++ i :: q) = c.subtreeAt q) := by
  obtain ⟨login, stashTree, auth, -, -, -, -, hupd⟩ :=
    applyKit_ok_inv env w w' loginTree newLoginTree kit hok
  have hrepl := updateTree_replaceAt (hasLoginId kit.loginId) (applyKitLogin env.parseLen kit)
    target path loginTree htarget ((hasLoginId_iff _ _).2 hid)
    (fun q n hq hp => huniq q n hq ((hasLoginId_iff _ _).1 hp))
  rw [hupd] at hrepl
  cases hmerge : mergeKeyInfos env.parseLen
      (softCat [target.data.keyInfos, kit.login.fields.keyInfos]) with
  | error e => simp [applyKitLogin, hmerge] at hrepl
  | ok keyInfos =>
    simp only [applyKitLogin, hmerge, softCat_pair, LoginData.assign] at hrepl
    have hnew := Except.ok.inj hrepl
    refine ⟨keyInfos, rfl, hnew, ?_, ?_, ?_⟩
    · rw [hnew]
      exact subtreeAt_replaceAt_self _ path loginTree target htarget
    · intro q n hq hpre
      rw [hnew]
      exact subtreeAt_replaceAt_other _ path loginTree target q n htarget hq hpre
    · intro i c q hi
      have hat := subtreeAt_replaceAt_self
        (.node
          { username := kit.login.fields.username <|> target.data.username
            appId := kit.login.fields.appId <|> target.data.appId
            loginId := kit.login.fields.loginId <|> target.data.loginId
            loginKey := kit.login.fields.loginKey <|> target.data.loginKey
            userId := kit.login.fields.userId <|> target.data.userId
            loginAuth := kit.login.fields.loginAuth <|> target.data.loginAuth
            passwordAuth := kit.login.fields.passwordAuth <|> target.data.passwordAuth
            pin2Key := kit.login.fields.pin2Key <|> target.data.pin2Key
            recovery2Key := kit.login.fields.recovery2Key <|> target.data.recovery2Key
            keyInfos := some keyInfos }
          (target.children ++ kit.login.children.getD [])) path loginTree target htarget
      rw [hnew, subtreeAt_append path (i :: q) _ _ hat]
      have hlt : i < target.children.length := (List.getElem?_eq_some.1 hi).1
      simp only [TreeNode.subtreeAt, List.getElem?_append_left hlt, hi]

/-- C9 on the sample tree: the kit with a PIN key, a user id, a login to attach
and the sync key is applied to the child login, which gets the two fields of
the kit, keeps its other fields, gets the new login as its child and the
merged wallet as its key infos; the root keeps its fields. -/
theorem applyKit_success_tree_witness :
    rootLogin.subtreeAt [0] = some childLogin ∧
    childLogin.data.loginId = some pinKit.loginId ∧
    (applyKit (fakeEnv true) startWorld rootLogin pinKit).1 =
      .ok (.node rootLogin.data
        [.node { appId := some "app", loginId := some "child", loginKey := some [2],
                 loginAuth := some [65], userId := some "child-user", pin2Key := some [5],
                 keyInfos := some [walletBoth] } [grandchildLogin]]) ∧
    ∃ keyInfos,
      mergeKeyInfos (fakeEnv true).parseLen
        (softCat [childLogin.data.keyInfos, pinKit.login.fields.keyInfos]) = .ok keyInfos ∧
      (TreeNode.node rootLogin.data
          [.node { appId := some "app", loginId := some "child", loginKey := some [2],
                   loginAuth := some [65], userId := some "child-user", pin2Key := some [5],
                   keyInfos := some [walletBoth] } [grandchildLogin]]) =
        rootLogin.replaceAt [0]
          (.node
            { username := pinKit.login.fields.username <|> childLogin.data.username
              appId := pinKit.login.fields.appId <|> childLogin.data.appId
              loginId := pinKit.login.fields.loginId <|> childLogin.data.loginId
              loginKey := pinKit.login.fields.loginKey <|> childLogin.data.loginKey
              userId := pinKit.login.fields.userId <|> childLogin.data.userId
              loginAuth := pinKit.login.fields.loginAuth <|> childLogin.data.loginAuth
              passwordAuth := pinKit.login.fields.passwordAuth <|> childLogin.data.passwordAuth
              pin2Key := pinKit.login.fields.pin2Key <|> childLogin.data.pin2Key
              recovery2Key := pinKit.login.fields.recovery2Key <|> childLogin.data.recovery2Key
              keyInfos := some keyInfos }
            (childLogin.children ++ pinKit.login.children.getD [])) :=
  ⟨rfl, rfl, rfl,
    (applyKit_success_tree (fakeEnv true) startWorld
      (applyKit (fakeEnv true) startWorld rootLogin pinKit).2 rootLogin
      (.node rootLogin.data
        [.node { appId := some "app", loginId := some "child", loginKey := some [2],
                 loginAuth := some [65], userId := some "child-user", pin2Key := some [5],
                 keyInfos := some [walletBoth] } [grandchildLogin]])
      childLogin pinKit [0] rfl rfl
      (by
        intro q n hq hn
        rcases rootLogin_subtreeAt q n hq with ⟨-, rfl⟩ | ⟨hq0, -⟩
        · exact absurd hn (by decide)
        · exact hq0)
      rfl).imp (fun _ h => ⟨h.1, h.2.1⟩)⟩

/-! ## The legacy upgrade of wallet infos -/

/-- The canonical types that `fixWalletInfo` gives to the types of its table. -/
theorem legacyDefaults_canonical_types :
    legacyDefaults.map (fun entry => (entry.1, removeBip entry.1)) =
      [ ("wallet:bitcoin-bip44", "wallet:bitcoin"),
        ("wallet:bitcoin-bip49", "wallet:bitcoin"),
        ("wallet:bitcoincash-bip32", "wallet:bitcoincash"),
        ("wallet:bitcoincash-bip44", "wallet:bitcoincash"),
        ("wallet:bitcoincash-bip44-testnet", "wallet:bitcoincash-testnet"),
        ("wallet:bitcoin-bip44-testnet", "wallet:bitcoin-testnet"),
        ("wallet:bitcoin-bip49-testnet", "wallet:bitcoin-testnet"),
        ("wallet:dash-bip44", "wallet:dash"),
        ("wallet:dogecoin-bip44", "wallet:dogecoin"),
        ("wallet:litecoin-bip44", "wallet:litecoin"),
        ("wallet:litecoin-bip49", "wallet:litecoin"),
        ("wallet:feathercoin-bip49", "wallet:feathercoin"),
        ("wallet:feathercoin-bip44", "wallet:feathercoin"),
        ("wallet:qtum-bip44", "wallet:qtum"),
        ("wallet:ufo-bip49", "wallet:ufo"),
        ("wallet:ufo-bip84", "wallet:ufo"),
        ("wallet:zcoin-bip44", "wallet:zcoin"),
        ("wallet:bitcoin-testnet", "wallet:bitcoin-testnet"),
        ("wallet:bitcoin", "wallet:bitcoin"),
        ("wallet:bitcoincash-testnet", "wallet:bitcoincash-testnet"),
        ("wallet:litecoin", "wallet:litecoin"),
        ("wallet:zcoin", "wallet:zcoin") ] := by
  decide

/-- C17: `fixWalletInfo` equals the table lookup. For a wallet info whose type
is an entry of the table it returns the same id, the type with its first
`-bip<digits>` part removed, and keys in which a key name of the wallet keeps
the wallet's value and any other key name has the table's default; for a
wallet info whose type is not in the table it returns the wallet info
unchanged. The removal turns the types of the table into the canonical types
listed. -/
theorem fixWalletInfo_table (walletInfo : KeyInfo) :
    (∀ defaults, objGet legacyDefaults walletInfo.type = some defaults →
      (fixWalletInfo walletInfo).id = walletInfo.id ∧
      (fixWalletInfo walletInfo).type = removeBip walletInfo.type ∧
      ∀ k, objGet (fixWalletInfo walletInfo).keys k =
        match objGet walletInfo.keys k with
        | some v => some v
        | none => objGet defaults k) ∧
    (objGet legacyDefaults walletInfo.type = none → fixWalletInfo walletInfo = walletInfo) ∧
    legacyDefaults.map (fun entry => (entry.1, removeBip entry.1)) =
      [ ("wallet:bitcoin-bip44", "wallet:bitcoin"),
        ("wallet:bitcoin-bip49", "wallet:bitcoin"),
        ("wallet:bitcoincash-bip32", "wallet:bitcoincash"),
        ("wallet:bitcoincash-bip44", "wallet:bitcoincash"),
        ("wallet:bitcoincash-bip44-testnet", "wallet:bitcoincash-testnet"),
        ("wallet:bitcoin-bip44-testnet", "wallet:bitcoin-testnet"),
        ("wallet:bitcoin-bip49-testnet", "wallet:bitcoin-testnet"),
        ("wallet:dash-bip44", "wallet:dash"),
        ("wallet:dogecoin-bip44", "wallet:dogecoin"),
        ("wallet:litecoin-bip44", "wallet:litecoin"),
        ("wallet:litecoin-bip49", "wallet:litecoin"),
        ("wallet:feathercoin-bip49", "wallet:feathercoin"),
        ("wallet:feathercoin-bip44", "wallet:feathercoin"),
        ("wallet:qtum-bip44", "wallet:qtum"),
        ("wallet:ufo-bip49", "wallet:ufo"),
        ("wallet:ufo-bip84", "wallet:ufo"),
        ("wallet:zcoin-bip44", "wallet:zcoin"),
        ("wallet:bitcoin-testnet", "wallet:bitcoin-testnet"),
        ("wallet:bitcoin", "wallet:bitcoin"),
        ("wallet:bitcoincash-testnet", "wallet:bitcoincash-testnet"),
        ("wallet:litecoin", "wallet:litecoin"),
        ("wallet:zcoin", "wallet:zcoin") ] := by
  refine ⟨?_, ?_, legacyDefaults_canonical_types⟩
  · intro defaults h
    simp only [fixWalletInfo, h, true_and]
    intro k
    rw [objGet_objSpread]
    cases objGet walletInfo.keys k <;> rfl
  · intro h
    simp only [fixWalletInfo, h]

/-- C17 on two wallet infos: a legacy bitcoin wallet that already has a
`format` keeps it and gains `coinType`; a wallet of an unmapped type is
returned as it is. -/
theorem fixWalletInfo_table_witness :
    objGet legacyDefaults legacyWallet.type =
        some [("format", .str "bip44"), ("coinType", .num 0)] ∧
      (fixWalletInfo legacyWallet).id = legacyWallet.id ∧
      (fixWalletInfo legacyWallet).type = "wallet:bitcoin" ∧
      objGet (fixWalletInfo legacyWallet).keys "format" = some (.str "custom") ∧
      objGet (fixWalletInfo legacyWallet).keys "coinType" = some (.num 0) ∧
      objGet legacyDefaults walletOther.type = none ∧
      fixWalletInfo walletOther = walletOther :=
  ⟨rfl,
    ((fixWalletInfo_table legacyWallet).1 _ rfl).1,
    ((fixWalletInfo_table legacyWallet).1 _ rfl).2.1.trans (by decide),
    (((fixWalletInfo_table legacyWallet).1 _ rfl).2.2 "format").trans rfl,
    (((fixWalletInfo_table legacyWallet).1 _ rfl).2.2 "coinType").trans rfl,
    rfl,
    (fixWalletInfo_table walletOther).2.1 rfl⟩

/-- C16, as amended: the wallet info built by `makeStorageKeyInfo` and passed
through `fixWalletInfo` has an id equal to the keyed digest, under its
`dataKey`, of the type it was created with. `fixWalletInfo` keeps that id
while it rewrites the type: a type of the table becomes the type without its
`-bip<digits>` part, any other type stays. -/
theorem makeStorageKeyInfo_fixed_id (c : Codec) (random32 random20 : Bytes) (type : String)
    (keys : List (String × JVal)) (info : KeyInfo)
    (h : makeStorageKeyInfo c random32 random20 type keys = .ok info) :
    ∃ dataKey idKey,
      objGet (fixWalletInfo info).keys "dataKey" = some (.str dataKey) ∧
      c.base64Parse dataKey = .ok idKey ∧
      (fixWalletInfo info).id =
        some (c.base64Stringify (c.hmacSha256 (c.utf8Parse type) idKey)) ∧
      (∀ defaults, objGet legacyDefaults type = some defaults →
        (fixWalletInfo info).type = removeBip type) ∧
      (objGet legacyDefaults type = none → (fixWalletInfo info).type = type) := by
  unfold makeStorageKeyInfo at h
  simp only at h
  split at h
  · rename_i dataKey hdata
    cases hp : c.base64Parse dataKey with
    | error message => simp [hp] at h
    | ok idKey =>
      simp only [hp] at h
      have hinfo := (Except.ok.inj h).symm
      subst hinfo
      refine ⟨dataKey, idKey, ?_, hp, ?_, ?_, ?_⟩
      · cases hd : objGet legacyDefaults type with
        | none => simpa [fixWalletInfo, makeKeyInfo, hd] using hdata
        | some defaults =>
          simp only [fixWalletInfo, makeKeyInfo, hd]
          rw [objGet_objSpread, hdata]
      · cases hd : objGet legacyDefaults type with
        | none => simp [fixWalletInfo, makeKeyInfo, hd]
        | some defaults => simp [fixWalletInfo, makeKeyInfo, hd]
      · intro defaults hd
        simp [fixWalletInfo, makeKeyInfo, hd]
      · intro hd
        simp [fixWalletInfo, makeKeyInfo, hd]
  · simp at h

/-- The amended C16 on a legacy bitcoin wallet: the id is the digest of
`wallet:bitcoin-bip44`, the type is `wallet:bitcoin`. -/
theorem makeStorageKeyInfo_fixed_id_witness :
    makeStorageKeyInfo fakeCodec [1] [2] "wallet:bitcoin-bip44" [("dataKey", .str "AAAA")] =
        .ok (makeKeyInfo fakeCodec "wallet:bitcoin-bip44"
          [("dataKey", .str "AAAA"), ("syncKey", .str (fakeCodec.base64Stringify [2]))]
          [0, 0, 0]) ∧
    ∃ dataKey idKey,
      objGet (fixWalletInfo (makeKeyInfo fakeCodec "wallet:bitcoin-bip44"
        [("dataKey", .str "AAAA"), ("syncKey", .str (fakeCodec.base64Stringify [2]))]
        [0, 0, 0])).keys "dataKey" = some (.str dataKey) ∧
      fakeCodec.base64Parse dataKey = .ok idKey ∧
      (fixWalletInfo (makeKeyInfo fakeCodec "wallet:bitcoin-bip44"
        [("dataKey", .str "AAAA"), ("syncKey", .str (fakeCodec.base64Stringify [2]))]
        [0, 0, 0])).id =
        some (fakeCodec.base64Stringify
          (fakeCodec.hmacSha256 (fakeCodec.utf8Parse "wallet:bitcoin-bip44") idKey)) :=
  ⟨rfl,
    (makeStorageKeyInfo_fixed_id fakeCodec [1] [2] "wallet:bitcoin-bip44"
      [("dataKey", .str "AAAA")] _ rfl).imp
      (fun _ h => h.imp (fun _ h' => ⟨h'.1, h'.2.1, h'.2.2.1⟩))⟩

/-- Against C16 as stated: for the type `wallet:bitcoin-bip44` the wallet info
that `createCurrencyWallet` attaches has the type `wallet:bitcoin`, and its id
is not the digest of `wallet:bitcoin` under its data key: it is the digest of
`wallet:bitcoin-bip44`. -/
theorem fixWalletInfo_id_not_digest_of_type :
    makeStorageKeyInfo fakeCodec [1] [2] "wallet:bitcoin-bip44" [("dataKey", .str "AAAA")] =
        .ok (makeKeyInfo fakeCodec "wallet:bitcoin-bip44"
          [("dataKey", .str "AAAA"), ("syncKey", .str (fakeCodec.base64Stringify [2]))]
          [0, 0, 0]) ∧
    fakeCodec.base64Parse "AAAA" = .ok [0, 0, 0] ∧
    (fixWalletInfo (makeKeyInfo fakeCodec "wallet:bitcoin-bip44"
      [("dataKey", .str "AAAA"), ("syncKey", .str (fakeCodec.base64Stringify [2]))]
      [0, 0, 0])).type = "wallet:bitcoin" ∧
    (fixWalletInfo (makeKeyInfo fakeCodec "wallet:bitcoin-bip44"
      [("dataKey", .str "AAAA"), ("syncKey", .str (fakeCodec.base64Stringify [2]))]
      [0, 0, 0])).id =
      some (fakeCodec.base64Stringify
        (fakeCodec.hmacSha256 (fakeCodec.utf8Parse "wallet:bitcoin-bip44") [0, 0, 0])) ∧
    (fixWalletInfo (makeKeyInfo fakeCodec "wallet:bitcoin-bip44"
      [("dataKey", .str "AAAA"), ("syncKey", .str (fakeCodec.base64Stringify [2]))]
      [0, 0, 0])).id ≠
      some (fakeCodec.base64Stringify
        (fakeCodec.hmacSha256 (fakeCodec.utf8Parse "wallet:bitcoin") [0, 0, 0])) :=
  ⟨rfl, rfl, by decide, rfl, by decide⟩

/-! ## Trees under `updateTree` with any clone -/

theorem subtreeAt_cons {α : Type} (t : TreeNode α) (i : Nat) (rest : List Nat) :
    t.subtreeAt (i :: rest) =
      match t.children[i]? with
      | none => none
      | some child => child.subtreeAt rest := by
  cases t with
  | node data children => rfl

theorem subtreeAt_nil {α : Type} (t : TreeNode α) : t.subtreeAt [] = some t := by
  cases t with
  | node data children => rfl

/-- The list that `updateTreeList` returns has, at each index, the update of
the tree at that index. -/
theorem updateTreeList_ok {α β ε : Type} (predicate : TreeNode α → Bool)
    (update : TreeNode α → Except ε (TreeNode β))
    (clone : TreeNode α → List (TreeNode β) → TreeNode β) :
    ∀ (children : List (TreeNode α)) (children' : List (TreeNode β)),
      updateTreeList predicate update clone children = .ok children' →
      children'.length = children.length ∧
      ∀ (i : Nat) (child : TreeNode α), children[i]? = some child →
        ∃ child', children'[i]? = some child' ∧
          updateTree predicate update clone child = .ok child' := by
  intro children
  induction children with
  | nil =>
    intro children' h
    simp only [updateTreeList] at h
    rw [← Except.ok.inj h]
    exact ⟨rfl, fun i child hi => by simp at hi⟩
  | cons c rest ih =>
    intro children' h
    rw [updateTreeList] at h
    cases hc : updateTree predicate update clone c with
    | error e => simp [hc] at h
    | ok c' =>
      simp only [hc] at h
      cases hr : updateTreeList predicate update clone rest with
      | error e => simp [hr] at h
      | ok rest' =>
        simp only [hr] at h
        rw [← Except.ok.inj h]
        obtain ⟨hlen, hget⟩ := ih rest' hr
        refine ⟨by simp [hlen], ?_⟩
        intro i child hi
        cases i with
        | zero =>
          have : c = child := by simpa using hi
          subst this
          exact ⟨c', by simp, hc⟩
        | succ k =>
          obtain ⟨child', hk, hu⟩ := hget k child (by simpa using hi)
          exact ⟨child', by simpa using hk, hu⟩

/-- When `updateTree` returns, the node at the place of a top-most node that
satisfies the predicate is the update of that node. -/
theorem updateTree_topmost {α β ε : Type} (predicate : TreeNode α → Bool)
    (update : TreeNode α → Except ε (TreeNode β))
    (clone : TreeNode α → List (TreeNode β) → TreeNode β)
    (hclone : ∀ n children, (clone n children).children = children) (x : TreeNode α)
    (hx : predicate x = true) :
    ∀ (path : List Nat) (t : TreeNode α) (t' : TreeNode β), t.subtreeAt path = some x →
      (∀ q n, q <+: path → q ≠ path → t.subtreeAt q = some n → predicate n = false) →
      updateTree predicate update clone t = .ok t' →
      ∃ y, update x = .ok y ∧ t'.subtreeAt path = some y := by
  intro path
  induction path with
  | nil =>
    intro t t' hsub _ hupd
    have ht : t = x := by
      rw [subtreeAt_nil] at hsub
      exact Option.some.inj hsub
    subst ht
    cases t with
    | node data children =>
      rw [updateTree] at hupd
      simp only [hx, if_true] at hupd
      exact ⟨t', hupd, subtreeAt_nil t'⟩
  | cons i rest ih =>
    intro t t' hsub habove hupd
    cases t with
    | node data children =>
      have hroot : predicate (.node data children) = false :=
        habove [] _ List.nil_prefix (by simp) rfl
      rw [TreeNode.subtreeAt] at hsub
      cases hi : children[i]? with
      | none => simp [hi] at hsub
      | some child =>
        simp only [hi] at hsub
        rw [updateTree] at hupd
        simp only [hroot, Bool.false_eq_true, if_false] at hupd
        cases hl : updateTreeList predicate update clone children with
        | error e => simp [hl] at hupd
        | ok children' =>
          simp only [hl] at hupd
          obtain ⟨-, hget⟩ := updateTreeList_ok predicate update clone children children' hl
          obtain ⟨child', hi', hu⟩ := hget i child hi
          obtain ⟨y, hy, hsub'⟩ := ih child child' hsub (by
            intro q n hq hne hqn
            apply habove (i :: q) n (List.cons_prefix_cons.2 ⟨rfl, hq⟩)
            · intro h
              exact hne (List.cons.inj h).2
            · simp only [TreeNode.subtreeAt, hi]
              exact hqn) hu
          refine ⟨y, hy, ?_⟩
          rw [← Except.ok.inj hupd, subtreeAt_cons, hclone, hi']
          exact hsub'

/-- When `updateTree` returns, a node above every node that satisfies the
predicate is cloned at its place. -/
theorem updateTree_above {α β ε : Type} (predicate : TreeNode α → Bool)
    (update : TreeNode α → Except ε (TreeNode β))
    (clone : TreeNode α → List (TreeNode β) → TreeNode β)
    (hclone : ∀ n children, (clone n children).children = children) :
    ∀ (path : List Nat) (t x : TreeNode α) (t' : TreeNode β), t.subtreeAt path = some x →
      (∀ q n, q <+: path → t.subtreeAt q = some n → predicate n = false) →
      updateTree predicate update clone t = .ok t' →
      ∃ children', t'.subtreeAt path = some (clone x children') := by
  intro path
  induction path with
  | nil =>
    intro t x t' hsub habove hupd
    have ht : t = x := by
      rw [subtreeAt_nil] at hsub
      exact Option.some.inj hsub
    subst ht
    cases t with
    | node data children =>
      have hroot : predicate (.node data children) = false :=
        habove [] _ List.nil_prefix rfl
      rw [updateTree] at hupd
      simp only [hroot, Bool.false_eq_true, if_false] at hupd
      cases hl : updateTreeList predicate update clone children with
      | error e => simp [hl] at hupd
      | ok children' =>
        simp only [hl] at hupd
        exact ⟨children', by rw [← Except.ok.inj hupd]; exact subtreeAt_nil _⟩
  | cons i rest ih =>
    intro t x t' hsub habove hupd
    cases t with
    | node data children =>
      have hroot : predicate (.node data children) = false :=
        habove [] _ List.nil_prefix rfl
      rw [TreeNode.subtreeAt] at hsub
      cases hi : children[i]? with
      | none => simp [hi] at hsub
      | some child =>
        simp only [hi] at hsub
        rw [updateTree] at hupd
        simp only [hroot, Bool.false_eq_true, if_false] at hupd
        cases hl : updateTreeList predicate update clone children with
        | error e => simp [hl] at hupd
        | ok children' =>
          simp only [hl] at hupd
          obtain ⟨-, hget⟩ := updateTreeList_ok predicate update clone children children' hl
          obtain ⟨child', hi', hu⟩ := hget i child hi
          obtain ⟨cs, hcs⟩ := ih child x child' hsub (by
            intro q n hq hqn
            apply habove (i :: q) n (List.cons_prefix_cons.2 ⟨rfl, hq⟩)
            simp only [TreeNode.subtreeAt, hi]
            exact hqn) hu
          refine ⟨cs, ?_⟩
          rw [← Except.ok.inj hupd, subtreeAt_cons, hclone, hi']
          exact hcs

/-! ## Deriving a login tree -/

/-- What a successful `loginFields` has done, step by step. -/
theorem loginFields_ok (c : Codec) (stash : StashData) (loginKey : Bytes) (login : LoginData)
    (h : loginFields c stash loginKey = .ok login) :
    ∃ appId loginId bitid account infos merged,
      stash.appId = some appId ∧ stash.loginId = some loginId ∧
      decryptOptional c stash.loginAuthBox loginKey = .ok login.loginAuth ∧
      decryptOptional c stash.passwordAuthBox loginKey = .ok login.passwordAuth ∧
      bitidKeys c stash loginKey = .ok bitid ∧
      accountKeys c stash appId loginKey = .ok account ∧
      decodeKeyBoxes c loginKey (stash.keyBoxes.getD []) = .ok infos ∧
      mergeKeyInfos c.parseLen (bitid ++ account ++ infos) = .ok merged ∧
      login.username = stash.username ∧ login.appId = some appId ∧
      login.loginId = some loginId ∧ login.loginKey = some loginKey ∧
      login.keyInfos = some merged := by
  unfold loginFields at h
  simp only [bind, Except.bind, pure, Except.pure, throw, throwThe, MonadExceptOf.throw] at h
  cases happ : stash.appId with
  | none => simp [happ] at h
  | some appId =>
    simp only [happ] at h
    cases h1 : decryptOptional c stash.loginAuthBox loginKey with
    | error e => simp only [h1] at h; cases h
    | ok loginAuth =>
      simp only [h1] at h
      cases hid : stash.loginId with
      | none => simp [hid] at h
      | some loginId =>
        simp only [hid] at h
        cases h2 : decryptOptional c stash.passwordAuthBox loginKey with
        | error e => simp only [h2] at h; cases h
        | ok passwordAuth =>
          simp only [h2] at h
          cases h3 : parseOptional c stash.pin2Key with
          | error e => simp only [h3] at h; cases h
          | ok pin2Key =>
            simp only [h3] at h
            cases h4 : parseOptional c stash.recovery2Key with
            | error e => simp only [h4] at h; cases h
            | ok recovery2Key =>
              simp only [h4] at h
              cases h5 : bitidKeys c stash loginKey with
              | error e => simp only [h5] at h; cases h
              | ok bitid =>
                simp only [h5] at h
                cases h6 : accountKeys c stash appId loginKey with
                | error e => simp only [h6] at h; cases h
                | ok account =>
                  simp only [h6] at h
                  cases h7 : decodeKeyBoxes c loginKey (stash.keyBoxes.getD []) with
                  | error e => simp only [h7] at h; cases h
                  | ok infos =>
                    simp only [h7] at h
                    cases h8 : mergeKeyInfos c.parseLen (bitid ++ account ++ infos) with
                    | error e => simp only [h8] at h; cases h
                    | ok merged =>
                      simp only [h8] at h
                      have hl := (Except.ok.inj h).symm
                      subst hl
                      exact ⟨appId, loginId, bitid, account, infos, merged, rfl, rfl, rfl, rfl,
                        rfl, h6, rfl, h8, rfl, rfl, rfl, rfl, rfl⟩

theorem decryptOptional_none_iff (c : Codec) (box : Option Box) (loginKey : Bytes)
    (data : Option Bytes) (h : decryptOptional c box loginKey = .ok data) :
    data = none ↔ box = none := by
  cases box with
  | none =>
    simp only [decryptOptional] at h
    simp [← Except.ok.inj h]
  | some b =>
    simp only [decryptOptional] at h
    cases hd : decryptBox c b loginKey with
    | error e => simp [hd] at h
    | ok d =>
      simp only [hd] at h
      rw [← Except.ok.inj h]
      simp

/-- What a successful `makeLoginTreeChildren` has done, index by index. -/
theorem makeLoginTreeChildren_ok (c : Codec) (loginKey : Bytes) :
    ∀ (children : List (TreeNode StashData)) (children' : List (TreeNode LoginData)),
      makeLoginTreeChildren c children loginKey = .ok children' →
      children'.length = children.length ∧
      ∀ (i : Nat) (child : TreeNode StashData), children[i]? = some child →
        ∃ parentBox childKey child', child.data.parentBox = some parentBox ∧
          decryptBox c parentBox loginKey = .ok childKey ∧
          children'[i]? = some child' ∧ makeLoginTreeInner c child childKey = .ok child' := by
  intro children
  induction children with
  | nil =>
    intro children' h
    simp only [makeLoginTreeChildren] at h
    rw [← Except.ok.inj h]
    exact ⟨rfl, fun i child hi => by simp at hi⟩
  | cons ch rest ih =>
    intro children' h
    rw [makeLoginTreeChildren] at h
    cases hp : ch.data.parentBox with
    | none => simp [hp] at h
    | some parentBox =>
      simp only [hp] at h
      cases hd : decryptBox c parentBox loginKey with
      | error e => simp [hd] at h
      | ok childKey =>
        simp only [hd] at h
        cases hc : makeLoginTreeInner c ch childKey with
        | error e => simp [hc] at h
        | ok ch' =>
          simp only [hc] at h
          cases hr : makeLoginTreeChildren c rest loginKey with
          | error e => simp [hr] at h
          | ok rest' =>
            simp only [hr] at h
            rw [← Except.ok.inj h]
            obtain ⟨hlen, hget⟩ := ih rest' hr
            refine ⟨by simp [hlen], ?_⟩
            intro i child hi
            cases i with
            | zero =>
              have : ch = child := by simpa using hi
              subst this
              exact ⟨parentBox, childKey, ch', hp, hd, by simp, hc⟩
            | succ k =>
              obtain ⟨pb, ck, child', h1, h2, h3, h4⟩ := hget k child (by simpa using hi)
              exact ⟨pb, ck, child', h1, h2, by simpa using h3, h4⟩

/-- What a successful `makeLoginTreeInner` has done at the node it is given. -/
theorem makeLoginTreeInner_ok (c : Codec) (stash : StashData)
    (children : List (TreeNode StashData)) (loginKey : Bytes) (t' : TreeNode LoginData)
    (h : makeLoginTreeInner c (.node stash children) loginKey = .ok t') :
    ∃ login children', loginFields c stash loginKey = .ok login ∧
      makeLoginTreeChildren c children loginKey = .ok children' ∧
      (login.loginAuth ≠ none ∨ login.passwordAuth ≠ none) ∧
      t' = .node login children' := by
  rw [makeLoginTreeInner] at h
  cases hf : loginFields c stash loginKey with
  | error e => simp [hf] at h
  | ok login =>
    simp only [hf] at h
    cases hc : makeLoginTreeChildren c children loginKey with
    | error e => simp [hc] at h
    | ok children' =>
      simp only [hc] at h
      refine ⟨login, children', rfl, rfl, ?_⟩
      cases ha : login.loginAuth with
      | none =>
        cases hb : login.passwordAuth with
        | none => simp [ha, hb] at h
        | some b =>
          simp only [ha, hb] at h
          exact ⟨Or.inr (by simp), (Except.ok.inj h).symm⟩
      | some a =>
        simp only [ha] at h
        exact ⟨Or.inl (by simp), (Except.ok.inj h).symm⟩

/-- Every stash node under a node on which `makeLoginTreeInner` returns has
one of the two authentication boxes. -/
theorem makeLoginTreeInner_boxes (c : Codec) :
    ∀ (x : TreeNode StashData) (loginKey : Bytes) (y : TreeNode LoginData),
      makeLoginTreeInner c x loginKey = .ok y →
      ∀ q n, x.subtreeAt q = some n →
        n.data.loginAuthBox ≠ none ∨ n.data.passwordAuthBox ≠ none := by
  intro x
  induction x using TreeNode.induct with
  | h stash children ih =>
    intro loginKey y hy q n hq
    obtain ⟨login, children', hf, hc, hauth, -⟩ :=
      makeLoginTreeInner_ok c stash children loginKey y hy
    cases q with
    | nil =>
      have hn : TreeNode.node stash children = n := by
        rw [subtreeAt_nil] at hq
        exact Option.some.inj hq
      subst hn
      obtain ⟨_, _, _, _, _, _, -, -, h1, h2, -⟩ := loginFields_ok c stash loginKey login hf
      rcases hauth with ha | ha
      · left
        intro hbox
        exact ha ((decryptOptional_none_iff c _ loginKey _ h1).2 hbox)
      · right
        intro hbox
        exact ha ((decryptOptional_none_iff c _ loginKey _ h2).2 hbox)
    | cons i rest =>
      rw [TreeNode.subtreeAt] at hq
      cases hi : children[i]? with
      | none => simp [hi] at hq
      | some child =>
        simp only [hi] at hq
        obtain ⟨-, hget⟩ := makeLoginTreeChildren_ok c loginKey children children' hc
        obtain ⟨_, childKey, child', -, -, -, hchild⟩ := hget i child hi
        exact ih child (List.getElem?_mem hi) childKey child' hchild rest n hq

/-- Every node of a tree that `makeLoginTreeInner` returns carries one of
`loginAuth` and `passwordAuth`. -/
theorem makeLoginTreeInner_auth (c : Codec) :
    ∀ (x : TreeNode StashData) (loginKey : Bytes) (y : TreeNode LoginData),
      makeLoginTreeInner c x loginKey = .ok y →
      ∀ q n, y.subtreeAt q = some n →
        n.data.loginAuth ≠ none ∨ n.data.passwordAuth ≠ none := by
  intro x
  induction x using TreeNode.induct with
  | h stash children ih =>
    intro loginKey y hy q n hq
    obtain ⟨login, children', -, hc, hauth, rfl⟩ :=
      makeLoginTreeInner_ok c stash children loginKey y hy
    cases q with
    | nil =>
      have hn : TreeNode.node login children' = n := by
        rw [subtreeAt_nil] at hq
        exact Option.some.inj hq
      subst hn
      exact hauth
    | cons i rest =>
      rw [TreeNode.subtreeAt] at hq
      cases hi : children'[i]? with
      | none => simp [hi] at hq
      | some child' =>
        simp only [hi] at hq
        obtain ⟨hlen, hget⟩ := makeLoginTreeChildren_ok c loginKey children children' hc
        have hlt : i < children.length := by
          rw [← hlen]
          exact (List.getElem?_eq_some.1 hi).1
        obtain ⟨_, childKey, child2, -, -, hi2, hchild⟩ :=
          hget i children[i] (List.getElem?_eq_getElem hlt)
        rw [hi] at hi2
        rw [← Option.some.inj hi2] at hchild
        exact ih children[i] (List.getElem_mem _) childKey child' hchild rest n hq

theorem makeAuthJson_ok_of_auth (stringify : Bytes → String) (login : LoginData)
    (h : login.loginAuth ≠ none ∨ login.passwordAuth ≠ none) :
    ∃ auth, makeAuthJson stringify login = .ok auth := by
  unfold makeAuthJson
  cases ha : login.loginAuth with
  | some a => exact ⟨_, rfl⟩
  | none =>
    cases hb : login.passwordAuth with
    | some b => exact ⟨_, rfl⟩
    | none =>
      rw [ha, hb] at h
      simp at h

theorem cloneLogin_children (n : TreeNode StashData) (children : List (TreeNode LoginData)) :
    (cloneLogin n children).children = children := rfl

theorem stashHasAppId_iff (appId : String) (n : TreeNode StashData) :
    stashHasAppId appId n = true ↔ n.data.appId = some appId := by
  simp [stashHasAppId]

/-- When `makeLoginTree` returns, the node at the place of a top-most stash
node with the target `appId` is `makeLoginTreeInner` of that node under the
key given. -/
theorem makeLoginTree_target (c : Codec) (stashTree target : TreeNode StashData)
    (loginKey : Bytes) (appId : String) (path : List Nat) (tree : TreeNode LoginData)
    (htarget : stashTree.subtreeAt path = some target)
    (happ : target.data.appId = some appId)
    (htop : ∀ q n, q <+: path → q ≠ path → stashTree.subtreeAt q = some n →
      n.data.appId ≠ some appId)
    (h : makeLoginTree c stashTree loginKey appId = .ok tree) :
    ∃ derived, makeLoginTreeInner c target loginKey = .ok derived ∧
      tree.subtreeAt path = some derived := by
  apply updateTree_topmost (stashHasAppId appId)
    (fun stash => makeLoginTreeInner c stash loginKey) cloneLogin cloneLogin_children target
    ((stashHasAppId_iff appId target).2 happ) path stashTree tree htarget _ h
  intro q n hq hne hqn
  cases hp : stashHasAppId appId n with
  | false => rfl
  | true => exact absurd ((stashHasAppId_iff appId n).1 hp) (htop q n hq hne hqn)

/-- C12: for a top-most stash node with the target `appId`, `makeLoginTree`
throws whenever that node or one of its descendants has neither a
`loginAuthBox` nor a `passwordAuthBox`; whenever it returns, every node of the
derived target subtree carries at least one of `loginAuth` and `passwordAuth`,
and `makeAuthJson` succeeds on it. -/
theorem makeLoginTree_authenticatable (c : Codec) (stringify : Bytes → String)
    (stashTree target : TreeNode StashData) (loginKey : Bytes) (appId : String)
    (path : List Nat)
    (htarget : stashTree.subtreeAt path = some target)
    (happ : target.data.appId = some appId)
    (htop : ∀ q n, q <+: path → q ≠ path → stashTree.subtreeAt q = some n →
      n.data.appId ≠ some appId) :
    ((∃ q n, target.subtreeAt q = some n ∧ n.data.loginAuthBox = none ∧
        n.data.passwordAuthBox = none) →
      ∃ e, makeLoginTree c stashTree loginKey appId = .error e) ∧
    (∀ tree, makeLoginTree c stashTree loginKey appId = .ok tree →
      ∃ derived, tree.subtreeAt path = some derived ∧
        ∀ q n, derived.subtreeAt q = some n →
          (n.data.loginAuth ≠ none ∨ n.data.passwordAuth ≠ none) ∧
          ∃ auth, makeAuthJson stringify n.data = .ok auth) := by
  constructor
  · rintro ⟨q, n, hq, hno1, hno2⟩
    cases hm : makeLoginTree c stashTree loginKey appId with
    | error e => exact ⟨e, rfl⟩
    | ok tree =>
      exfalso
      obtain ⟨derived, hd, -⟩ :=
        makeLoginTree_target c stashTree target loginKey appId path tree htarget happ htop hm
      rcases makeLoginTreeInner_boxes c target loginKey derived hd q n hq with h1 | h2
      · exact h1 hno1
      · exact h2 hno2
  · intro tree hm
    obtain ⟨derived, hd, hsub⟩ :=
      makeLoginTree_target c stashTree target loginKey appId path tree htarget happ htop hm
    refine ⟨derived, hsub, ?_⟩
    intro q n hq
    have hauth := makeLoginTreeInner_auth c target loginKey derived hd q n hq
    exact ⟨hauth, makeAuthJson_ok_of_auth stringify n.data hauth⟩

theorem prefix_singleton_ne {q : List Nat} {i : Nat} (hq : q <+: [i]) (hne : q ≠ [i]) :
    q = [] := by
  cases q with
  | nil => rfl
  | cons a rest =>
    exfalso
    obtain ⟨ha, hrest⟩ := List.cons_prefix_cons.1 hq
    have : rest = [] := List.prefix_nil.1 hrest
    subst this
    subst ha
    exact hne rfl

/-- C12 on the sample stashes: a stash whose application login has no
authentication box is rejected, and every node of the application subtree
derived from `appStash` can build its authorization. -/
theorem makeLoginTree_authenticatable_witness :
    (∃ e, makeLoginTree fakeCodec noAuthStash rootKey "" = .error e) ∧
    makeLoginTree fakeCodec appStash appKey "app" = .ok appTree ∧
    ∃ derived, appTree.subtreeAt [0] = some derived ∧
      ∀ q n, derived.subtreeAt q = some n →
        (n.data.loginAuth ≠ none ∨ n.data.passwordAuth ≠ none) ∧
        ∃ auth, makeAuthJson fakeCodec.base64Stringify n.data = .ok auth :=
  ⟨(makeLoginTree_authenticatable fakeCodec fakeCodec.base64Stringify noAuthStash noAuthStash
      rootKey "" [] rfl rfl
      (fun q n hq hne _ => absurd (List.prefix_nil.1 hq) hne)).1
      ⟨[0], _, rfl, rfl, rfl⟩,
    rfl,
    (makeLoginTree_authenticatable fakeCodec fakeCodec.base64Stringify appStash appStashNode
      appKey "app" [0] rfl rfl
      (fun q n hq hne hqn => by
        have hnil := prefix_singleton_ne hq hne
        subst hnil
        have hn : appStash = n := by
          rw [subtreeAt_nil] at hqn
          exact Option.some.inj hqn
        subst hn
        decide)).2 appTree rfl⟩

theorem prefix_antisymm {q p : List Nat} (h1 : q <+: p) (h2 : p <+: q) : q = p :=
  h1.eq_of_length (Nat.le_antisymm h1.length_le h2.length_le)

/-- C13, as amended: for a top-most stash node with the target `appId`,
whenever `makeLoginTree` returns, the returned tree holds at the place of
that node its decrypted mirror, with `appId` equal to the target, `loginKey`
equal to the key given, the login id of the stash node and as many children.
The returned tree is rooted at the root of the stash: every node above the
target is reduced to its `username`, `appId` and `loginId`, so that the root
of the returned tree is the target only when the stash root has the target
`appId`. -/
theorem makeLoginTree_mirror (c : Codec) (stashTree target : TreeNode StashData)
    (loginKey : Bytes) (appId : String) (path : List Nat) (tree : TreeNode LoginData)
    (htarget : stashTree.subtreeAt path = some target)
    (happ : target.data.appId = some appId)
    (htop : ∀ q n, q <+: path → q ≠ path → stashTree.subtreeAt q = some n →
      n.data.appId ≠ some appId)
    (h : makeLoginTree c stashTree loginKey appId = .ok tree) :
    (∃ derived, tree.subtreeAt path = some derived ∧
      derived.data.appId = some appId ∧ derived.data.loginKey = some loginKey ∧
      derived.data.loginId = target.data.loginId ∧
      derived.children.length = target.children.length) ∧
    (∀ q x, q <+: path → q ≠ path → stashTree.subtreeAt q = some x →
      ∃ n, tree.subtreeAt q = some n ∧
        n.data = { username := x.data.username, appId := x.data.appId,
                   loginId := x.data.loginId }) := by
  constructor
  · obtain ⟨derived, hd, hsub⟩ :=
      makeLoginTree_target c stashTree target loginKey appId path tree htarget happ htop h
    refine ⟨derived, hsub, ?_⟩
    cases target with
    | node stash children =>
      obtain ⟨login, children', hf, hc, -, rfl⟩ :=
        makeLoginTreeInner_ok c stash children loginKey derived hd
      obtain ⟨appId', loginId, _, _, _, _, h1, h2, -, -, -, -, -, -, -, h3, h4, h5, -⟩ :=
        loginFields_ok c stash loginKey login hf
      have happ' : stash.appId = some appId := happ
      refine ⟨?_, h5, ?_, ?_⟩
      · show login.appId = some appId
        rw [h3, ← h1, happ']
      · show login.loginId = stash.loginId
        rw [h4, h2]
      · exact (makeLoginTreeChildren_ok c loginKey children children' hc).1
  · intro q x hq hne hqx
    obtain ⟨children', hc⟩ := updateTree_above (stashHasAppId appId)
      (fun stash => makeLoginTreeInner c stash loginKey) cloneLogin cloneLogin_children q
      stashTree x tree hqx
      (by
        intro q' n hq' hqn
        cases hp : stashHasAppId appId n with
        | false => rfl
        | true =>
          refine absurd ((stashHasAppId_iff appId n).1 hp) (htop q' n (hq'.trans hq) ?_ hqn)
          intro heq
          subst heq
          exact hne (prefix_antisymm hq hq'))
      h
    exact ⟨_, hc, rfl⟩

/-- The amended C13 on the sample stash: the application login is derived at
its place under the root, which is reduced to its three public fields. -/
theorem makeLoginTree_mirror_witness :
    makeLoginTree fakeCodec appStash appKey "app" = .ok appTree ∧
    (∃ derived, appTree.subtreeAt [0] = some derived ∧
      derived.data.appId = some "app" ∧ derived.data.loginKey = some appKey ∧
      derived.data.loginId = appStashNode.data.loginId ∧
      derived.children.length = appStashNode.children.length) ∧
    ∃ n, appTree.subtreeAt [] = some n ∧
      n.data = { username := appStash.data.username, appId := appStash.data.appId,
                 loginId := appStash.data.loginId } :=
  ⟨rfl,
    (makeLoginTree_mirror fakeCodec appStash appStashNode appKey "app" [0] appTree rfl rfl
      (fun q n hq hne hqn => by
        have hnil := prefix_singleton_ne hq hne
        subst hnil
        have hn : appStash = n := by
          rw [subtreeAt_nil] at hqn
          exact Option.some.inj hqn
        subst hn
        decide) rfl).1,
    (makeLoginTree_mirror fakeCodec appStash appStashNode appKey "app" [0] appTree rfl rfl
      (fun q n hq hne hqn => by
        have hnil := prefix_singleton_ne hq hne
        subst hnil
        have hn : appStash = n := by
          rw [subtreeAt_nil] at hqn
          exact Option.some.inj hqn
        subst hn
        decide) rfl).2 [] appStash List.nil_prefix (by simp) rfl⟩

/-- Against C13 as stated: `appStash` has a node with the `appId` `app`, and
`makeLoginTree` for that `appId` returns a tree whose root has the `appId` of
the stash root and no `loginKey`. -/
theorem makeLoginTree_root_is_stash_root :
    appStash.subtreeAt [0] = some appStashNode ∧
    appStashNode.data.appId = some "app" ∧
    makeLoginTree fakeCodec appStash appKey "app" = .ok appTree ∧
    appTree.data.appId = some "" ∧
    appTree.data.appId ≠ some "app" ∧
    appTree.data.loginKey = none ∧
    appTree.data.loginKey ≠ some appKey :=
  ⟨rfl, rfl, rfl, rfl, by decide, rfl, by decide⟩

theorem updateTreeList_agreeOutside (c : Codec) (loginKey : Bytes) (appId : String) :
    ∀ (children others : List (TreeNode StashData)),
      (∀ child ∈ children, ∀ other, agreeOutside appId child other →
        makeLoginTree c child loginKey appId = makeLoginTree c other loginKey appId) →
      agreeOutsideList appId children others →
      updateTreeList (stashHasAppId appId) (fun stash => makeLoginTreeInner c stash loginKey)
          cloneLogin children =
        updateTreeList (stashHasAppId appId) (fun stash => makeLoginTreeInner c stash loginKey)
          cloneLogin others := by
  intro children
  induction children with
  | nil =>
    intro others _ h
    simp only [agreeOutsideList] at h
    rw [h]
  | cons child rest ih =>
    intro others hih h
    cases others with
    | nil => simp [agreeOutsideList] at h
    | cons other others' =>
      simp only [agreeOutsideList] at h
      have h1 := hih child (by simp) other h.1
      have h2 := ih others' (fun x hx => hih x (List.mem_cons_of_mem _ hx)) h.2
      unfold makeLoginTree at h1
      rw [updateTreeList, updateTreeList, h1, h2]

/-- C14, as amended: two stashes of the same shape that differ only in fields
other than `username`, `appId` and `loginId` of nodes outside the target's
subtree give the same result under `makeLoginTree`: the same error or the
same tree. -/
theorem makeLoginTree_scope_isolation (c : Codec) (loginKey : Bytes) (appId : String) :
    ∀ (stashTree other : TreeNode StashData), agreeOutside appId stashTree other →
      makeLoginTree c stashTree loginKey appId = makeLoginTree c other loginKey appId := by
  intro stashTree
  induction stashTree using TreeNode.induct with
  | h data children ih =>
    intro other hagree
    rw [agreeOutside] at hagree
    by_cases happ : data.appId = some appId
    · simp only [happ, if_true] at hagree
      rw [hagree]
    · simp only [happ, if_false] at hagree
      obtain ⟨h1, h2, h3, h4⟩ := hagree
      cases other with
      | node data' children' =>
        have h1' : data'.appId = data.appId := h1
        have h2' : data'.username = data.username := h2
        have h3' : data'.loginId = data.loginId := h3
        have h4' : agreeOutsideList appId children children' := h4
        have hp : stashHasAppId appId (.node data children) = false := by
          simp [stashHasAppId, TreeNode.data, happ]
        have hp' : stashHasAppId appId (.node data' children') = false := by
          simp [stashHasAppId, TreeNode.data, h1', happ]
        unfold makeLoginTree
        rw [updateTree, updateTree]
        simp only [hp, hp', Bool.false_eq_true, if_false]
        rw [updateTreeList_agreeOutside c loginKey appId children children' ih h4']
        simp only [cloneLogin, TreeNode.data, h1', h2', h3']

theorem appStash_agreeOutside_reboxed : agreeOutside "app" appStash appStashReboxed := by
  simp [agreeOutside, agreeOutsideList, appStash, appStashReboxed, appStashNode, sideStashNode,
    TreeNode.data, TreeNode.children]

/-- The amended C14 on the sample stash: other boxes in the root and in the
sibling of the application leave the derived tree as it is. -/
theorem makeLoginTree_scope_isolation_witness :
    agreeOutside "app" appStash appStashReboxed ∧
    makeLoginTree fakeCodec appStash appKey "app" =
      makeLoginTree fakeCodec appStashReboxed appKey "app" ∧
    makeLoginTree fakeCodec appStashReboxed appKey "app" = .ok appTree :=
  ⟨appStash_agreeOutside_reboxed,
    makeLoginTree_scope_isolation fakeCodec appKey "app" appStash appStashReboxed
      appStash_agreeOutside_reboxed,
    rfl⟩

/-- Against C14 as stated: two stashes that differ only in the `loginId` of a
sibling of the target; `makeLoginTree` returns on both, with trees that differ
in the login id of that sibling. -/
theorem makeLoginTree_exposes_sibling_loginId :
    appStashRenamed = appStash.replaceAt [1]
      (.node { sideStashNode.data with loginId := some "renamed" } []) ∧
    makeLoginTree fakeCodec appStash appKey "app" = .ok appTree ∧
    makeLoginTree fakeCodec appStashRenamed appKey "app" =
      .ok (appTree.replaceAt [1] (.node { appId := some "side", loginId := some "renamed" } [])) ∧
    makeLoginTree fakeCodec appStash appKey "app" ≠
      makeLoginTree fakeCodec appStashRenamed appKey "app" :=
  ⟨rfl, rfl, rfl, by
    intro h
    have h1 : makeLoginTree fakeCodec appStash appKey "app" = .ok appTree := rfl
    have h2 : makeLoginTree fakeCodec appStashRenamed appKey "app" =
      .ok (appTree.replaceAt [1]
        (.node { appId := some "side", loginId := some "renamed" } [])) := rfl
    rw [h1, h2] at h
    have h3 := congrArg (fun t : TreeNode LoginData =>
      (t.subtreeAt [1]).map (fun n => n.data.loginId)) (Except.ok.inj h)
    revert h3
    decide⟩

/-- The two records that `makeLoginTreeInner` synthesises hold the key names
`mnemonic`, `rootKey`, `syncKey` and `dataKey`, and no other. -/
theorem legacyKeys_key_names (c : Codec) (stash : StashData) (appId : String)
    (loginKey : Bytes) (bitid account : List KeyInfo)
    (hb : bitidKeys c stash loginKey = .ok bitid)
    (ha : accountKeys c stash appId loginKey = .ok account) :
    ∀ r ∈ bitid ++ account, ∀ k v, objGet r.keys k = some v →
      k = "mnemonic" ∨ k = "rootKey" ∨ k = "syncKey" ∨ k = "dataKey" := by
  have hbitid : ∀ r ∈ bitid, ∀ k v, objGet r.keys k = some v →
      k = "mnemonic" ∨ k = "rootKey" := by
    unfold bitidKeys at hb
    cases hm : stash.menemonicBox with
    | none =>
      simp only [hm] at hb
      rw [← Except.ok.inj hb]
      intro r hr
      simp at hr
    | some menemonicBox =>
      cases hr : stash.rootKeyBox with
      | none =>
        simp only [hm, hr] at hb
        rw [← Except.ok.inj hb]
        intro r hr
        simp at hr
      | some rootKeyBox =>
        simp only [hm, hr] at hb
        cases h1 : decryptBox c menemonicBox loginKey with
        | error e => simp [h1] at hb
        | ok mnemonic =>
          simp only [h1] at hb
          cases h2 : decryptBox c rootKeyBox loginKey with
          | error e => simp [h2] at hb
          | ok rootKey =>
            simp only [h2] at hb
            rw [← Except.ok.inj hb]
            intro r hr k v hk
            have hre : r = makeKeyInfo c "wallet:bitid"
                [("mnemonic", .str (c.utf8Stringify mnemonic)),
                  ("rootKey", .str (c.base64Stringify rootKey))] rootKey := by
              simpa using hr
            subst hre
            simp only [makeKeyInfo, objGet] at hk
            by_cases hk1 : "mnemonic" = k
            · exact Or.inl hk1.symm
            · by_cases hk2 : "rootKey" = k
              · exact Or.inr hk2.symm
              · simp [hk1, hk2] at hk
  have haccount : ∀ r ∈ account, ∀ k v, objGet r.keys k = some v →
      k = "syncKey" ∨ k = "dataKey" := by
    unfold accountKeys at ha
    cases hs : stash.syncKeyBox with
    | none =>
      simp only [hs] at ha
      rw [← Except.ok.inj ha]
      intro r hr
      simp at hr
    | some syncKeyBox =>
      simp only [hs] at ha
      cases h1 : decryptBox c syncKeyBox loginKey with
      | error e => simp [h1] at ha
      | ok syncKey =>
        simp only [h1] at ha
        rw [← Except.ok.inj ha]
        intro r hr k v hk
        have hre : r = makeKeyInfo c (makeAccountType appId)
            [("syncKey", .str (c.base64Stringify syncKey)),
              ("dataKey", .str (c.base64Stringify loginKey))] loginKey := by
          simpa using hr
        subst hre
        simp only [makeKeyInfo, objGet] at hk
        by_cases hk1 : "syncKey" = k
        · exact Or.inl hk1.symm
        · by_cases hk2 : "dataKey" = k
          · exact Or.inr hk2.symm
          · simp [hk1, hk2] at hk
  intro r hr k v hk
  rcases List.mem_append.1 hr with h | h
  · rcases hbitid r h k v hk with h1 | h1
    · exact Or.inl h1
    · exact Or.inr (Or.inl h1)
  · rcases haccount r h k v hk with h1 | h1
    · exact Or.inr (Or.inr (Or.inl h1))
    · exact Or.inr (Or.inr (Or.inr h1))

/-- C15, as amended: `makeLoginTree` applies no legacy upgrade. The `keyInfos`
of the derived target node is the merge of the two records that
`makeLoginTreeInner` synthesises (the BitID wallet and the account settings
key) and of the key infos decoded from the key boxes of the node, as they are
stored. Each stored key info has a derived record with its id and its type,
unchanged, whether the type is in the legacy table or not, that holds its key
names, and its values where they are not null; every key of a derived record
comes from a synthesised or stored record of the same id and type; and a
derived record holds `format` or `coinType` only as a stored record of its id
and type holds it: none is added. -/
theorem makeLoginTree_keeps_stored_types (c : Codec) (stashTree target : TreeNode StashData)
    (loginKey : Bytes) (appId : String) (path : List Nat) (tree : TreeNode LoginData)
    (htarget : stashTree.subtreeAt path = some target)
    (happ : target.data.appId = some appId)
    (htop : ∀ q n, q <+: path → q ≠ path → stashTree.subtreeAt q = some n →
      n.data.appId ≠ some appId)
    (h : makeLoginTree c stashTree loginKey appId = .ok tree) :
    ∃ derived bitid account infos merged,
      tree.subtreeAt path = some derived ∧
      bitidKeys c target.data loginKey = .ok bitid ∧
      accountKeys c target.data appId loginKey = .ok account ∧
      decodeKeyBoxes c loginKey (target.data.keyBoxes.getD []) = .ok infos ∧
      mergeKeyInfos c.parseLen (bitid ++ account ++ infos) = .ok merged ∧
      derived.data.keyInfos = some merged ∧
      (∀ r ∈ infos, ∃ o ∈ merged, o.id = r.id ∧ o.type = r.type ∧
        ∀ k v, objGet r.keys k = some v →
          (∃ w, objGet o.keys k = some w) ∧ (v ≠ .null → objGet o.keys k = some v)) ∧
      (∀ o ∈ merged, ∀ k v, objGet o.keys k = some v →
        ∃ r ∈ bitid ++ account ++ infos,
          r.id = o.id ∧ r.type = o.type ∧ objGet r.keys k = some v) ∧
      (∀ o ∈ merged, ∀ k v, k = "format" ∨ k = "coinType" → objGet o.keys k = some v →
        ∃ r ∈ infos, r.id = o.id ∧ r.type = o.type ∧ objGet r.keys k = some v) := by
  obtain ⟨derived, hd, hsub⟩ :=
    makeLoginTree_target c stashTree target loginKey appId path tree htarget happ htop h
  cases target with
  | node stash children =>
    obtain ⟨login, children', hf, -, -, rfl⟩ :=
      makeLoginTreeInner_ok c stash children loginKey derived hd
    obtain ⟨appId', _, bitid, account, infos, merged, happ', -, -, -, hbit, hacc, hdec, hmerge,
      -, -, -, -, hkeys⟩ := loginFields_ok c stash loginKey login hf
    have happEq : appId' = appId := by
      have h1 : stash.appId = some appId := happ
      rw [happ'] at h1
      exact Option.some.inj h1
    subst happEq
    obtain ⟨st, rfl, inv⟩ := mergeKeyInfos_inv hmerge
    have horigin : ∀ o ∈ st.out, ∀ k v, objGet o.keys k = some v →
        ∃ r ∈ bitid ++ account ++ infos,
          r.id = o.id ∧ r.type = o.type ∧ objGet r.keys k = some v := by
      intro o ho k v hk
      obtain ⟨r, hr, hrid, hrk⟩ := (inv.origin o ho).2 k v hk
      exact ⟨r, hr, hrid, (inv.type_eq ho hr hrid.symm).symm, hrk⟩
    refine ⟨_, bitid, account, infos, st.out, hsub, hbit, hacc, hdec, hmerge, hkeys, ?_,
      horigin, ?_⟩
    · intro r hr
      exact inv.covers r (List.mem_append_right _ hr)
    · intro o ho k v hfc hk
      obtain ⟨r, hr, hrid, hrtype, hrk⟩ := horigin o ho k v hk
      rcases List.mem_append.1 hr with hleg | hinfo
      · exfalso
        have hname := legacyKeys_key_names c stash appId' loginKey bitid account hbit hacc
          r hleg k v hrk
        rcases hfc with rfl | rfl <;> revert hname <;> decide
      · exact ⟨r, hinfo, hrid, hrtype, hrk⟩

/-- The amended C15 on a stash whose key box holds a `wallet:bitcoin-bip44`
wallet: the derived login holds that wallet with that type. -/
theorem makeLoginTree_keeps_stored_types_witness :
    makeLoginTree fakeCodec bip44Stash rootKey "" =
      .ok bip44Tree ∧
    ∃ derived bitid account infos merged,
      bip44Tree.subtreeAt [] = some derived ∧
      bitidKeys fakeCodec bip44Stash.data rootKey = .ok bitid ∧
      accountKeys fakeCodec bip44Stash.data "" rootKey = .ok account ∧
      decodeKeyBoxes fakeCodec rootKey (bip44Stash.data.keyBoxes.getD []) = .ok infos ∧
      mergeKeyInfos fakeCodec.parseLen (bitid ++ account ++ infos) = .ok merged ∧
      derived.data.keyInfos = some merged ∧
      (∀ r ∈ infos, ∃ o ∈ merged, o.id = r.id ∧ o.type = r.type ∧
        ∀ k v, objGet r.keys k = some v →
          (∃ w, objGet o.keys k = some w) ∧ (v ≠ .null → objGet o.keys k = some v)) ∧
      (∀ o ∈ merged, ∀ k v, objGet o.keys k = some v →
        ∃ r ∈ bitid ++ account ++ infos,
          r.id = o.id ∧ r.type = o.type ∧ objGet r.keys k = some v) ∧
      (∀ o ∈ merged, ∀ k v, k = "format" ∨ k = "coinType" → objGet o.keys k = some v →
        ∃ r ∈ infos, r.id = o.id ∧ r.type = o.type ∧ objGet r.keys k = some v) :=
  ⟨rfl,
    makeLoginTree_keeps_stored_types fakeCodec bip44Stash bip44Stash rootKey "" [] _ rfl rfl
      (fun _ _ hq hne _ => absurd (List.prefix_nil.1 hq) hne) rfl⟩

/-- Against C15 as stated: the key box of `bip44Stash` holds a key info of the
legacy type `wallet:bitcoin-bip44`, which `fixWalletInfo` would turn into a
`wallet:bitcoin` with `format` and `coinType`; the derived login holds it
with the type `wallet:bitcoin-bip44` and without those keys. -/
theorem makeLoginTree_skips_legacy_upgrade :
    decodeKeyBoxes fakeCodec rootKey (bip44Stash.data.keyBoxes.getD []) = .ok [bip44Wallet] ∧
    bip44Wallet.type = "wallet:bitcoin-bip44" ∧
    fixWalletInfo bip44Wallet =
      { id := some idOne, type := "wallet:bitcoin",
        keys := [("format", .str "bip44"), ("coinType", .num 0), ("dataKey", .str "d0")] } ∧
    makeLoginTree fakeCodec bip44Stash rootKey "" =
      .ok bip44Tree ∧
    (∀ o ∈ [bip44Wallet], o.type ≠ "wallet:bitcoin" ∧ objGet o.keys "format" = none ∧
      objGet o.keys "coinType" = none) :=
  ⟨rfl, rfl, by decide, rfl, by decide⟩

/-! ## Applying a login reply -/

/-- What a successful `replyFields` has built, field by field. -/
theorem replyFields_ok (c : Codec) (stash : StashData) (loginKey : Bytes) (reply : ReplyData)
    (out : StashData) (h : replyFields c stash loginKey reply = .ok out) :
    ∃ pin2Key recovery2Key,
      decryptOptional c reply.pin2KeyBox loginKey = .ok pin2Key ∧
      decryptOptional c reply.recovery2KeyBox loginKey = .ok recovery2Key ∧
      out =
        { appId := reply.fields.appId
          loginId := reply.fields.loginId
          loginAuthBox := reply.fields.loginAuthBox
          parentBox := reply.fields.parentBox
          passwordAuthBox := reply.fields.passwordAuthBox
          passwordBox := reply.fields.passwordBox
          passwordKeySnrp := reply.fields.passwordKeySnrp
          mnemonicBox := reply.fields.mnemonicBox
          rootKeyBox := reply.fields.rootKeyBox
          syncKeyBox := reply.fields.syncKeyBox
          username := stash.username
          userId := stash.userId
          pin2Key := pin2Key.map c.base64Stringify
          recovery2Key := recovery2Key.map c.base64Stringify
          keyBoxes := some (reply.fields.keyBoxes.getD []) } := by
  unfold replyFields at h
  simp only [bind, Except.bind, pure, Except.pure] at h
  cases h1 : decryptOptional c reply.pin2KeyBox loginKey with
  | error e => simp only [h1] at h; cases h
  | ok pin2Key =>
    simp only [h1] at h
    cases h2 : decryptOptional c reply.recovery2KeyBox loginKey with
    | error e => simp only [h2] at h; cases h
    | ok recovery2Key =>
      simp only [h2] at h
      exact ⟨pin2Key, recovery2Key, rfl, rfl, (Except.ok.inj h).symm⟩

/-- What a successful `applyLoginReplyChildren` has done, index by index. -/
theorem applyLoginReplyChildren_ok (c : Codec) (stashChildren : List (TreeNode StashData))
    (loginKey : Bytes) :
    ∀ (replyChildren : List (TreeNode ReplyData)) (index : Nat)
      (children : List (TreeNode StashData)),
      applyLoginReplyChildren c stashChildren loginKey index replyChildren = .ok children →
      children.length = replyChildren.length ∧
      ∀ (i : Nat) (child : TreeNode ReplyData), replyChildren[i]? = some child →
        ∃ parentBox childKey child', child.data.fields.parentBox = some parentBox ∧
          decryptBox c parentBox loginKey = .ok childKey ∧
          children[i]? = some child' ∧
          applyLoginReplyInner c ((stashChildren[index + i]?).getD (.node {} [])) childKey
            child = .ok child' := by
  intro replyChildren
  induction replyChildren with
  | nil =>
    intro index children h
    simp only [applyLoginReplyChildren] at h
    rw [← Except.ok.inj h]
    exact ⟨rfl, fun i child hi => by simp at hi⟩
  | cons ch rest ih =>
    intro index children h
    rw [applyLoginReplyChildren] at h
    cases hp : ch.data.fields.parentBox with
    | none => simp only [hp] at h; cases h
    | some parentBox =>
      simp only [hp] at h
      cases hd : decryptBox c parentBox loginKey with
      | error e => simp only [hd] at h; cases h
      | ok childKey =>
        simp only [hd] at h
        cases hc : applyLoginReplyInner c ((stashChildren[index]?).getD (.node {} [])) childKey
            ch with
        | error e => simp only [hc] at h; cases h
        | ok ch' =>
          simp only [hc] at h
          cases hr : applyLoginReplyChildren c stashChildren loginKey (index + 1) rest with
          | error e => simp only [hr] at h; cases h
          | ok rest' =>
            simp only [hr] at h
            rw [← Except.ok.inj h]
            obtain ⟨hlen, hget⟩ := ih (index + 1) rest' hr
            refine ⟨by simp [hlen], ?_⟩
            intro i child hi
            cases i with
            | zero =>
              have : ch = child := by simpa using hi
              subst this
              exact ⟨parentBox, childKey, ch', hp, hd, by simp, by simpa using hc⟩
            | succ k =>
              obtain ⟨pb, ck, child', h1, h2, h3, h4⟩ := hget k child (by simpa using hi)
              refine ⟨pb, ck, child', h1, h2, by simpa using h3, ?_⟩
              have hidx : index + (k + 1) = index + 1 + k := by omega
              rw [hidx]
              exact h4

/-- What a successful `applyLoginReplyInner` has done at the node it is given. -/
theorem applyLoginReplyInner_ok (c : Codec) (stash : TreeNode StashData) (loginKey : Bytes)
    (reply : ReplyData) (replyChildren : List (TreeNode ReplyData)) (out : TreeNode StashData)
    (h : applyLoginReplyInner c stash loginKey (.node reply replyChildren) = .ok out) :
    ∃ fields children, replyFields c stash.data loginKey reply = .ok fields ∧
      stash.children.length ≤ replyChildren.length ∧
      applyLoginReplyChildren c stash.children loginKey 0 replyChildren = .ok children ∧
      out = .node fields children := by
  rw [applyLoginReplyInner] at h
  cases hf : replyFields c stash.data loginKey reply with
  | error e => simp only [hf] at h; cases h
  | ok fields =>
    simp only [hf] at h
    by_cases hlen : stash.children.length > replyChildren.length
    · simp only [hlen, if_true] at h
      cases h
    · simp only [hlen, if_false] at h
      cases hc : applyLoginReplyChildren c stash.children loginKey 0 replyChildren with
      | error e => simp only [hc] at h; cases h
      | ok children =>
        simp only [hc] at h
        exact ⟨fields, children, rfl, by omega, rfl, (Except.ok.inj h).symm⟩

theorem pairedStash_nil (stash : TreeNode StashData) : pairedStash stash [] = stash := by
  simp [pairedStash, subtreeAt_nil]

theorem pairedStash_cons (stash : TreeNode StashData) (i : Nat) (rest : List Nat) :
    pairedStash stash (i :: rest) =
      pairedStash ((stash.children[i]?).getD (.node {} [])) rest := by
  unfold pairedStash
  rw [subtreeAt_cons]
  cases hi : stash.children[i]? with
  | some child => rfl
  | none =>
    simp only [Option.getD_none]
    cases rest with
    | nil => rfl
    | cons j rest' => simp [TreeNode.subtreeAt]

/-- When `applyLoginReplyInner` returns, each reply node has been applied,
under some key, to the stash node paired with it, and its result sits at the
path of the reply node. -/
theorem applyLoginReplyInner_at (c : Codec) :
    ∀ (q : List Nat) (stash : TreeNode StashData) (loginKey : Bytes)
      (reply r : TreeNode ReplyData) (out : TreeNode StashData),
      applyLoginReplyInner c stash loginKey reply = .ok out →
      reply.subtreeAt q = some r →
      ∃ key o, out.subtreeAt q = some o ∧
        applyLoginReplyInner c (pairedStash stash q) key r = .ok o := by
  intro q
  induction q with
  | nil =>
    intro stash loginKey reply r out h hq
    have hr : reply = r := by
      rw [subtreeAt_nil] at hq
      exact Option.some.inj hq
    subst hr
    exact ⟨loginKey, out, subtreeAt_nil out, by rw [pairedStash_nil]; exact h⟩
  | cons i rest ih =>
    intro stash loginKey reply r out h hq
    cases reply with
    | node replyData replyChildren =>
      obtain ⟨fields, children, -, -, hc, rfl⟩ :=
        applyLoginReplyInner_ok c stash loginKey replyData replyChildren out h
      rw [TreeNode.subtreeAt] at hq
      cases hi : replyChildren[i]? with
      | none => simp [hi] at hq
      | some child =>
        simp only [hi] at hq
        obtain ⟨-, hget⟩ :=
          applyLoginReplyChildren_ok c stash.children loginKey replyChildren 0 children hc
        obtain ⟨_, childKey, child', -, -, hi', hchild⟩ := hget i child hi
        rw [Nat.zero_add] at hchild
        obtain ⟨key, o, ho, hinner⟩ := ih _ childKey child r child' hchild hq
        refine ⟨key, o, ?_, ?_⟩
        · simp only [TreeNode.subtreeAt, hi']
          exact ho
        · rw [pairedStash_cons]
          exact hinner

/-- An error of `updateTree` is an error of its `update` callback. -/
theorem updateTree_error_origin {α β ε : Type} (predicate : TreeNode α → Bool)
    (update : TreeNode α → Except ε (TreeNode β))
    (clone : TreeNode α → List (TreeNode β) → TreeNode β) (e : ε) :
    ∀ t : TreeNode α, updateTree predicate update clone t = .error e →
      ∃ x, update x = .error e := by
  intro t
  induction t using TreeNode.induct with
  | h data children ih =>
    intro h
    rw [updateTree] at h
    by_cases hp : predicate (.node data children) = true
    · simp only [hp, if_true] at h
      exact ⟨_, h⟩
    · simp only [hp, if_false] at h
      have hlist : ∀ (l : List (TreeNode α)), (∀ x ∈ l, x ∈ children) →
          updateTreeList predicate update clone l = .error e → ∃ x, update x = .error e := by
        intro l
        induction l with
        | nil =>
          intro _ hl
          simp [updateTreeList] at hl
        | cons ch rest ihl =>
          intro hmem hl
          rw [updateTreeList] at hl
          cases hc : updateTree predicate update clone ch with
          | error e' =>
            simp only [hc] at hl
            rw [Except.error.inj hl] at hc
            exact ih ch (hmem ch (by simp)) hc
          | ok ch' =>
            simp only [hc] at hl
            cases hr : updateTreeList predicate update clone rest with
            | error e' =>
              simp only [hr] at hl
              rw [Except.error.inj hl] at hr
              exact ihl (fun x hx => hmem x (List.mem_cons_of_mem _ hx)) hr
            | ok rest' =>
              simp only [hr] at hl
              cases hl
      cases hl : updateTreeList predicate update clone children with
      | error e' =>
        simp only [hl] at h
        rw [Except.error.inj h] at hl
        exact hlist children (fun x hx => hx) hl
      | ok children' =>
        simp only [hl] at h
        cases h

theorem decryptBox_error_kind (c : Codec) (box : Box) (loginKey : Bytes) (e : LoginError)
    (h : decryptBox c box loginKey = .error e) : e.isDecryptError = true := by
  unfold decryptBox at h
  cases hd : c.decrypt box loginKey with
  | ok data => simp only [hd] at h; cases h
  | error message =>
    simp only [hd] at h
    rw [← Except.error.inj h]
    rfl

theorem decryptOptional_error_kind (c : Codec) (box : Option Box) (loginKey : Bytes)
    (e : LoginError) (h : decryptOptional c box loginKey = .error e) :
    e.isDecryptError = true := by
  cases box with
  | none => simp only [decryptOptional] at h; cases h
  | some b =>
    simp only [decryptOptional] at h
    cases hd : decryptBox c b loginKey with
    | ok data => simp only [hd] at h; cases h
    | error e' =>
      simp only [hd] at h
      rw [← Except.error.inj h]
      exact decryptBox_error_kind c b loginKey e' hd

theorem replyFields_error_kind (c : Codec) (stash : StashData) (loginKey : Bytes)
    (reply : ReplyData) (e : LoginError) (h : replyFields c stash loginKey reply = .error e) :
    e.isDecryptError = true := by
  unfold replyFields at h
  simp only [bind, Except.bind, pure, Except.pure] at h
  cases h1 : decryptOptional c reply.pin2KeyBox loginKey with
  | error e' =>
    simp only [h1] at h
    rw [← Except.error.inj h]
    exact decryptOptional_error_kind c _ loginKey e' h1
  | ok pin2Key =>
    simp only [h1] at h
    cases h2 : decryptOptional c reply.recovery2KeyBox loginKey with
    | error e' =>
      simp only [h2] at h
      rw [← Except.error.inj h]
      exact decryptOptional_error_kind c _ loginKey e' h2
    | ok recovery2Key =>
      simp only [h2] at h
      cases h

/-- An error of `applyLoginReplyInner` is the loss of children or the error of
a decryption. -/
theorem applyLoginReplyInner_error_kind (c : Codec) (e : LoginError) :
    ∀ (reply : TreeNode ReplyData) (stash : TreeNode StashData) (loginKey : Bytes),
      applyLoginReplyInner c stash loginKey reply = .error e →
      e = .childrenLost ∨ e.isDecryptError = true := by
  intro reply
  induction reply using TreeNode.induct with
  | h replyData replyChildren ih =>
    intro stash loginKey h
    rw [applyLoginReplyInner] at h
    cases hf : replyFields c stash.data loginKey replyData with
    | error e' =>
      simp only [hf] at h
      rw [← Except.error.inj h]
      exact Or.inr (replyFields_error_kind c _ loginKey _ e' hf)
    | ok fields =>
      simp only [hf] at h
      by_cases hlen : stash.children.length > replyChildren.length
      · simp only [hlen, if_true] at h
        exact Or.inl (Except.error.inj h).symm
      · simp only [hlen, if_false] at h
        have hlist : ∀ (l : List (TreeNode ReplyData)) (index : Nat),
            (∀ x ∈ l, x ∈ replyChildren) →
            applyLoginReplyChildren c stash.children loginKey index l = .error e →
            e = .childrenLost ∨ e.isDecryptError = true := by
          intro l
          induction l with
          | nil =>
            intro index _ hl
            simp [applyLoginReplyChildren] at hl
          | cons ch rest ihl =>
            intro index hmem hl
            rw [applyLoginReplyChildren] at hl
            cases hp : ch.data.fields.parentBox with
            | none =>
              simp only [hp] at hl
              rw [← Except.error.inj hl]
              exact Or.inr rfl
            | some parentBox =>
              simp only [hp] at hl
              cases hd : decryptBox c parentBox loginKey with
              | error e' =>
                simp only [hd] at hl
                rw [← Except.error.inj hl]
                exact Or.inr (decryptBox_error_kind c _ loginKey e' hd)
              | ok childKey =>
                simp only [hd] at hl
                cases hc : applyLoginReplyInner c
                    ((stash.children[index]?).getD (.node {} [])) childKey ch with
                | error e' =>
                  simp only [hc] at hl
                  rw [Except.error.inj hl] at hc
                  exact ih ch (hmem ch (by simp)) _ childKey hc
                | ok ch' =>
                  simp only [hc] at hl
                  cases hr : applyLoginReplyChildren c stash.children loginKey (index + 1)
                      rest with
                  | error e' =>
                    simp only [hr] at hl
                    rw [Except.error.inj hl] at hr
                    exact ihl (index + 1) (fun x hx => hmem x (List.mem_cons_of_mem _ hx)) hr
                  | ok rest' =>
                    simp only [hr] at hl
                    cases hl
        cases hc : applyLoginReplyChildren c stash.children loginKey 0 replyChildren with
        | error e' =>
          simp only [hc] at h
          rw [Except.error.inj h] at hc
          exact hlist replyChildren 0 (fun x hx => hx) hc
        | ok children =>
          simp only [hc] at h
          cases h

/-- When `applyLoginReplyInner` returns, no stash node has more children than
the reply node it is paired with. -/
theorem applyLoginReplyInner_children_le (c : Codec) (stash s : TreeNode StashData)
    (loginKey : Bytes) (reply r : TreeNode ReplyData) (out : TreeNode StashData)
    (q : List Nat) (h : applyLoginReplyInner c stash loginKey reply = .ok out)
    (hs : stash.subtreeAt q = some s) (hr : reply.subtreeAt q = some r) :
    s.children.length ≤ r.children.length := by
  obtain ⟨key, o, -, hinner⟩ := applyLoginReplyInner_at c q stash loginKey reply r out h hr
  have hp : pairedStash stash q = s := by simp [pairedStash, hs]
  rw [hp] at hinner
  cases r with
  | node replyData replyChildren =>
    obtain ⟨_, _, -, hle, -, -⟩ :=
      applyLoginReplyInner_ok c s key replyData replyChildren o hinner
    exact hle

/-- C18, the claim as worded fails on the error thrown. The stash has two
children and the reply one, and the `pin2KeyBox` of the reply cannot be
decrypted: `applyLoginReply` throws the error of `decrypt`, which
`applyLoginReplyInner` meets before it compares the children, and not
`The server has lost children!`. -/
theorem applyLoginReply_shrunk_reply_decrypt_error :
    twoAppStash.children.length = 2 ∧ sealedShrunkReply.children.length = 1 ∧
    twoAppStash.data.appId = sealedShrunkReply.data.fields.appId ∧
    applyLoginReply fakeCodec twoAppStash rootKey sealedShrunkReply =
      .error (.decryptFailed "empty box") ∧
    LoginError.decryptFailed "empty box" ≠ LoginError.childrenLost :=
  ⟨rfl, rfl, rfl, rfl, by decide⟩

/-- C18, amended: reply application never shrinks. When the top-most stash node
with the `appId` of the reply, or a stash node below it, has more children
than the reply node at the same place in the reply, `applyLoginReply` throws:
`The server has lost children!`, unless the decryption of a box of the reply
fails first, and then the error of that decryption. The stash passed in is a
value that `applyLoginReply` only reads. -/
theorem applyLoginReply_never_shrinks (c : Codec) (stashTree target s : TreeNode StashData)
    (loginKey : Bytes) (reply r : TreeNode ReplyData) (path q : List Nat)
    (htarget : stashTree.subtreeAt path = some target)
    (happ : target.data.appId = reply.data.fields.appId)
    (htop : ∀ q' n, q' <+: path → q' ≠ path → stashTree.subtreeAt q' = some n →
      n.data.appId ≠ reply.data.fields.appId)
    (hs : target.subtreeAt q = some s) (hr : reply.subtreeAt q = some r)
    (hmore : s.children.length > r.children.length) :
    ∃ e, applyLoginReply c stashTree loginKey reply = .error e ∧
      (e = .childrenLost ∨ e.isDecryptError = true) := by
  cases hm : applyLoginReply c stashTree loginKey reply with
  | error e =>
    refine ⟨e, rfl, ?_⟩
    obtain ⟨x, hx⟩ := updateTree_error_origin _ _ _ e stashTree hm
    exact applyLoginReplyInner_error_kind c e reply x loginKey hx
  | ok out =>
    exfalso
    obtain ⟨y, hy, -⟩ := updateTree_topmost
      (fun stash : TreeNode StashData => stash.data.appId == reply.data.fields.appId)
      (fun stash => applyLoginReplyInner c stash loginKey reply) cloneNode (fun _ _ => rfl)
      target (by simp [happ]) path stashTree out htarget
      (by
        intro q' n hq' hne hqn
        have := htop q' n hq' hne hqn
        simpa using this)
      hm
    have := applyLoginReplyInner_children_le c target s loginKey reply r y q hy hs hr
    omega

/-- The amended C18 on the sample stash: the reply has lost an application and
is rejected. -/
theorem applyLoginReply_never_shrinks_witness :
    twoAppStash.children.length = 2 ∧ shrunkReply.children.length = 1 ∧
    applyLoginReply fakeCodec twoAppStash rootKey shrunkReply = .error .childrenLost ∧
    ∃ e, applyLoginReply fakeCodec twoAppStash rootKey shrunkReply = .error e ∧
      (e = .childrenLost ∨ e.isDecryptError = true) :=
  ⟨rfl, rfl, rfl,
    applyLoginReply_never_shrinks fakeCodec twoAppStash twoAppStash twoAppStash rootKey
      shrunkReply shrunkReply [] [] rfl rfl
      (fun _ _ hq hne _ => absurd (List.prefix_nil.1 hq) hne) rfl rfl (by decide)⟩

theorem subtreeAt_append_none {α : Type} :
    ∀ (p r : List Nat) (t : TreeNode α), t.subtreeAt p = none → t.subtreeAt (p ++ r) = none := by
  intro p
  induction p with
  | nil =>
    intro r t h
    rw [subtreeAt_nil] at h
    cases h
  | cons i rest ih =>
    intro r t h
    rw [subtreeAt_cons] at h
    rw [List.cons_append, subtreeAt_cons]
    cases hi : t.children[i]? with
    | none => rfl
    | some child =>
      simp only [hi] at h ⊢
      exact ih r child h

theorem pairedStash_snoc (stash : TreeNode StashData) (q : List Nat) (i : Nat) :
    pairedStash stash (q ++ [i]) = ((pairedStash stash q).children[i]?).getD (.node {} []) := by
  unfold pairedStash
  cases hq : stash.subtreeAt q with
  | none =>
    rw [subtreeAt_append_none q [i] stash hq]
    rfl
  | some s =>
    rw [subtreeAt_append q [i] stash s hq, subtreeAt_cons]
    simp only [Option.getD_some]
    cases hi : s.children[i]? with
    | none => rfl
    | some child => simp [subtreeAt_nil]

/-- When `applyLoginReply` returns, below the top-most stash node with the
`appId` of the reply each reply node has been applied, under some key, to the
stash node paired with it, and its result sits at the path of the reply
node. -/
theorem applyLoginReply_at (c : Codec) (stashTree target : TreeNode StashData)
    (loginKey : Bytes) (reply r : TreeNode ReplyData) (path q : List Nat)
    (out : TreeNode StashData)
    (htarget : stashTree.subtreeAt path = some target)
    (happ : target.data.appId = reply.data.fields.appId)
    (htop : ∀ q' n, q' <+: path → q' ≠ path → stashTree.subtreeAt q' = some n →
      n.data.appId ≠ reply.data.fields.appId)
    (h : applyLoginReply c stashTree loginKey reply = .ok out)
    (hr : reply.subtreeAt q = some r) :
    ∃ key o, out.subtreeAt (path ++ q) = some o ∧
      applyLoginReplyInner c (pairedStash target q) key r = .ok o := by
  obtain ⟨y, hy, hsub⟩ := updateTree_topmost
    (fun stash : TreeNode StashData => stash.data.appId == reply.data.fields.appId)
    (fun stash => applyLoginReplyInner c stash loginKey reply) cloneNode (fun _ _ => rfl)
    target (by simp [happ]) path stashTree out htarget
    (by
      intro q' n hq' hne hqn
      have := htop q' n hq' hne hqn
      simpa using this)
    h
  obtain ⟨key, o, ho, hinner⟩ := applyLoginReplyInner_at c q target loginKey reply r y hy hr
  exact ⟨key, o, by rw [subtreeAt_append path q out y hsub]; exact ho, hinner⟩

/-- C19: `applyLoginReply` copies only allow-listed data from the server. Each
output node built from a reply node has the allow-listed fields of the reply
node, the key boxes of the reply node, the `pin2Key` and `recovery2Key`
decrypted from the boxes of the reply node, and the `username` and `userId`
of the stash node paired with it; it has no other field, and nothing else of
the reply reaches it. -/
theorem applyLoginReply_allow_list (c : Codec) (stashTree target : TreeNode StashData)
    (loginKey : Bytes) (reply r : TreeNode ReplyData) (path q : List Nat)
    (out : TreeNode StashData)
    (htarget : stashTree.subtreeAt path = some target)
    (happ : target.data.appId = reply.data.fields.appId)
    (htop : ∀ q' n, q' <+: path → q' ≠ path → stashTree.subtreeAt q' = some n →
      n.data.appId ≠ reply.data.fields.appId)
    (h : applyLoginReply c stashTree loginKey reply = .ok out)
    (hr : reply.subtreeAt q = some r) :
    ∃ o key pin2Key recovery2Key,
      out.subtreeAt (path ++ q) = some o ∧
      decryptOptional c r.data.pin2KeyBox key = .ok pin2Key ∧
      decryptOptional c r.data.recovery2KeyBox key = .ok recovery2Key ∧
      o.data.username = (pairedStash target q).data.username ∧
      o.data =
        { appId := r.data.fields.appId
          loginId := r.data.fields.loginId
          loginAuthBox := r.data.fields.loginAuthBox
          parentBox := r.data.fields.parentBox
          passwordAuthBox := r.data.fields.passwordAuthBox
          passwordBox := r.data.fields.passwordBox
          passwordKeySnrp := r.data.fields.passwordKeySnrp
          mnemonicBox := r.data.fields.mnemonicBox
          rootKeyBox := r.data.fields.rootKeyBox
          syncKeyBox := r.data.fields.syncKeyBox
          username := (pairedStash target q).data.username
          userId := (pairedStash target q).data.userId
          pin2Key := pin2Key.map c.base64Stringify
          recovery2Key := recovery2Key.map c.base64Stringify
          keyBoxes := some (r.data.fields.keyBoxes.getD [])
          menemonicBox := none } := by
  obtain ⟨key, o, ho, hinner⟩ :=
    applyLoginReply_at c stashTree target loginKey reply r path q out htarget happ htop h hr
  cases r with
  | node replyData replyChildren =>
    obtain ⟨fields, children, hf, -, -, rfl⟩ :=
      applyLoginReplyInner_ok c _ key replyData replyChildren o hinner
    obtain ⟨pin2Key, recovery2Key, h1, h2, hfields⟩ := replyFields_ok c _ key replyData fields hf
    refine ⟨_, key, pin2Key, recovery2Key, ho, h1, h2, ?_, ?_⟩
    · show fields.username = _
      rw [hfields]
    · show fields = _
      rw [hfields]
      rfl

/-- C19 on the sample stash: the root of the output keeps the `username` of
the stash, not the one that the reply carries. -/
theorem applyLoginReply_allow_list_witness :
    applyLoginReply fakeCodec twoAppStash rootKey swappedReply = .ok swappedStash ∧
    swappedReply.data.fields.username = some "mallory" ∧
    swappedStash.data.username = some "alice" ∧
    ∃ o key pin2Key recovery2Key,
      swappedStash.subtreeAt ([] ++ []) = some o ∧
      decryptOptional fakeCodec swappedReply.data.pin2KeyBox key = .ok pin2Key ∧
      decryptOptional fakeCodec swappedReply.data.recovery2KeyBox key = .ok recovery2Key ∧
      o.data.username = (pairedStash twoAppStash []).data.username :=
  ⟨rfl, rfl, rfl,
    (applyLoginReply_allow_list fakeCodec twoAppStash twoAppStash rootKey swappedReply
      swappedReply [] [] swappedStash rfl rfl
      (fun _ _ hq hne _ => absurd (List.prefix_nil.1 hq) hne) rfl rfl).imp
      (fun _ h1 => h1.imp (fun _ h2 => h2.imp (fun _ h3 => h3.imp
        (fun _ h4 => ⟨h4.1, h4.2.1, h4.2.2.1, h4.2.2.2.1⟩))))⟩

/-- C20, as amended: `applyLoginReply` pairs the children of a stash node and
of a reply node by their index. Each child of the output takes its `appId`
from the reply child and its preserved client-only data (`username`,
`userId`) from the stash child at the same index, or has none when the stash
has no child at that index, whatever the `appId` of that stash child. -/
theorem applyLoginReply_pairs_by_index (c : Codec) (stashTree target : TreeNode StashData)
    (loginKey : Bytes) (reply r child : TreeNode ReplyData) (path q : List Nat) (i : Nat)
    (out : TreeNode StashData)
    (htarget : stashTree.subtreeAt path = some target)
    (happ : target.data.appId = reply.data.fields.appId)
    (htop : ∀ q' n, q' <+: path → q' ≠ path → stashTree.subtreeAt q' = some n →
      n.data.appId ≠ reply.data.fields.appId)
    (h : applyLoginReply c stashTree loginKey reply = .ok out)
    (hr : reply.subtreeAt q = some r) (hi : r.children[i]? = some child) :
    ∃ o, out.subtreeAt (path ++ (q ++ [i])) = some o ∧
      o.data.appId = child.data.fields.appId ∧
      o.data.username =
        (((pairedStash target q).children[i]?).getD (.node {} [])).data.username ∧
      o.data.userId =
        (((pairedStash target q).children[i]?).getD (.node {} [])).data.userId := by
  have hchild : reply.subtreeAt (q ++ [i]) = some child := by
    rw [subtreeAt_append q [i] reply r hr, subtreeAt_cons, hi]
    exact subtreeAt_nil child
  obtain ⟨key, o, ho, hinner⟩ :=
    applyLoginReply_at c stashTree target loginKey reply child path (q ++ [i]) out htarget
      happ htop h hchild
  rw [pairedStash_snoc] at hinner
  cases child with
  | node replyData replyChildren =>
    obtain ⟨fields, children, hf, -, -, rfl⟩ :=
      applyLoginReplyInner_ok c _ key replyData replyChildren o hinner
    obtain ⟨_, _, -, -, hfields⟩ := replyFields_ok c _ key replyData fields hf
    refine ⟨_, ho, ?_, ?_, ?_⟩
    · show fields.appId = _
      rw [hfields]
      rfl
    · show fields.username = _
      rw [hfields]
    · show fields.userId = _
      rw [hfields]

/-- The amended C20 on the sample stash: the first child of the output has
the `appId` of the first child of the reply and the user id of the first
child of the stash. -/
theorem applyLoginReply_pairs_by_index_witness :
    applyLoginReply fakeCodec twoAppStash rootKey swappedReply = .ok swappedStash ∧
    ∃ o, swappedStash.subtreeAt ([] ++ ([] ++ [0])) = some o ∧
      o.data.appId = some "b" ∧
      o.data.username =
        (((pairedStash twoAppStash []).children[(0 : Nat)]?).getD (.node {} [])).data.username ∧
      o.data.userId =
        (((pairedStash twoAppStash []).children[(0 : Nat)]?).getD (.node {} [])).data.userId :=
  ⟨rfl,
    applyLoginReply_pairs_by_index fakeCodec twoAppStash twoAppStash rootKey swappedReply
      swappedReply swappedReplyFirst [] [] 0 swappedStash rfl rfl
      (fun _ _ hq hne _ => absurd (List.prefix_nil.1 hq) hne) rfl rfl rfl⟩

/-- Against C20 as stated: the reply lists the applications `b` and `a` in
the other order than the stash; the output child with the `appId` `b` has the
`username` and the `userId` of the stash child with the `appId` `a`, not
those of the stash child with the `appId` `b`. -/
theorem applyLoginReply_pairs_children_by_position :
    applyLoginReply fakeCodec twoAppStash rootKey swappedReply = .ok swappedStash ∧
    (twoAppStash.children.map (fun s => (s.data.appId, s.data.userId, s.data.username))) =
      [(some "a", some "ua", some "alice-a"), (some "b", some "ub", some "alice-b")] ∧
    (swappedReply.children.map (fun s => s.data.fields.appId)) = [some "b", some "a"] ∧
    (swappedStash.children.map (fun s => (s.data.appId, s.data.userId, s.data.username))) =
      [(some "b", some "ua", some "alice-a"), (some "a", some "ub", some "alice-b")] :=
  ⟨rfl, rfl, rfl, rfl⟩

/-! ## The round trip of a keys kit -/

/-- Merging in two steps holds the same records as merging at once: when the
merge of `X` returns `M` and the merge of `M ++ Y` returns `N`, the merge of
`X ++ Y` returns, with the records of `N`. -/
theorem mergeKeyInfos_regroup (parseLen : String → Option Nat) (X Y M N : List KeyInfo)
    (hX : mergeKeyInfos parseLen X = .ok M) (hN : mergeKeyInfos parseLen (M ++ Y) = .ok N) :
    ∃ N2, mergeKeyInfos parseLen (X ++ Y) = .ok N2 ∧
      (∀ o ∈ N, ∃ o' ∈ N2, SameRecord o o') ∧ (∀ o' ∈ N2, ∃ o ∈ N, SameRecord o' o) := by
  refine ⟨N, ?_, fun o ho => ⟨o, ho, rfl, rfl, fun _ => rfl⟩,
    fun o ho => ⟨o, ho, rfl, rfl, fun _ => rfl⟩⟩
  rw [mergeKeyInfos_append_merged parseLen X Y M hX]
  exact hN

theorem decodeKeyBoxes_append (c : Codec) (loginKey : Bytes) :
    ∀ (a b : List Box) (ia ib : List KeyInfo), decodeKeyBoxes c loginKey a = .ok ia →
      decodeKeyBoxes c loginKey b = .ok ib →
      decodeKeyBoxes c loginKey (a ++ b) = .ok (ia ++ ib) := by
  intro a
  induction a with
  | nil =>
    intro b ia ib ha hb
    simp only [decodeKeyBoxes] at ha
    rw [← Except.ok.inj ha]
    simpa using hb
  | cons box rest ih =>
    intro b ia ib ha hb
    rw [decodeKeyBoxes] at ha
    cases hd : decryptBox c box loginKey with
    | error e => simp only [hd] at ha; cases ha
    | ok data =>
      simp only [hd] at ha
      cases hj : c.jsonParse (c.utf8Stringify data) with
      | error e => simp only [hj] at ha; cases ha
      | ok info =>
        simp only [hj] at ha
        cases hr : decodeKeyBoxes c loginKey rest with
        | error e => simp only [hr] at ha; cases ha
        | ok infos =>
          simp only [hr] at ha
          rw [← Except.ok.inj ha]
          have hih := ih b infos ib hr hb
          rw [List.cons_append, decodeKeyBoxes]
          simp only [hd, hj, hih, List.cons_append]

/-- The boxes that `makeKeysKit` makes decode to the key infos they were made
of, when decryption undoes encryption and JSON parsing undoes JSON
serialisation on them. -/
theorem decodeKeyBoxes_encrypt (c : Codec) (loginKey : Bytes)
    (hdec : ∀ m k, c.decrypt (c.encrypt m k) k = .ok m) :
    ∀ (infos : List KeyInfo),
      (∀ info ∈ infos,
        c.jsonParse (c.utf8Stringify (c.utf8Parse (c.jsonStringify info))) = .ok info) →
      decodeKeyBoxes c loginKey
        (infos.map (fun info => c.encrypt (c.utf8Parse (c.jsonStringify info)) loginKey)) =
        .ok infos := by
  intro infos
  induction infos with
  | nil => intro _; rfl
  | cons info rest ih =>
    intro hjson
    simp only [List.map_cons, decodeKeyBoxes, decryptBox, hdec, hjson info (by simp),
      ih (fun x hx => hjson x (List.mem_cons_of_mem _ hx))]

theorem replaceAt_append {α : Type} (new : TreeNode α) :
    ∀ (p q : List Nat) (t x : TreeNode α), t.subtreeAt p = some x →
      t.replaceAt (p ++ q) new = t.replaceAt p (x.replaceAt q new) := by
  intro p
  induction p with
  | nil =>
    intro q t x h
    rw [subtreeAt_nil] at h
    rw [Option.some.inj h]
    cases x with
    | node data children => simp [TreeNode.replaceAt]
  | cons i rest ih =>
    intro q t x h
    cases t with
    | node data children =>
      rw [TreeNode.subtreeAt] at h
      cases hi : children[i]? with
      | none => simp [hi] at h
      | some child =>
        simp only [hi] at h
        rw [List.cons_append, TreeNode.replaceAt, TreeNode.replaceAt]
        simp only [hi, ih q child x h]

/-- Replacing a node by a node that agrees with it on a field leaves the field
of the root as it was. -/
theorem replaceAt_data {α γ : Type} (f : α → γ) (new : TreeNode α) :
    ∀ (q : List Nat) (t x : TreeNode α), t.subtreeAt q = some x → f new.data = f x.data →
      f (t.replaceAt q new).data = f t.data := by
  intro q t x h hf
  cases q with
  | nil =>
    rw [subtreeAt_nil] at h
    rw [Option.some.inj h]
    cases x with
    | node data children => simpa [TreeNode.replaceAt] using hf
  | cons i rest =>
    cases t with
    | node data children =>
      rw [TreeNode.subtreeAt] at h
      cases hi : children[i]? with
      | none => simp [hi] at h
      | some child => simp only [TreeNode.replaceAt, hi, TreeNode.data]

theorem updateTreeList_set {α β ε : Type} (predicate : TreeNode α → Bool)
    (update : TreeNode α → Except ε (TreeNode β))
    (clone : TreeNode α → List (TreeNode β) → TreeNode β) (c2 : TreeNode α) (c2' : TreeNode β)
    (h2 : updateTree predicate update clone c2 = .ok c2') :
    ∀ (children : List (TreeNode α)) (children' : List (TreeNode β)) (i : Nat),
      updateTreeList predicate update clone children = .ok children' →
      updateTreeList predicate update clone (children.set i c2) = .ok (children'.set i c2') := by
  intro children
  induction children with
  | nil =>
    intro children' i h
    simp only [updateTreeList] at h
    rw [← Except.ok.inj h]
    simp [updateTreeList]
  | cons a rest ih =>
    intro children' i h
    rw [updateTreeList] at h
    cases ha : updateTree predicate update clone a with
    | error e => simp [ha] at h
    | ok a' =>
      simp only [ha] at h
      cases hr : updateTreeList predicate update clone rest with
      | error e => simp [hr] at h
      | ok rest' =>
        simp only [hr] at h
        rw [← Except.ok.inj h]
        cases i with
        | zero => simp only [List.set_cons_zero, updateTreeList, h2, hr]
        | succ k => simp only [List.set_cons_succ, updateTreeList, ha, ih rest' k hr]

/-- Replacing the top-most node that satisfies the predicate by another node
that satisfies it changes the result of `updateTree` at that place only, when
the predicate and the `clone` callback read the fields of a node and not its
children. -/
theorem updateTree_replace {α β ε : Type} (predicate : TreeNode α → Bool)
    (update : TreeNode α → Except ε (TreeNode β))
    (clone : TreeNode α → List (TreeNode β) → TreeNode β) (g : α → β)
    (hclone : ∀ n children, clone n children = .node (g n.data) children)
    (hpred : ∀ n m : TreeNode α, n.data = m.data → predicate n = predicate m)
    (x2 : TreeNode α) (y2 : TreeNode β) (hx2 : predicate x2 = true)
    (hy2 : update x2 = .ok y2) :
    ∀ (path : List Nat) (t x : TreeNode α) (t' : TreeNode β), t.subtreeAt path = some x →
      (∀ q n, q <+: path → q ≠ path → t.subtreeAt q = some n → predicate n = false) →
      updateTree predicate update clone t = .ok t' →
      updateTree predicate update clone (t.replaceAt path x2) = .ok (t'.replaceAt path y2) := by
  intro path
  induction path with
  | nil =>
    intro t x t' _ _ _
    cases x2 with
    | node data children =>
      cases t with
      | node d ch =>
        cases t' with
        | node d' ch' =>
          simp only [TreeNode.replaceAt]
          rw [updateTree]
          simp only [hx2, if_true]
          exact hy2
  | cons i rest ih =>
    intro t x t' hsub habove hupd
    cases t with
    | node data children =>
      have hroot : predicate (.node data children) = false :=
        habove [] _ List.nil_prefix (by simp) rfl
      rw [TreeNode.subtreeAt] at hsub
      cases hi : children[i]? with
      | none => simp [hi] at hsub
      | some child =>
        simp only [hi] at hsub
        rw [updateTree] at hupd
        simp only [hroot, Bool.false_eq_true, if_false] at hupd
        cases hl : updateTreeList predicate update clone children with
        | error e => simp [hl] at hupd
        | ok children' =>
          simp only [hl] at hupd
          obtain ⟨-, hget⟩ := updateTreeList_ok predicate update clone children children' hl
          obtain ⟨child', hi', hu⟩ := hget i child hi
          have hrec := ih child x child' hsub (by
            intro q n hq hne hqn
            apply habove (i :: q) n (List.cons_prefix_cons.2 ⟨rfl, hq⟩)
            · intro h
              exact hne (List.cons.inj h).2
            · simp only [TreeNode.subtreeAt, hi]
              exact hqn) hu
          have hset := updateTreeList_set predicate update clone _ _ hrec children children' i hl
          have hroot2 : predicate (.node data (children.set i (child.replaceAt rest x2))) =
              false := by
            exact (hpred (.node data (children.set i (child.replaceAt rest x2)))
              (.node data children) rfl).trans hroot
          rw [← Except.ok.inj hupd, hclone]
          simp only [TreeNode.replaceAt, hi, hi', TreeNode.data]
          rw [updateTree]
          simp only [hroot2, Bool.false_eq_true, if_false, hset, hclone, TreeNode.data]

theorem makeLoginTreeChildren_set (c : Codec) (loginKey childKey : Bytes) (parentBox : Box)
    (c2 : TreeNode StashData) (c2' : TreeNode LoginData)
    (hbox : c2.data.parentBox = some parentBox)
    (hkey : decryptBox c parentBox loginKey = .ok childKey)
    (h2 : makeLoginTreeInner c c2 childKey = .ok c2') :
    ∀ (children : List (TreeNode StashData)) (children' : List (TreeNode LoginData)) (i : Nat),
      makeLoginTreeChildren c children loginKey = .ok children' →
      makeLoginTreeChildren c (children.set i c2) loginKey = .ok (children'.set i c2') := by
  intro children
  induction children with
  | nil =>
    intro children' i h
    simp only [makeLoginTreeChildren] at h
    rw [← Except.ok.inj h]
    simp [makeLoginTreeChildren]
  | cons a rest ih =>
    intro children' i h
    rw [makeLoginTreeChildren] at h
    cases hp : a.data.parentBox with
    | none => simp [hp] at h
    | some pb =>
      simp only [hp] at h
      cases hd : decryptBox c pb loginKey with
      | error e => simp [hd] at h
      | ok ck =>
        simp only [hd] at h
        cases ha : makeLoginTreeInner c a ck with
        | error e => simp [ha] at h
        | ok a' =>
          simp only [ha] at h
          cases hr : makeLoginTreeChildren c rest loginKey with
          | error e => simp [hr] at h
          | ok rest' =>
            simp only [hr] at h
            rw [← Except.ok.inj h]
            cases i with
            | zero => simp only [List.set_cons_zero, makeLoginTreeChildren, hbox, hkey, h2, hr]
            | succ k =>
              simp only [List.set_cons_succ, makeLoginTreeChildren, hp, hd, ha, ih rest' k hr]

/-- The node that `makeLoginTreeInner` returns when the fields and the
children are derived and the integrity check passes. -/
theorem makeLoginTreeInner_intro (c : Codec) (stash : StashData)
    (children : List (TreeNode StashData)) (loginKey : Bytes) (login : LoginData)
    (children' : List (TreeNode LoginData))
    (hf : loginFields c stash loginKey = .ok login)
    (hc : makeLoginTreeChildren c children loginKey = .ok children')
    (hauth : login.loginAuth ≠ none ∨ login.passwordAuth ≠ none) :
    makeLoginTreeInner c (.node stash children) loginKey = .ok (.node login children') := by
  rw [makeLoginTreeInner]
  simp only [hf, hc]
  cases ha : login.loginAuth with
  | none =>
    cases hb : login.passwordAuth with
    | none =>
      rcases hauth with h | h
      · exact absurd ha h
      · exact absurd hb h
    | some b => rfl
  | some a => rfl

/-- A node of the tree that `makeLoginTreeInner` returns is derived from the
stash node at the same path, under a key; replacing that stash node by one
with the same `parentBox` replaces the derived node and nothing else. -/
theorem makeLoginTreeInner_at (c : Codec) :
    ∀ (q : List Nat) (x : TreeNode StashData) (loginKey : Bytes) (y n : TreeNode LoginData),
      makeLoginTreeInner c x loginKey = .ok y → y.subtreeAt q = some n →
      ∃ s k, x.subtreeAt q = some s ∧ makeLoginTreeInner c s k = .ok n ∧
        ∀ s2 n2, s2.data.parentBox = s.data.parentBox → makeLoginTreeInner c s2 k = .ok n2 →
          makeLoginTreeInner c (x.replaceAt q s2) loginKey = .ok (y.replaceAt q n2) := by
  intro q
  induction q with
  | nil =>
    intro x loginKey y n h hn
    rw [subtreeAt_nil] at hn
    rw [← Option.some.inj hn]
    refine ⟨x, loginKey, subtreeAt_nil x, h, ?_⟩
    intro s2 n2 _ h2
    cases x with
    | node d ch =>
      cases y with
      | node d' ch' => simpa [TreeNode.replaceAt] using h2
  | cons i rest ih =>
    intro x loginKey y n h hn
    cases x with
    | node stash children =>
      obtain ⟨login, children', hf, hc, hauth, rfl⟩ :=
        makeLoginTreeInner_ok c stash children loginKey y h
      obtain ⟨hlen, hget⟩ := makeLoginTreeChildren_ok c loginKey children children' hc
      rw [TreeNode.subtreeAt] at hn
      cases hi' : children'[i]? with
      | none => simp [hi'] at hn
      | some child' =>
        simp only [hi'] at hn
        have hlt : i < children.length := by
          rw [← hlen]
          exact (List.getElem?_eq_some.1 hi').1
        obtain ⟨child, hi⟩ : ∃ child, children[i]? = some child :=
          ⟨children[i], List.getElem?_eq_getElem hlt⟩
        obtain ⟨parentBox, childKey, child2, hbox, hkey, hi2, hchild⟩ := hget i child hi
        rw [hi'] at hi2
        rw [← Option.some.inj hi2] at hchild
        obtain ⟨s, k, hs, hsk, hrepl⟩ := ih child childKey child' n hchild hn
        refine ⟨s, k, ?_, hsk, ?_⟩
        · simp only [TreeNode.subtreeAt, hi]
          exact hs
        · intro s2 n2 hpb h2
          have hbox2 : (child.replaceAt rest s2).data.parentBox = some parentBox := by
            rw [replaceAt_data (fun d : StashData => d.parentBox) s2 rest child s hs hpb]
            exact hbox
          have hset := makeLoginTreeChildren_set c loginKey childKey parentBox
            (child.replaceAt rest s2) (child'.replaceAt rest n2) hbox2 hkey (hrepl s2 n2 hpb h2)
            children children' i hc
          simp only [TreeNode.replaceAt, hi, hi']
          exact makeLoginTreeInner_intro c stash _ loginKey login _ hf hset hauth

/-- The node that `makeLoginTreeInner` derives holds the key it was derived
under and the login id of the stash node. -/
theorem makeLoginTreeInner_identity (c : Codec) (s : TreeNode StashData) (k : Bytes)
    (n : TreeNode LoginData) (h : makeLoginTreeInner c s k = .ok n) :
    n.data.loginKey = some k ∧ n.data.loginId = s.data.loginId := by
  cases s with
  | node stash children =>
    obtain ⟨login, children', hf, -, -, rfl⟩ := makeLoginTreeInner_ok c stash children k n h
    obtain ⟨appId, loginId, bitid, account, infos, merged, -, hid, -, -, -, -, -, -, -, -, hid',
      hkey, -⟩ := loginFields_ok c stash k login hf
    exact ⟨hkey, by simp only [TreeNode.data, hid, hid']⟩

/-- The fields that `makeLoginTreeInner` derives depend on the key boxes of
the stash node through the merge only: with other key boxes, the same fields
are derived around the merge of the legacy keys and the new key infos. -/
theorem loginFields_keyBoxes (c : Codec) (stash : StashData) (loginKey : Bytes)
    (login : LoginData) (h : loginFields c stash loginKey = .ok login) :
    ∃ legacy infos merged,
      decodeKeyBoxes c loginKey (stash.keyBoxes.getD []) = .ok infos ∧
      mergeKeyInfos c.parseLen (legacy ++ infos) = .ok merged ∧
      login.keyInfos = some merged ∧
      ∀ boxes infos2 merged2, decodeKeyBoxes c loginKey boxes = .ok infos2 →
        mergeKeyInfos c.parseLen (legacy ++ infos2) = .ok merged2 →
        loginFields c { stash with keyBoxes := some boxes } loginKey =
          .ok { login with keyInfos := some merged2 } := by
  unfold loginFields at h
  simp only [bind, Except.bind, pure, Except.pure, throw, throwThe, MonadExceptOf.throw] at h
  cases happ : stash.appId with
  | none => simp [happ] at h
  | some appId =>
    simp only [happ] at h
    cases h1 : decryptOptional c stash.loginAuthBox loginKey with
    | error e => simp only [h1] at h; cases h
    | ok loginAuth =>
      simp only [h1] at h
      cases hid : stash.loginId with
      | none => simp [hid] at h
      | some loginId =>
        simp only [hid] at h
        cases h2 : decryptOptional c stash.passwordAuthBox loginKey with
        | error e => simp only [h2] at h; cases h
        | ok passwordAuth =>
          simp only [h2] at h
          cases h3 : parseOptional c stash.pin2Key with
          | error e => simp only [h3] at h; cases h
          | ok pin2Key =>
            simp only [h3] at h
            cases h4 : parseOptional c stash.recovery2Key with
            | error e => simp only [h4] at h; cases h
            | ok recovery2Key =>
              simp only [h4] at h
              cases h5 : bitidKeys c stash loginKey with
              | error e => simp only [h5] at h; cases h
              | ok bitid =>
                simp only [h5] at h
                cases h6 : accountKeys c stash appId loginKey with
                | error e => simp only [h6] at h; cases h
                | ok account =>
                  simp only [h6] at h
                  cases h7 : decodeKeyBoxes c loginKey (stash.keyBoxes.getD []) with
                  | error e => simp only [h7] at h; cases h
                  | ok infos =>
                    simp only [h7] at h
                    cases h8 : mergeKeyInfos c.parseLen (bitid ++ account ++ infos) with
                    | error e => simp only [h8] at h; cases h
                    | ok merged =>
                      simp only [h8] at h
                      have hl := (Except.ok.inj h).symm
                      subst hl
                      refine ⟨bitid ++ account, infos, merged, rfl, h8, rfl, ?_⟩
                      intro boxes infos2 merged2 hdecode hmerge
                      have hb : bitidKeys c
                          { stash with appId := some appId, loginId := some loginId,
                                       keyBoxes := some boxes } loginKey = .ok bitid := h5
                      have ha : accountKeys c
                          { stash with appId := some appId, loginId := some loginId,
                                       keyBoxes := some boxes } appId loginKey = .ok account := h6
                      unfold loginFields
                      simp only [bind, Except.bind, pure, Except.pure, throw, throwThe,
                        MonadExceptOf.throw, happ, h1, hid, h2, h3, h4, hb, ha, Option.getD_some,
                        hdecode, hmerge]

/-- Every node of the tree that `makeLoginTree` returns stands at the path of
a stash node with the same login id. -/
theorem makeLoginTree_loginId (c : Codec) (loginKey : Bytes) (appId : String) :
    ∀ (q : List Nat) (stashTree : TreeNode StashData) (tree n : TreeNode LoginData),
      makeLoginTree c stashTree loginKey appId = .ok tree → tree.subtreeAt q = some n →
      ∃ s, stashTree.subtreeAt q = some s ∧ s.data.loginId = n.data.loginId := by
  intro q
  induction q with
  | nil =>
    intro stashTree tree n h hn
    rw [subtreeAt_nil] at hn
    rw [← Option.some.inj hn]
    refine ⟨stashTree, subtreeAt_nil _, ?_⟩
    cases stashTree with
    | node d ch =>
      unfold makeLoginTree at h
      rw [updateTree] at h
      cases hp : stashHasAppId appId (.node d ch) with
      | true =>
        simp only [hp, if_true] at h
        exact (makeLoginTreeInner_identity c _ loginKey tree h).2.symm
      | false =>
        simp only [hp, Bool.false_eq_true, if_false] at h
        cases hl : updateTreeList (stashHasAppId appId)
            (fun stash => makeLoginTreeInner c stash loginKey) cloneLogin ch with
        | error e => simp [hl] at h
        | ok ch' =>
          simp only [hl] at h
          rw [← Except.ok.inj h]
          rfl
  | cons i rest ih =>
    intro stashTree tree n h hn
    cases stashTree with
    | node d ch =>
      unfold makeLoginTree at h
      rw [updateTree] at h
      cases hp : stashHasAppId appId (.node d ch) with
      | true =>
        simp only [hp, if_true] at h
        obtain ⟨s, k, hs, hsk, -⟩ := makeLoginTreeInner_at c (i :: rest) _ loginKey tree n h hn
        exact ⟨s, hs, (makeLoginTreeInner_identity c s k n hsk).2.symm⟩
      | false =>
        simp only [hp, Bool.false_eq_true, if_false] at h
        cases hl : updateTreeList (stashHasAppId appId)
            (fun stash => makeLoginTreeInner c stash loginKey) cloneLogin ch with
        | error e => simp [hl] at h
        | ok ch' =>
          simp only [hl] at h
          rw [← Except.ok.inj h, subtreeAt_cons, cloneLogin_children] at hn
          obtain ⟨hlen, hget⟩ := updateTreeList_ok _ _ _ ch ch' hl
          cases hi' : ch'[i]? with
          | none => simp [hi'] at hn
          | some child' =>
            simp only [hi'] at hn
            have hlt : i < ch.length := by
              rw [← hlen]
              exact (List.getElem?_eq_some.1 hi').1
            obtain ⟨child2, hi2, hchild⟩ := hget i ch[i] (List.getElem?_eq_getElem hlt)
            rw [hi'] at hi2
            rw [← Option.some.inj hi2] at hchild
            obtain ⟨s, hs, hid⟩ := ih ch[i] child' n hchild hn
            refine ⟨s, ?_, hid⟩
            simp only [TreeNode.subtreeAt, List.getElem?_eq_getElem hlt]
            exact hs

/-- A node of the tree that `makeLoginTree` returns that holds a login key
lies in the subtree derived from a top-most stash node with the target
`appId`. -/
theorem makeLoginTree_locate (c : Codec) (loginKey : Bytes) (appId : String) :
    ∀ (path : List Nat) (stashTree : TreeNode StashData) (tree n : TreeNode LoginData),
      makeLoginTree c stashTree loginKey appId = .ok tree → tree.subtreeAt path = some n →
      n.data.loginKey ≠ none →
      ∃ p q target, path = p ++ q ∧ stashTree.subtreeAt p = some target ∧
        target.data.appId = some appId ∧
        ∀ q' n', q' <+: p → q' ≠ p → stashTree.subtreeAt q' = some n' →
          n'.data.appId ≠ some appId := by
  intro path
  induction path with
  | nil =>
    intro stashTree tree n h hn hkey
    rw [subtreeAt_nil] at hn
    cases stashTree with
    | node d ch =>
      cases hp : stashHasAppId appId (.node d ch) with
      | true =>
        refine ⟨[], [], .node d ch, rfl, rfl, (stashHasAppId_iff appId _).1 hp, ?_⟩
        intro q' n' hq' hne
        exact absurd (List.prefix_nil.1 hq') hne
      | false =>
        unfold makeLoginTree at h
        rw [updateTree] at h
        simp only [hp, Bool.false_eq_true, if_false] at h
        cases hl : updateTreeList (stashHasAppId appId)
            (fun stash => makeLoginTreeInner c stash loginKey) cloneLogin ch with
        | error e => simp [hl] at h
        | ok ch' =>
          simp only [hl] at h
          rw [← Option.some.inj hn, ← Except.ok.inj h] at hkey
          exact absurd rfl hkey
  | cons i rest ih =>
    intro stashTree tree n h hn hkey
    cases stashTree with
    | node d ch =>
      cases hp : stashHasAppId appId (.node d ch) with
      | true =>
        refine ⟨[], i :: rest, .node d ch, rfl, rfl, (stashHasAppId_iff appId _).1 hp, ?_⟩
        intro q' n' hq' hne
        exact absurd (List.prefix_nil.1 hq') hne
      | false =>
        unfold makeLoginTree at h
        rw [updateTree] at h
        simp only [hp, Bool.false_eq_true, if_false] at h
        cases hl : updateTreeList (stashHasAppId appId)
            (fun stash => makeLoginTreeInner c stash loginKey) cloneLogin ch with
        | error e => simp [hl] at h
        | ok ch' =>
          simp only [hl] at h
          rw [← Except.ok.inj h, subtreeAt_cons, cloneLogin_children] at hn
          obtain ⟨hlen, hget⟩ := updateTreeList_ok _ _ _ ch ch' hl
          cases hi' : ch'[i]? with
          | none => simp [hi'] at hn
          | some child' =>
            simp only [hi'] at hn
            have hlt : i < ch.length := by
              rw [← hlen]
              exact (List.getElem?_eq_some.1 hi').1
            have hi : ch[i]? = some ch[i] := List.getElem?_eq_getElem hlt
            obtain ⟨child2, hi2, hchild⟩ := hget i ch[i] hi
            rw [hi'] at hi2
            rw [← Option.some.inj hi2] at hchild
            obtain ⟨p, q, target, hpath, htarget, happ, htop⟩ := ih ch[i] child' n hchild hn hkey
            refine ⟨i :: p, q, target, by rw [hpath, List.cons_append], ?_, happ, ?_⟩
            · simp only [TreeNode.subtreeAt, hi]
              exact htarget
            · intro q' n' hq' hne hn'
              cases q' with
              | nil =>
                rw [subtreeAt_nil] at hn'
                rw [← Option.some.inj hn']
                intro happ'
                rw [(stashHasAppId_iff appId _).2 happ'] at hp
                cases hp
              | cons j r =>
                obtain ⟨rfl, hr⟩ := List.cons_prefix_cons.1 hq'
                simp only [TreeNode.subtreeAt, hi] at hn'
                exact htop r n' hr (fun h => hne (by rw [h])) hn'

/-- What a successful `applyKit` has done to the stash: the stash it loaded,
updated at the nodes with the login id of the kit, is what it saved, as its
last effect. -/
theorem applyKit_ok_saved {S D P : Type} (env : LoginEnv S D P) (w w' : World S D P)
    (loginTree newLoginTree : TreeNode LoginData) (kit : LoginKit P)
    (hok : applyKit env w loginTree kit = (.ok newLoginTree, w')) :
    ∃ stashTree newStashTree,
      env.load w.store loginTree.data.username = .ok stashTree ∧
      updateTree (stashHasLoginId kit.loginId) (applyKitStash kit) cloneNode stashTree =
        .ok newStashTree ∧
      env.save w.store newStashTree = .ok w'.store ∧
      w'.trace.getLast? = some (.save newStashTree) := by
  cases hsearch : searchTree (hasLoginId kit.loginId) loginTree with
  | none => simp [applyKit, hsearch] at hok
  | some login =>
    cases hload : env.load w.store loginTree.data.username with
    | error message => simp [applyKit, hsearch, hload] at hok
    | ok stashTree =>
      cases hauth : makeAuthJson env.stringify login.data with
      | error e => simp [applyKit, hsearch, hload, hauth] at hok
      | ok auth =>
        cases hreq : (env.authRequest w.server "POST" kit.serverPath
            { auth := auth, data := kit.server }).1 with
        | error message => simp [applyKit, hsearch, hload, hauth, hreq] at hok
        | ok reply =>
          rw [applyKit_after_request env w loginTree login kit stashTree auth hsearch hload
            hauth hreq] at hok
          cases hupd : updateTree (hasLoginId kit.loginId) (applyKitLogin env.parseLen kit)
              cloneNode loginTree with
          | error e => simp [hupd] at hok
          | ok t =>
            simp only [hupd] at hok
            cases hst : updateTree (stashHasLoginId kit.loginId) (applyKitStash kit) cloneNode
                stashTree with
            | error e => exact nomatch e
            | ok newStashTree =>
              simp only [hst] at hok
              cases hsave : env.save w.store newStashTree with
              | error message => simp [hsave] at hok
              | ok store =>
                simp only [hsave] at hok
                have hw := (Prod.mk.inj hok).2
                refine ⟨stashTree, newStashTree, rfl, hst, ?_, ?_⟩
                · rw [← hw]
                  exact hsave
                · rw [← hw]
                  simp

/-- What `makeKeysKit` returns: a kit for the login id given, with the key
infos given, whose stash part appends the boxes of the key infos to the key
boxes of the stash node it is applied to. -/
theorem makeKeysKit_ok (c : Codec) (loginKey : Bytes) (loginId : String)
    (keyInfos : List KeyInfo) (kit : LoginKit KeysPayload)
    (h : makeKeysKit c loginKey loginId keyInfos = .ok kit) :
    kit.loginId = loginId ∧ kit.login.fields.keyInfos = some keyInfos ∧
    ∀ s : TreeNode StashData, applyKitStash kit s =
      .ok (.node
        { s.data with
          keyBoxes := some (s.data.keyBoxes.getD [] ++
            keyInfos.map (fun info => c.encrypt (c.utf8Parse (c.jsonStringify info)) loginKey)) }
        s.children) := by
  unfold makeKeysKit at h
  cases hs : newSyncKeys c keyInfos with
  | error e => simp [hs] at h
  | ok syncKeys =>
    simp only [hs] at h
    rw [← Except.ok.inj h]
    refine ⟨rfl, rfl, ?_⟩
    intro s
    cases hk : s.data.keyBoxes with
    | none => simp [applyKitStash, StashData.assign, softCat, hk]
    | some old => simp [applyKitStash, StashData.assign, softCat, hk]

/-- C11, as amended: the round trip of a keys kit. Assume that `decrypt`
undoes `encrypt` under the same key and that parsing the JSON text of each new
key info, taken through the UTF-8 encoding, gives the key info back. Let
`tree` be `makeLoginTree` of a stash, let `kit` be `makeKeysKit` for a node of
the tree that holds a login key and whose login id is the login id of no other
node of the stash, and let `applyKit` load that stash and succeed. Then
`makeLoginTree` returns on the stash that `applyKit` saved, and at the path of
the node the key infos of the tree derived again and those of the tree that
`applyKit` returned hold the same records: every record of either list has a
record of the other with the same id, type and keys. -/
theorem applyKit_round_trip {S D : Type} (c : Codec) (env : LoginEnv S D KeysPayload)
    (w w' : World S D KeysPayload) (stashTree : TreeNode StashData) (loginKey : Bytes)
    (appId : String) (tree newTree node : TreeNode LoginData) (path : List Nat)
    (nodeKey : Bytes) (loginId : String) (keyInfos : List KeyInfo) (kit : LoginKit KeysPayload)
    (hparse : env.parseLen = c.parseLen)
    (hdec : ∀ m k, c.decrypt (c.encrypt m k) k = .ok m)
    (hjson : ∀ info ∈ keyInfos,
      c.jsonParse (c.utf8Stringify (c.utf8Parse (c.jsonStringify info))) = .ok info)
    (hderive : makeLoginTree c stashTree loginKey appId = .ok tree)
    (hnode : tree.subtreeAt path = some node)
    (hkey : node.data.loginKey = some nodeKey)
    (hid : node.data.loginId = some loginId)
    (hkit : makeKeysKit c nodeKey loginId keyInfos = .ok kit)
    (huniq : ∀ q s, stashTree.subtreeAt q = some s → s.data.loginId = some loginId → q = path)
    (hload : env.load w.store tree.data.username = .ok stashTree)
    (hok : applyKit env w tree kit = (.ok newTree, w')) :
    ∃ newStash tree2 n1 n2 merged1 merged2,
      env.save w.store newStash = .ok w'.store ∧
      w'.trace.getLast? = some (.save newStash) ∧
      makeLoginTree c newStash loginKey appId = .ok tree2 ∧
      newTree.subtreeAt path = some n1 ∧ tree2.subtreeAt path = some n2 ∧
      n1.data.keyInfos = some merged1 ∧ n2.data.keyInfos = some merged2 ∧
      (∀ o ∈ merged1, ∃ o' ∈ merged2, SameRecord o o') ∧
      (∀ o' ∈ merged2, ∃ o ∈ merged1, SameRecord o' o) := by
  obtain ⟨hkitId, hkitInfos, hkitStash⟩ := makeKeysKit_ok c nodeKey loginId keyInfos kit hkit
  -- the node lies under a top-most stash node with the target appId
  obtain ⟨p, q, target, hpath, htarget, happ, htop⟩ :=
    makeLoginTree_locate c loginKey appId path stashTree tree node hderive hnode
      (by rw [hkey]; simp)
  subst hpath
  obtain ⟨derived, hderived, hat⟩ :=
    makeLoginTree_target c stashTree target loginKey appId p tree htarget happ htop hderive
  have hq : derived.subtreeAt q = some node := by
    rw [← subtreeAt_append p q tree derived hat]
    exact hnode
  obtain ⟨s, k, hs, hsk, hrepl⟩ :=
    makeLoginTreeInner_at c q target loginKey derived node hderived hq
  obtain ⟨hk, hsid⟩ := makeLoginTreeInner_identity c s k node hsk
  have hkk : k = nodeKey := Option.some.inj (hk.symm.trans hkey)
  subst hkk
  have hstash : stashTree.subtreeAt (p ++ q) = some s := by
    rw [subtreeAt_append p q stashTree target htarget]
    exact hs
  -- what applyKit saved
  obtain ⟨stash0, newStash, hload0, hst, hsave, htrace⟩ :=
    applyKit_ok_saved env w w' tree newTree kit hok
  have hs0 : stash0 = stashTree := Except.ok.inj (hload0.symm.trans hload)
  subst hs0
  have hrs := updateTree_replaceAt (stashHasLoginId kit.loginId) (applyKitStash kit) s (p ++ q)
    stash0 hstash (by simp [stashHasLoginId, hkitId, ← hsid, hid])
    (fun q' n' hq' hp => huniq q' n' hq' (by simpa [stashHasLoginId, hkitId] using hp))
  rw [hst, hkitStash s] at hrs
  have hnew := Except.ok.inj hrs
  -- the fields derived from the updated stash node
  cases s with
  | node sd sch =>
    obtain ⟨login, children', hf, hc, hauth, hnodeEq⟩ :=
      makeLoginTreeInner_ok c sd sch k node hsk
    obtain ⟨legacy, old, merged, hold, hmerged, hkeys, hfields⟩ :=
      loginFields_keyBoxes c sd k login hf
    have hdecode := decodeKeyBoxes_append c k _ _ old keyInfos hold
      (decodeKeyBoxes_encrypt c k hdec keyInfos hjson)
    -- what applyKit returned
    obtain ⟨_, _, _, -, -, -, -, hupd⟩ := applyKit_ok_inv env w w' tree newTree kit hok
    obtain ⟨n1, hn1, hn1at⟩ := updateTree_topmost (hasLoginId kit.loginId)
      (applyKitLogin env.parseLen kit) cloneNode (fun _ _ => rfl) node
      (by simp [hasLoginId, hkitId, hid]) (p ++ q) tree newTree hnode
      (by
        intro q' n' _ hne hn'
        cases hp : hasLoginId kit.loginId n' with
        | false => rfl
        | true =>
          obtain ⟨s', hs', hid'⟩ := makeLoginTree_loginId c loginKey appId q' stash0 tree n'
            hderive hn'
          have hn'id : n'.data.loginId = some loginId := by
            simpa [hasLoginId, hkitId] using hp
          exact absurd (huniq q' s' hs' (hid'.trans hn'id)) hne) hupd
    have hnodeKeys : node.data.keyInfos = some merged := by
      rw [hnodeEq]
      exact hkeys
    unfold applyKitLogin at hn1
    rw [hnodeKeys, hkitInfos, softCat_pair, hparse, Option.getD_some] at hn1
    cases hm1 : mergeKeyInfos c.parseLen (merged ++ keyInfos) with
    | error e => simp [hm1] at hn1
    | ok merged1 =>
      simp only [hm1] at hn1
      obtain ⟨merged2, hm2, h12, h21⟩ :=
        mergeKeyInfos_regroup c.parseLen (legacy ++ old) keyInfos merged merged1 hmerged hm1
      rw [List.append_assoc] at hm2
      have hfields2 := hfields _ (old ++ keyInfos) merged2 hdecode hm2
      have hinner2 := makeLoginTreeInner_intro c _ sch k _ children' hfields2 hc hauth
      have hctx := fun hbox => hrepl _ _ hbox hinner2
      have hnew2 : newStash = stash0.replaceAt (p ++ q)
          (.node { sd with keyBoxes := some (sd.keyBoxes.getD [] ++ keyInfos.map
            (fun info => c.encrypt (c.utf8Parse (c.jsonStringify info)) k)) } sch) := hnew
      have hre := updateTree_replace (stashHasAppId appId)
        (fun stash => makeLoginTreeInner c stash loginKey) cloneLogin
        (fun d => { username := d.username, appId := d.appId, loginId := d.loginId })
        (fun _ _ => rfl)
        (fun n m hnm => by simp [stashHasAppId, hnm]) _ _
        (by
          rw [stashHasAppId_iff]
          refine Eq.trans (replaceAt_data (fun d : StashData => d.appId) _ q target _ hs ?_) happ
          rfl)
        (hctx rfl) p stash0 target tree htarget
        (by
          intro q' n' hq' hne hn'
          cases hp : stashHasAppId appId n' with
          | false => rfl
          | true => exact absurd ((stashHasAppId_iff appId n').1 hp) (htop q' n' hq' hne hn'))
        hderive
      rw [← replaceAt_append _ p q stash0 target htarget, ← hnew2] at hre
      refine ⟨newStash, _, n1, .node { login with keyInfos := some merged2 } children', merged1,
        merged2, hsave, htrace, hre, hn1at, ?_, ?_, rfl, h12, h21⟩
      · rw [subtreeAt_append p q _ _ (subtreeAt_replaceAt_self _ p tree derived hat)]
        exact subtreeAt_replaceAt_self _ q derived node hq
      · rw [← Except.ok.inj hn1]
        rfl

theorem appStash_subtreeAt (q : List Nat) (s : TreeNode StashData)
    (hq : appStash.subtreeAt q = some s) :
    (q = [] ∧ s = appStash) ∨ (q = [0] ∧ s = appStashNode) ∨ (q = [1] ∧ s = sideStashNode) := by
  rcases q with _ | ⟨i, q⟩
  · left
    exact ⟨rfl, by simpa [TreeNode.subtreeAt] using hq.symm⟩
  · right
    rcases i with _ | i
    · left
      rcases q with _ | ⟨j, q⟩
      · simp [appStash, TreeNode.subtreeAt] at hq
        exact ⟨rfl, hq.symm⟩
      · simp [appStash, appStashNode, TreeNode.subtreeAt] at hq
    · right
      rcases i with _ | i
      · rcases q with _ | ⟨j, q⟩
        · simp [appStash, TreeNode.subtreeAt] at hq
          exact ⟨rfl, hq.symm⟩
        · simp [appStash, sideStashNode, TreeNode.subtreeAt] at hq
      · simp [appStash, TreeNode.subtreeAt] at hq

/-- C11, as amended, on the sample stash: a kit with a second wallet is made for the
application login and applied; the stash saved is derived again, and the
application login of either tree holds the records of the legacy wallet and
of the second wallet. -/
theorem applyKit_round_trip_witness :
    makeLoginTree fakeCodec appStash appKey "app" = .ok appTree ∧
    appTree.subtreeAt [0] = some appLogin ∧
    makeKeysKit fakeCodec appKey "child" [walletOther] = .ok otherKit ∧
    (applyKit keysEnv keysWorld appTree otherKit).1 = .ok otherTree ∧
    ∃ newStash tree2 n1 n2 merged1 merged2,
      keysEnv.save keysWorld.store newStash =
        .ok (applyKit keysEnv keysWorld appTree otherKit).2.store ∧
      (applyKit keysEnv keysWorld appTree otherKit).2.trace.getLast? = some (.save newStash) ∧
      makeLoginTree fakeCodec newStash appKey "app" = .ok tree2 ∧
      otherTree.subtreeAt [0] = some n1 ∧ tree2.subtreeAt [0] = some n2 ∧
      n1.data.keyInfos = some merged1 ∧ n2.data.keyInfos = some merged2 ∧
      (∀ o ∈ merged1, ∃ o' ∈ merged2, SameRecord o o') ∧
      (∀ o' ∈ merged2, ∃ o ∈ merged1, SameRecord o' o) :=
  ⟨rfl, rfl, rfl, rfl,
    applyKit_round_trip fakeCodec keysEnv keysWorld
      (applyKit keysEnv keysWorld appTree otherKit).2 appStash appKey "app" appTree otherTree
      appLogin [0] appKey "child" [walletOther] otherKit rfl
      (fun m k => by simp [fakeCodec])
      (fun info hinfo => by
        rw [List.mem_singleton.1 hinfo]
        rfl)
      rfl rfl rfl rfl rfl
      (fun q s hq hs => by
        rcases appStash_subtreeAt q s hq with ⟨-, rfl⟩ | ⟨hq0, -⟩ | ⟨-, rfl⟩
        · exact absurd hs (by decide)
        · exact hq0
        · exact absurd hs (by decide))
      rfl rfl⟩

/-- Against C11 as stated: in `sharedIdStash` the application login has the
login id of the root login. The kit that `makeKeysKit` makes for the
application login is applied with success, but `applyKit` appends its box,
made under the key of the application login, to the key boxes of the root
login, the first node with that login id; deriving the saved stash again
throws at the root, which cannot open the box. -/
theorem applyKit_shared_login_id_not_rederivable :
    makeLoginTree fakeCodec sharedIdStash rootKey "" = .ok sharedIdTree ∧
    (∃ node, sharedIdTree.subtreeAt [0] = some node ∧ node.data.loginKey = some appKey ∧
      node.data.loginId = some "shared") ∧
    makeKeysKit fakeCodec appKey "shared" [walletOther] = .ok sharedIdKit ∧
    (∃ newTree, (applyKit keysEnv { keysWorld with store := some sharedIdStash } sharedIdTree
      sharedIdKit).1 = .ok newTree) ∧
    (applyKit keysEnv { keysWorld with store := some sharedIdStash } sharedIdTree
      sharedIdKit).2.trace.getLast? = some (.save sharedIdSaved) ∧
    makeLoginTree fakeCodec sharedIdSaved rootKey "" = .error (.decryptFailed "wrong key") :=
  ⟨rfl, ⟨_, rfl, rfl, rfl⟩, rfl, ⟨_, rfl⟩, rfl, rfl⟩

/-! ## The authorization JSON -/

/-- C22: for every login node, `makeAuthJson` returns exactly the login id
with the `loginAuth` in base64 when `loginAuth` is present, whether or not
`passwordAuth` is present too; it returns exactly the user id with the
`passwordAuth` in base64 when only `passwordAuth` is present; and it throws
when neither is present. -/
theorem makeAuthJson_cases (stringify : Bytes → String) (login : LoginData) :
    (∀ loginAuth, login.loginAuth = some loginAuth →
      makeAuthJson stringify login = .ok (.byLoginAuth login.loginId (stringify loginAuth))) ∧
    (∀ passwordAuth, login.loginAuth = none → login.passwordAuth = some passwordAuth →
      makeAuthJson stringify login =
        .ok (.byPasswordAuth login.userId (stringify passwordAuth))) ∧
    (login.loginAuth = none → login.passwordAuth = none →
      makeAuthJson stringify login = .error .noAuthMethods) := by
  refine ⟨?_, ?_, ?_⟩
  · intro loginAuth h
    simp only [makeAuthJson, h]
  · intro passwordAuth h hp
    simp only [makeAuthJson, h, hp]
  · intro h hp
    simp only [makeAuthJson, h, hp]

/-- C22 on the sample tree: the root login, which has a `passwordAuth` only,
is authorised by its user id; the child login, by its login id; a login with
both is authorised by its login id; a login with neither is rejected. -/
theorem makeAuthJson_cases_witness :
    makeAuthJson (fakeEnv true).stringify rootLogin.data =
      .ok (.byPasswordAuth (some "root") "B") ∧
    makeAuthJson (fakeEnv true).stringify childLogin.data =
      .ok (.byLoginAuth (some "child") "A") ∧
    makeAuthJson (fakeEnv true).stringify { childLogin.data with passwordAuth := some [66] } =
      .ok (.byLoginAuth (some "child") "A") ∧
    makeAuthJson (fakeEnv true).stringify {} = .error .noAuthMethods :=
  ⟨(makeAuthJson_cases (fakeEnv true).stringify rootLogin.data).2.1 [66] rfl rfl,
    (makeAuthJson_cases (fakeEnv true).stringify childLogin.data).1 [65] rfl,
    (makeAuthJson_cases (fakeEnv true).stringify
      { childLogin.data with passwordAuth := some [66] }).1 [65] rfl,
    (makeAuthJson_cases (fakeEnv true).stringify {}).2.2 rfl rfl⟩

/-! ## A stash without the target application -/

theorem cloneAllList_getElem? {α β : Type}
    (clone : TreeNode α → List (TreeNode β) → TreeNode β) :
    ∀ (children : List (TreeNode α)) (i : Nat),
      (cloneAllList clone children)[i]? = (children[i]?).map (TreeNode.cloneAll clone) := by
  intro children
  induction children with
  | nil => intro i; simp [cloneAllList]
  | cons c rest ih =>
    intro i
    cases i with
    | zero => simp [cloneAllList]
    | succ k => simpa [cloneAllList] using ih k

theorem cloneAllList_length {α β : Type}
    (clone : TreeNode α → List (TreeNode β) → TreeNode β) (children : List (TreeNode α)) :
    (cloneAllList clone children).length = children.length := by
  induction children with
  | nil => rfl
  | cons c rest ih => simp [cloneAllList, ih]

/-- The node of the cloned tree at a path is the cloned tree of the node at
that path. -/
theorem cloneAll_subtreeAt {α β : Type} (clone : TreeNode α → List (TreeNode β) → TreeNode β)
    (hclone : ∀ n children, (clone n children).children = children) :
    ∀ (q : List Nat) (t : TreeNode α),
      (t.cloneAll clone).subtreeAt q = (t.subtreeAt q).map (TreeNode.cloneAll clone) := by
  intro q
  induction q with
  | nil => intro t; simp [subtreeAt_nil]
  | cons i rest ih =>
    intro t
    cases t with
    | node data children =>
      rw [subtreeAt_cons, subtreeAt_cons, TreeNode.cloneAll, hclone, cloneAllList_getElem?]
      cases hi : children[i]? with
      | none => simp [TreeNode.children, hi]
      | some child => simp [TreeNode.children, hi, ih child]

theorem updateTreeList_cloneAll {α β ε : Type} (predicate : TreeNode α → Bool)
    (update : TreeNode α → Except ε (TreeNode β))
    (clone : TreeNode α → List (TreeNode β) → TreeNode β) (children : List (TreeNode α))
    (h : ∀ c ∈ children, updateTree predicate update clone c = .ok (c.cloneAll clone)) :
    updateTreeList predicate update clone children = .ok (cloneAllList clone children) := by
  induction children with
  | nil => rfl
  | cons c rest ih =>
    rw [updateTreeList, h c (by simp)]
    simp only [ih (fun x hx => h x (List.mem_cons_of_mem _ hx)), cloneAllList]

/-- On a tree in which the search finds nothing, `updateTree` returns, with
every node cloned. -/
theorem updateTree_cloneAll {α β ε : Type} (predicate : TreeNode α → Bool)
    (update : TreeNode α → Except ε (TreeNode β))
    (clone : TreeNode α → List (TreeNode β) → TreeNode β) :
    ∀ t : TreeNode α, searchTree predicate t = none →
      updateTree predicate update clone t = .ok (t.cloneAll clone) := by
  intro t
  induction t using TreeNode.induct with
  | h data children ih =>
    intro hnone
    rw [searchTree] at hnone
    by_cases hp : predicate (.node data children) = true
    · simp [hp] at hnone
    · simp only [hp, if_false] at hnone
      rw [updateTree]
      simp only [hp, if_false]
      have hchildren := searchTreeList_none_mem predicate children hnone
      rw [updateTreeList_cloneAll predicate update clone children
        (fun c hc => ih c hc (hchildren c hc))]
      rfl

/-- C30: for every stash in which no node has the target `appId`,
`makeLoginTree` does not fail. It returns a tree of the shape of the stash:
there is a node at a path exactly where the stash has one, with as many
children, and it carries the `username`, `appId` and `loginId` of the stash
node and nothing else, so it has no `loginKey`, `loginAuth`, `passwordAuth`
or `keyInfos`, and `makeAuthJson` throws on it. -/
theorem makeLoginTree_no_target (c : Codec) (stringify : Bytes → String)
    (stashTree : TreeNode StashData) (loginKey : Bytes) (appId : String)
    (hnone : ∀ q n, stashTree.subtreeAt q = some n → n.data.appId ≠ some appId) :
    ∃ tree, makeLoginTree c stashTree loginKey appId = .ok tree ∧
      (∀ q, stashTree.subtreeAt q = none → tree.subtreeAt q = none) ∧
      ∀ q s, stashTree.subtreeAt q = some s →
        ∃ n, tree.subtreeAt q = some n ∧
          n.data = { username := s.data.username, appId := s.data.appId,
                     loginId := s.data.loginId } ∧
          n.children.length = s.children.length ∧
          n.data.loginKey = none ∧ n.data.loginAuth = none ∧ n.data.passwordAuth = none ∧
          n.data.keyInfos = none ∧ makeAuthJson stringify n.data = .error .noAuthMethods := by
  have hsearch : searchTree (stashHasAppId appId) stashTree = none := by
    apply searchTree_eq_none
    intro q n hq
    cases hp : stashHasAppId appId n with
    | false => rfl
    | true => exact absurd ((stashHasAppId_iff appId n).1 hp) (hnone q n hq)
  refine ⟨stashTree.cloneAll cloneLogin,
    updateTree_cloneAll (stashHasAppId appId) _ cloneLogin stashTree hsearch, ?_, ?_⟩
  · intro q hq
    rw [cloneAll_subtreeAt cloneLogin cloneLogin_children, hq]
    rfl
  · intro q s hq
    rw [cloneAll_subtreeAt cloneLogin cloneLogin_children, hq]
    cases s with
    | node data children =>
      exact ⟨_, rfl, rfl, cloneAllList_length cloneLogin children, rfl, rfl, rfl, rfl, rfl⟩

/-- C30 on the sample stash: no node of `appStash` has the `appId` `none`;
the tree derived for it has the three nodes of the stash, stripped. -/
theorem makeLoginTree_no_target_witness :
    makeLoginTree fakeCodec appStash appKey "none" =
      .ok (.node { username := some "alice", appId := some "", loginId := some "root" }
        [.node { appId := some "app", loginId := some "child" } [],
         .node { appId := some "side", loginId := some "sibling" } []]) ∧
    ∃ tree, makeLoginTree fakeCodec appStash appKey "none" = .ok tree ∧
      (∀ q, appStash.subtreeAt q = none → tree.subtreeAt q = none) ∧
      ∀ q s, appStash.subtreeAt q = some s →
        ∃ n, tree.subtreeAt q = some n ∧
          n.data = { username := s.data.username, appId := s.data.appId,
                     loginId := s.data.loginId } ∧
          n.children.length = s.children.length ∧
          n.data.loginKey = none ∧ n.data.loginAuth = none ∧ n.data.passwordAuth = none ∧
          n.data.keyInfos = none ∧
          makeAuthJson fakeCodec.base64Stringify n.data = .error .noAuthMethods :=
  ⟨rfl, makeLoginTree_no_target fakeCodec fakeCodec.base64Stringify appStash appKey "none"
    (fun q n hq => by
      rcases appStash_subtreeAt q n hq with ⟨-, rfl⟩ | ⟨-, rfl⟩ | ⟨-, rfl⟩ <;> decide)⟩

/-! ## Sanitising a stash -/

theorem sanitizeLoginStash_eq (stashTree : TreeNode StashData) (appId : String) :
    updateTree (stashHasAppId appId)
      (fun stash => (Except.ok stash : Except Empty (TreeNode StashData))) cloneStash
      stashTree = .ok (sanitizeLoginStash stashTree appId) := by
  unfold sanitizeLoginStash
  cases h : updateTree (stashHasAppId appId)
      (fun stash => (Except.ok stash : Except Empty (TreeNode StashData))) cloneStash
      stashTree with
  | ok sanitized => rfl
  | error e => exact nomatch e

/-- C25: for every stash and `appId`, a node of the stash that is not in the
subtree of a node with that `appId` (neither it nor a node above it has the
`appId`) stands in the result of `sanitizeLoginStash` at its place with its
`username`, `appId` and `loginId` and no other field: no box, key or salt of
it is handed over. A top-most node with the `appId` is returned as it is,
with its descendants. -/
theorem sanitizeLoginStash_strips (stashTree : TreeNode StashData) (appId : String) :
    (∀ q s, stashTree.subtreeAt q = some s →
      (∀ q' n', q' <+: q → stashTree.subtreeAt q' = some n' → n'.data.appId ≠ some appId) →
      ∃ children, (sanitizeLoginStash stashTree appId).subtreeAt q =
        some (.node { username := s.data.username, appId := s.data.appId,
                      loginId := s.data.loginId } children)) ∧
    (∀ p target, stashTree.subtreeAt p = some target → target.data.appId = some appId →
      (∀ q' n', q' <+: p → q' ≠ p → stashTree.subtreeAt q' = some n' →
        n'.data.appId ≠ some appId) →
      (sanitizeLoginStash stashTree appId).subtreeAt p = some target ∧
      ∀ r, (sanitizeLoginStash stashTree appId).subtreeAt (p ++ r) = target.subtreeAt r) := by
  have hupd := sanitizeLoginStash_eq stashTree appId
  constructor
  · intro q s hq habove
    exact updateTree_above (stashHasAppId appId) _ cloneStash (fun _ _ => rfl) q stashTree s
      (sanitizeLoginStash stashTree appId) hq
      (fun q' n' hq' hn' => by
        cases hp : stashHasAppId appId n' with
        | false => rfl
        | true => exact absurd ((stashHasAppId_iff appId n').1 hp) (habove q' n' hq' hn'))
      hupd
  · intro p target hp happ htop
    obtain ⟨y, hy, hat⟩ := updateTree_topmost (stashHasAppId appId)
      (fun stash => (Except.ok stash : Except Empty (TreeNode StashData))) cloneStash
      (fun _ _ => rfl) target ((stashHasAppId_iff appId target).2 happ) p stashTree
      (sanitizeLoginStash stashTree appId) hp
      (fun q' n' hq' hne hn' => by
        cases hpred : stashHasAppId appId n' with
        | false => rfl
        | true => exact absurd ((stashHasAppId_iff appId n').1 hpred) (htop q' n' hq' hne hn'))
      hupd
    have hyt : target = y := Except.ok.inj hy
    subst hyt
    exact ⟨hat, fun r => subtreeAt_append p r _ _ hat⟩

/-- C25 on the sample stash, sanitised for the application `app`: the root
and the sibling keep their `username`, `appId` and `loginId` only; the
application node is returned with its boxes. -/
theorem sanitizeLoginStash_strips_witness :
    sanitizeLoginStash appStash "app" =
      .node { username := some "alice", appId := some "", loginId := some "root" }
        [appStashNode, .node { appId := some "side", loginId := some "sibling" } []] ∧
    (∃ children, (sanitizeLoginStash appStash "app").subtreeAt [1] =
      some (.node { username := sideStashNode.data.username, appId := sideStashNode.data.appId,
                    loginId := sideStashNode.data.loginId } children)) ∧
    (sanitizeLoginStash appStash "app").subtreeAt [0] = some appStashNode :=
  ⟨rfl,
    (sanitizeLoginStash_strips appStash "app").1 [1] sideStashNode rfl
      (fun q' n' hq' hn' => by
        rcases appStash_subtreeAt q' n' hn' with ⟨-, rfl⟩ | ⟨rfl, -⟩ | ⟨-, rfl⟩
        · decide
        · exact absurd hq' (by decide)
        · decide),
    ((sanitizeLoginStash_strips appStash "app").2 [0] appStashNode rfl rfl
      (fun q' n' hq' hne hn' => by
        have hnil := prefix_singleton_ne hq' hne
        subst hnil
        rw [subtreeAt_nil] at hn'
        rw [← Option.some.inj hn']
        decide)).1⟩

/-! ## Password rules -/

theorem testRange_eq_false_iff (lo hi : Char) (text : String) :
    testRange lo hi text = false ↔ ∀ c ∈ text.toList, ¬ (lo ≤ c ∧ c ≤ hi) := by
  simp [testRange, List.any_eq_false]

/-- C26: for every password, `checkPasswordRules` reports `tooShort` exactly
when the length is below 10, `noNumber`, `noLowerCase` and `noUpperCase`
exactly when no character is in `0-9`, `a-z` and `A-Z`, and `passed` exactly
when the length is at least 16 or none of the four flags is set. -/
theorem checkPasswordRules_flags (password : String) :
    ((checkPasswordRules password).tooShort = true ↔ jsLength password < 10) ∧
    ((checkPasswordRules password).noNumber = true ↔
      ∀ c ∈ password.toList, ¬ ('0' ≤ c ∧ c ≤ '9')) ∧
    ((checkPasswordRules password).noLowerCase = true ↔
      ∀ c ∈ password.toList, ¬ ('a' ≤ c ∧ c ≤ 'z')) ∧
    ((checkPasswordRules password).noUpperCase = true ↔
      ∀ c ∈ password.toList, ¬ ('A' ≤ c ∧ c ≤ 'Z')) ∧
    ((checkPasswordRules password).passed = true ↔
      16 ≤ jsLength password ∨
        ((checkPasswordRules password).tooShort = false ∧
          (checkPasswordRules password).noNumber = false ∧
          (checkPasswordRules password).noLowerCase = false ∧
          (checkPasswordRules password).noUpperCase = false)) := by
  refine ⟨?_, ?_, ?_, ?_, ?_⟩
  · simp [checkPasswordRules]
  · rw [← testRange_eq_false_iff]
    simp [checkPasswordRules]
  · rw [← testRange_eq_false_iff]
    simp [checkPasswordRules]
  · rw [← testRange_eq_false_iff]
    simp [checkPasswordRules]
  · simp only [checkPasswordRules, Bool.or_eq_true, decide_eq_true_eq, Bool.not_eq_true',
      Bool.or_eq_false_iff, Bool.not_eq_false', decide_eq_false_iff_not, ge_iff_le]
    tauto

/-- C26 on two passwords: `CorrectHorse93!` has 15 characters and sets no
flag, so it passes; sixteen lower-case letters set `noNumber` and
`noUpperCase` and pass by their length. -/
theorem checkPasswordRules_flags_witness :
    checkPasswordRules "CorrectHorse93!" =
      { tooShort := false, noNumber := false, noLowerCase := false, noUpperCase := false,
        passed := true } ∧
    checkPasswordRules "abcdefghijklmnop" =
      { tooShort := false, noNumber := true, noLowerCase := false, noUpperCase := true,
        passed := true } ∧
    checkPasswordRules "Short1" =
      { tooShort := true, noNumber := false, noLowerCase := false, noUpperCase := false,
        passed := false } ∧
    ((checkPasswordRules "abcdefghijklmnop").passed = true ↔
      16 ≤ jsLength "abcdefghijklmnop" ∨
        ((checkPasswordRules "abcdefghijklmnop").tooShort = false ∧
          (checkPasswordRules "abcdefghijklmnop").noNumber = false ∧
          (checkPasswordRules "abcdefghijklmnop").noLowerCase = false ∧
          (checkPasswordRules "abcdefghijklmnop").noUpperCase = false)) :=
  ⟨by decide, by decide, by decide, (checkPasswordRules_flags "abcdefghijklmnop").2.2.2.2⟩

/-! ## The largest spendable amount -/

/-- The bisection keeps its invariant: when the engine accepts exactly the
amounts up to `T` and `min ≤ T < max`, `getMax min max` returns `T`. -/
theorem getMax_threshold (engine : Engine) (currencyCode : Option String) (first : SpendTarget)
    (rest : List SpendTarget) (T : Int)
    (hspend : ∀ a, engine.makeSpend currencyCode
      ({ first with nativeAmount := some a } :: rest) = true ↔ a ≤ T) :
    ∀ (n : Nat) (amount : Option Int) (min max : Int), (max - min).toNat = n → min ≤ T →
      T < max →
      getMax engine currencyCode ({ first with nativeAmount := amount } :: rest) min max =
        .ok T := by
  intro n
  induction n using Nat.strong_induction_on with
  | _ n ih =>
    intro amount min max hn hmin hmax
    rw [getMax]
    by_cases hle : max - min ≤ 1
    · have hT : min = T := by omega
      rw [if_pos hle, hT]
    · simp only [hle, if_false]
      by_cases hmid : min + (max - min) / 2 ≤ T
      · have hgood := (hspend (min + (max - min) / 2)).2 hmid
        have hrec := ih (max - (min + (max - min) / 2)).toNat (by omega)
          (some (min + (max - min) / 2)) (min + (max - min) / 2) max rfl hmid hmax
        simp only [hgood, if_true]
        exact hrec
      · have hbad : engine.makeSpend currencyCode
            ({ first with nativeAmount := some (min + (max - min) / 2) } :: rest) = false := by
          cases h : engine.makeSpend currencyCode
            ({ first with nativeAmount := some (min + (max - min) / 2) } :: rest) with
          | false => rfl
          | true => exact absurd ((hspend _).1 h) hmid
        have hrec := ih ((min + (max - min) / 2) - min).toNat (by omega)
          (some (min + (max - min) / 2)) min (min + (max - min) / 2) rfl hmin (by omega)
        simp only [hbad, Bool.false_eq_true, if_false]
        exact hrec

/-- C27: `getMaxSpendable` returns the largest spendable amount. For a spend
info with at least one target and no target of another currency, a balance
`B` and an engine whose `makeSpend` succeeds exactly for the amounts up to a
threshold `T` with `0 ≤ T ≤ B`, the bisection returns `T`: `makeSpend` of the
result succeeds and `makeSpend` of any larger amount is rejected. -/
theorem getMaxSpendable_largest (engine : Engine) (spendInfo : SpendInfo) (B T : Int)
    (first : SpendTarget) (rest : List SpendTarget)
    (hbalance : engine.getBalance spendInfo.currencyCode = .ok B)
    (htargets : zeroTargets spendInfo.currencyCode spendInfo.spendTargets = .ok (first :: rest))
    (hT : 0 ≤ T) (hTB : T ≤ B)
    (hspend : ∀ a, engine.makeSpend spendInfo.currencyCode
      ({ first with nativeAmount := some a } :: rest) = true ↔ a ≤ T) :
    getMaxSpendable engine spendInfo = .ok T ∧
    engine.makeSpend spendInfo.currencyCode
      ({ first with nativeAmount := some T } :: rest) = true ∧
    ∀ a, T < a → engine.makeSpend spendInfo.currencyCode
      ({ first with nativeAmount := some a } :: rest) = false := by
  refine ⟨?_, (hspend T).2 (le_refl T), ?_⟩
  · unfold getMaxSpendable
    simp only [hbalance, htargets]
    exact getMax_threshold engine spendInfo.currencyCode first rest T hspend _
      first.nativeAmount 0 (B + 1) rfl hT (by omega)
  · intro a ha
    cases h : engine.makeSpend spendInfo.currencyCode
      ({ first with nativeAmount := some a } :: rest) with
    | false => rfl
    | true => exact absurd ((hspend a).1 h) (by omega)

/-- C27 on the test of `currency.test.js`: with a balance of 50 and one spend
target, the fake engine accepts the amounts up to 50, and the largest
spendable amount is 50. -/
theorem getMaxSpendable_largest_witness :
    getMaxSpendable (fakeEngine 50 0)
      { currencyCode := some "TEST", spendTargets := [{}] } = .ok 50 ∧
    (fakeEngine 50 0).makeSpend (some "TEST") [{ nativeAmount := some 50 }] = true ∧
    ∀ a, (50 : Int) < a →
      (fakeEngine 50 0).makeSpend (some "TEST") [{ nativeAmount := some a }] = false :=
  getMaxSpendable_largest (fakeEngine 50 0)
    { currencyCode := some "TEST", spendTargets := [{}] } 50 50 { nativeAmount := some 0 } []
    rfl rfl (by decide) (by decide) (fun a => by simp [fakeEngine])

/-! ## The BitID wallet of a login -/

/-- The BitID wallet is synthesised under the field `menemonicBox` only: a
stash node without that field gets no legacy wallet, whatever its
`mnemonicBox` and `rootKeyBox`. -/
theorem bitidKeys_without_menemonicBox (c : Codec) (stash : StashData) (loginKey : Bytes)
    (h : stash.menemonicBox = none) : bitidKeys c stash loginKey = .ok [] := by
  unfold bitidKeys
  rw [h]

/-- A stash node that `applyLoginReplyInner` builds has no `menemonicBox`. -/
theorem replyFields_menemonicBox (c : Codec) (stash : StashData) (loginKey : Bytes)
    (reply : ReplyData) (out : StashData) (h : replyFields c stash loginKey reply = .ok out) :
    out.menemonicBox = none := by
  obtain ⟨pin2Key, recovery2Key, -, -, rfl⟩ := replyFields_ok c stash loginKey reply out h
  rfl

/-- C28 at a failing input: the server sends a `mnemonicBox` and a
`rootKeyBox`, `applyLoginReply` stores both in the stash node, and
`makeLoginTree` derives that node with no key info at all: it tests the field
`menemonicBox`, which the node does not have. -/
theorem makeLoginTree_drops_bitid_wallet :
    applyLoginReply fakeCodec soloStash rootKey bitidReply = .ok bitidStash ∧
    bitidStash.data.mnemonicBox = some (fakeCodec.encrypt (fakeCodec.utf8Parse "words") rootKey) ∧
    bitidStash.data.rootKeyBox = some (fakeCodec.encrypt [9, 9] rootKey) ∧
    fakeCodec.decrypt (fakeCodec.encrypt (fakeCodec.utf8Parse "words") rootKey) rootKey =
      .ok (fakeCodec.utf8Parse "words") ∧
    fakeCodec.decrypt (fakeCodec.encrypt [9, 9] rootKey) rootKey = .ok [9, 9] ∧
    makeLoginTree fakeCodec bitidStash rootKey "" = .ok soloTree ∧
    soloTree.data.keyInfos = some [] :=
  ⟨rfl, rfl, rfl, rfl, rfl, rfl, rfl⟩

/-! ## The older `mergeKeyInfos` -/

/-- The older `mergeKeyInfos` throws a `TypeError` at a record whose id it has
seen with the same type. -/
theorem mergeStepOld_seen (parseLen : String → Option Nat) (st : OldMergeState)
    (info : KeyInfo) (id : String) (keys : List (String × JVal))
    (hid : info.id = some id) (hlen : parseLen id = some 32)
    (hseen : objGet st.keys id = some keys) (htype : objGet st.types id = some info.type) :
    mergeStepOld parseLen st info = .error .notAFunction := by
  simp [mergeStepOld, hid, hlen, hseen, htype]

/-- C29 at a failing input: two records with the same valid id and the same
type, one with a data key and one with a sync key. The newer `mergeKeyInfos`
returns one record with both keys; the older one throws a `TypeError`. A list
without a repeated id is returned by both. -/
theorem mergeKeyInfosOld_throws_on_repeated_id :
    mergeKeyInfos base64Length [walletData, walletSync] = .ok [walletBoth] ∧
    mergeKeyInfosOld base64Length [walletData, walletSync] = .error .notAFunction ∧
    mergeKeyInfos base64Length [walletData, walletOther] = .ok [walletData, walletOther] ∧
    mergeKeyInfosOld base64Length [walletData, walletOther] = .ok [walletData, walletOther] :=
  ⟨rfl, rfl, rfl, rfl⟩

/-! ## Refreshing a login -/

/-- What a successful `syncLogin` has done: it saved the stash that
`applyLoginReply` made of the stored stash and the reply, and it returned the
tree that `makeLoginTree` derives from the stored stash as it was loaded. -/
theorem syncLogin_ok_inv {S D : Type} (c : Codec) (env : SyncEnv S D) (server server' : S)
    (store store' : D) (loginTree newLoginTree : TreeNode LoginData) (login : LoginData)
    (loginKey : Bytes)
    (hok : syncLogin c env server store loginTree login loginKey =
      (.ok newLoginTree, server', store')) :
    ∃ stashTree request reply newStashTree,
      env.load store loginTree.data.username = .ok stashTree ∧
      makeAuthJson env.stringify login = .ok request ∧
      (env.authRequest server "POST" "/v2/login" request).1 = .ok reply ∧
      applyLoginReply c stashTree loginKey reply = .ok newStashTree ∧
      env.save store newStashTree = .ok store' ∧
      makeLoginTree c stashTree loginKey (login.appId.getD "") = .ok newLoginTree := by
  unfold syncLogin at hok
  cases hload : env.load store loginTree.data.username with
  | error message => simp [hload] at hok
  | ok stashTree =>
    cases hauth : makeAuthJson env.stringify login with
    | error e => simp [hload, hauth] at hok
    | ok request =>
      cases hreq : (env.authRequest server "POST" "/v2/login" request).1 with
      | error message => simp [hload, hauth, hreq] at hok
      | ok reply =>
        cases hreply : applyLoginReply c stashTree loginKey reply with
        | error e => simp [hload, hauth, hreq, hreply] at hok
        | ok newStashTree =>
          cases htree : makeLoginTree c stashTree loginKey (login.appId.getD "") with
          | error e => simp [hload, hauth, hreq, hreply, htree] at hok
          | ok tree =>
            cases hsave : env.save store newStashTree with
            | error message => simp [hload, hauth, hreq, hreply, htree, hsave] at hok
            | ok store2 =>
              simp only [hload, hauth, hreq, hreply, htree, hsave] at hok
              have h1 := (Prod.mk.inj hok).1
              have h3 := (Prod.mk.inj (Prod.mk.inj hok).2).2
              exact ⟨stashTree, request, reply, newStashTree, rfl, rfl, hreq, hreply,
                by rw [← h3]; exact hsave, by rw [← Except.ok.inj h1]; exact htree⟩

/-- C21 at a failing input: the stored stash is `soloStash` and the server
replies with a key box that the stash does not have. `syncLogin` saves the
stash with the new key box, from which `makeLoginTree` derives the key info
`walletOther`; the tree that `syncLogin` returns is the one derived from the
stash as it was, without that key info. -/
theorem syncLogin_returns_tree_of_old_stash :
    applyLoginReply fakeCodec soloStash rootKey keyBoxReply = .ok keyBoxStash ∧
    makeLoginTree fakeCodec keyBoxStash rootKey "" = .ok keyBoxTree ∧
    keyBoxTree.data.keyInfos = some [walletOther] ∧
    syncLogin fakeCodec syncEnv keyBoxReply (some soloStash) soloTree soloTree.data rootKey =
      (.ok soloTree, keyBoxReply, some keyBoxStash) ∧
    soloTree.data.keyInfos = some [] ∧
    makeLoginTree fakeCodec soloStash rootKey "" = .ok soloTree :=
  ⟨rfl, rfl, rfl, rfl, rfl, rfl⟩

/-! ## Password login -/

/-- C23: the login key is derived again from the password and the stored
parameters. Assume that `decrypt` undoes `encrypt` under the same key; `scrypt`
is a function. For every login key, login id, username and password, a stash
that holds the `passwordBox` and the `passwordKeySnrp` of the stash part of
`makePasswordKit` makes `extractLoginKey` return the login key for that
username and password; and the server payload of the kit carries the
`passwordKeySnrp`, `passwordBox` and `passwordAuthBox` of its stash part. -/
theorem makePasswordKit_recovers_loginKey (c : Codec) (p : PasswordEnv) (passwordKeySnrp : Snrp)
    (loginKey : Bytes) (loginId username password : String) (stash : StashData)
    (hdec : ∀ m k, c.decrypt (c.encrypt m k) k = .ok m)
    (hbox : stash.passwordBox =
      (makePasswordKit c p passwordKeySnrp loginKey loginId username password).stash.fields.passwordBox)
    (hsnrp : stash.passwordKeySnrp =
      (makePasswordKit c p passwordKeySnrp loginKey loginId username
        password).stash.fields.passwordKeySnrp) :
    extractLoginKey c p stash username password = .ok loginKey ∧
    (makePasswordKit c p passwordKeySnrp loginKey loginId username
      password).stash.fields.passwordKeySnrp =
      some (makePasswordKit c p passwordKeySnrp loginKey loginId username
        password).server.passwordKeySnrp ∧
    (makePasswordKit c p passwordKeySnrp loginKey loginId username
      password).stash.fields.passwordBox =
      some (makePasswordKit c p passwordKeySnrp loginKey loginId username
        password).server.passwordBox ∧
    (makePasswordKit c p passwordKeySnrp loginKey loginId username
      password).stash.fields.passwordAuthBox =
      some (makePasswordKit c p passwordKeySnrp loginKey loginId username
        password).server.passwordAuthBox := by
  refine ⟨?_, rfl, rfl, rfl⟩
  unfold extractLoginKey
  rw [hbox, hsnrp]
  simp only [makePasswordKit, hdec]

/-- C23 under the simulated codec and password environment: the stash part
of the kit for `alice` gives back the login key for the same password, and
not for another one. -/
theorem makePasswordKit_recovers_loginKey_witness :
    extractLoginKey fakeCodec fakePassword
      (makePasswordKit fakeCodec fakePassword sampleSnrp rootKey "root" "Alice"
        "CorrectHorse93!").stash.fields "Alice" "CorrectHorse93!" = .ok rootKey ∧
    extractLoginKey fakeCodec fakePassword
      (makePasswordKit fakeCodec fakePassword sampleSnrp rootKey "root" "Alice"
        "CorrectHorse93!").stash.fields "Alice" "wrong" = .error (.decryptFailed "wrong key") ∧
    extractLoginKey fakeCodec fakePassword {} "Alice" "CorrectHorse93!" = .error .missingData :=
  ⟨(makePasswordKit_recovers_loginKey fakeCodec fakePassword sampleSnrp rootKey "root" "Alice"
      "CorrectHorse93!" _ (fun m k => by simp [fakeCodec]) rfl rfl).1,
    rfl, rfl⟩

/-! ## Creating a login -/

/-- The tree that `makeLoginTree` derives from a root stash node without
children that holds a `loginAuthBox` and a `passwordAuthBox` made under the
login key, no user id, no legacy box and no key box. -/
theorem makeLoginTree_fresh_root (c : Codec) (loginKey loginAuth passwordAuth : Bytes)
    (loginId : String) (pin2Key : Option Bytes) (stash : StashData)
    (hdec : ∀ m k, c.decrypt (c.encrypt m k) k = .ok m)
    (happ : stash.appId = some "") (hid : stash.loginId = some loginId)
    (hauth : stash.loginAuthBox = some (c.encrypt loginAuth loginKey))
    (hpassword : stash.passwordAuthBox = some (c.encrypt passwordAuth loginKey))
    (huser : stash.userId = none) (hpin : parseOptional c stash.pin2Key = .ok pin2Key)
    (hrecovery : stash.recovery2Key = none) (hmnemonic : stash.menemonicBox = none)
    (hsync : stash.syncKeyBox = none) (hboxes : stash.keyBoxes = none) :
    makeLoginTree c (.node stash []) loginKey "" =
      .ok (.node
        { username := stash.username, appId := some "", loginId := some loginId,
          loginKey := some loginKey, userId := some loginId, loginAuth := some loginAuth,
          passwordAuth := some passwordAuth, pin2Key := pin2Key, recovery2Key := none,
          keyInfos := some [] } []) := by
  have hfields : loginFields c stash loginKey =
      .ok { username := stash.username, appId := some "", loginId := some loginId,
            loginKey := some loginKey, userId := some loginId, loginAuth := some loginAuth,
            passwordAuth := some passwordAuth, pin2Key := pin2Key, recovery2Key := none,
            keyInfos := some [] } := by
    have hb : bitidKeys c stash loginKey = .ok [] :=
      bitidKeys_without_menemonicBox c stash loginKey hmnemonic
    have ha : accountKeys c stash "" loginKey = .ok [] := by
      unfold accountKeys
      rw [hsync]
    have hm : mergeKeyInfos c.parseLen [] = .ok [] := rfl
    have hr : parseOptional c none = .ok none := rfl
    unfold loginFields
    simp only [bind, Except.bind, pure, Except.pure, throw, throwThe, MonadExceptOf.throw,
      happ, hid, hauth, hpassword, huser, hpin, hrecovery, hr, hb, ha, hboxes, decryptOptional,
      decryptBox, hdec, Option.getD_none, decodeKeyBoxes, List.append_nil, hm]
  unfold makeLoginTree
  rw [updateTree]
  have hp : stashHasAppId "" (.node stash []) = true := (stashHasAppId_iff "" _).2 happ
  simp only [hp, if_true]
  exact makeLoginTreeInner_intro c stash [] loginKey _ [] hfields rfl (Or.inl (by simp))

/-- The kit that `makeCreateKit` makes for a root login with a password and
no key info, when the PIN kit, if any, sets the PIN key and nothing else. -/
theorem makeCreateKit_password {S D Q : Type} (c : Codec) (env : CreateEnv S D Q)
    (random : CreateRandom) (name password : String) (opts : LoginCreateOpts)
    (hpassword : opts.password = some password) (hkey : opts.keyInfo = none)
    (hpin : ∀ pin, opts.pin = some pin → ∃ stashKey loginKey bytes,
      (env.makePin2Kit random.loginKey name pin).stash = { pin2Key := stashKey } ∧
      (env.makePin2Kit random.loginKey name pin).login = { pin2Key := loginKey } ∧
      parseOptional c stashKey = .ok bytes) :
    ∃ kit stashKey loginKey bytes,
      makeCreateKit c env random none "" name opts = .ok kit ∧
      parseOptional c stashKey = .ok bytes ∧
      kit.stash =
        { appId := some ""
          loginAuthBox := some (c.encrypt random.loginAuth random.loginKey)
          loginId := some (c.base64Stringify (env.hashUsername name))
          passwordKeySnrp := some random.passwordKeySnrp
          passwordBox := some (c.encrypt random.loginKey
            (env.password.scrypt (makeHashInput env.password name password)
              random.passwordKeySnrp))
          passwordAuthBox := some (c.encrypt
            (env.password.scrypt (makeHashInput env.password name password)
              env.password.passwordAuthSnrp) random.loginKey)
          pin2Key := stashKey } ∧
      kit.login =
        { appId := some ""
          loginAuth := some random.loginAuth
          loginId := some (c.base64Stringify (env.hashUsername name))
          loginKey := some random.loginKey
          keyInfos := some []
          passwordAuth := some (env.password.scrypt (makeHashInput env.password name password)
            env.password.passwordAuthSnrp)
          pin2Key := loginKey } := by
  cases hp : opts.pin with
  | none =>
    cases hk : makeCreateKit c env random none "" name opts with
    | error e => simp [makeCreateKit, hpassword, hkey, hp] at hk
    | ok kit =>
      simp only [makeCreateKit, hpassword, hkey, hp, Option.map] at hk
      have hkit := Except.ok.inj hk
      refine ⟨kit, none, none, none, rfl, rfl, ?_, ?_⟩
      · rw [← hkit]
        rfl
      · rw [← hkit]
        rfl
  | some pin =>
    obtain ⟨stashKey, loginKey, bytes, hstash, hlogin, hparse⟩ := hpin pin hp
    cases hk : makeCreateKit c env random none "" name opts with
    | error e => simp [makeCreateKit, hpassword, hkey, hp] at hk
    | ok kit =>
      simp only [makeCreateKit, hpassword, hkey, hp, Option.map] at hk
      have hkit := Except.ok.inj hk
      refine ⟨kit, stashKey, loginKey, bytes, rfl, hparse, ?_, ?_⟩
      · rw [← hkit]
        simp only [Option.getD, hstash]
        cases stashKey <;> rfl
      · rw [← hkit]
        simp only [Option.getD, hlogin]
        cases loginKey <;> rfl

/-- C24: the login that `createLogin` returns mirrors the stash it saves.
Assume that `decrypt` undoes `encrypt` under the same key, and that the PIN
kit, when a PIN is given, sets a PIN key that base64 parses and nothing else.
For every username and options with a password and no key info, when
`createLogin` succeeds, `makeLoginTree` of the stash it saved, under the new
login key, returns a tree whose root has the `appId` `''`, the `loginId`,
`loginKey`, `loginAuth`, `passwordAuth` and `username` of the login returned;
`passwordAuth` is not null, and `keyInfos` is empty on both. -/
theorem createLogin_mirrors_stash {S D Q : Type} (c : Codec) (env : CreateEnv S D Q)
    (random : CreateRandom) (server server' : S) (store store' : D)
    (username password : String) (opts : LoginCreateOpts) (login : TreeNode LoginData)
    (hdec : ∀ m k, c.decrypt (c.encrypt m k) k = .ok m)
    (hpassword : opts.password = some password) (hkey : opts.keyInfo = none)
    (hpin : ∀ pin, opts.pin = some pin → ∃ stashKey loginKey bytes,
      (env.makePin2Kit random.loginKey (env.password.fixUsername username) pin).stash =
        { pin2Key := stashKey } ∧
      (env.makePin2Kit random.loginKey (env.password.fixUsername username) pin).login =
        { pin2Key := loginKey } ∧
      parseOptional c stashKey = .ok bytes)
    (hok : createLogin c env random server store username opts = (.ok login, server', store')) :
    ∃ stash tree, env.save store stash = .ok store' ∧
      makeLoginTree c stash random.loginKey "" = .ok tree ∧
      tree.data.appId = some "" ∧ login.data.appId = some "" ∧
      tree.data.loginId = login.data.loginId ∧
      tree.data.loginKey = some random.loginKey ∧ login.data.loginKey = some random.loginKey ∧
      tree.data.loginAuth = login.data.loginAuth ∧
      tree.data.passwordAuth = login.data.passwordAuth ∧ login.data.passwordAuth ≠ none ∧
      tree.data.username = login.data.username ∧
      tree.data.keyInfos = some [] ∧ login.data.keyInfos = some [] := by
  obtain ⟨kit, stashKey, pinKey, bytes, hkit, hparse, hstash, hlogin⟩ :=
    makeCreateKit_password c env random (env.password.fixUsername username) password opts
      hpassword hkey hpin
  unfold createLogin at hok
  simp only [hkit] at hok
  cases hreq : (env.authRequest server "POST" kit.serverPath kit.server).1 with
  | error message => simp [hreq] at hok
  | ok reply =>
    simp only [hreq] at hok
    cases hsave : env.save store
        (.node { kit.stash with username := some (env.password.fixUsername username) } []) with
    | error message => simp [hsave] at hok
    | ok store2 =>
      simp only [hsave] at hok
      have h1 := Except.ok.inj (Prod.mk.inj hok).1
      have h3 := (Prod.mk.inj (Prod.mk.inj hok).2).2
      have happ : kit.stash.appId = some "" := by rw [hstash]
      have hid : kit.stash.loginId =
          some (c.base64Stringify (env.hashUsername (env.password.fixUsername username))) := by
        rw [hstash]
      have hauth : kit.stash.loginAuthBox =
          some (c.encrypt random.loginAuth random.loginKey) := by rw [hstash]
      have hpw : kit.stash.passwordAuthBox =
          some (c.encrypt (env.password.scrypt
            (makeHashInput env.password (env.password.fixUsername username) password)
            env.password.passwordAuthSnrp) random.loginKey) := by rw [hstash]
      have huser : kit.stash.userId = none := by rw [hstash]
      have hpin2 : parseOptional c kit.stash.pin2Key = .ok bytes := by
        rw [hstash]
        exact hparse
      have hrec : kit.stash.recovery2Key = none := by rw [hstash]
      have hmn : kit.stash.menemonicBox = none := by rw [hstash]
      have hsync : kit.stash.syncKeyBox = none := by rw [hstash]
      have hboxes : kit.stash.keyBoxes = none := by rw [hstash]
      have htree := makeLoginTree_fresh_root c random.loginKey random.loginAuth _ _ bytes
        { kit.stash with username := some (env.password.fixUsername username) } hdec
        happ hid hauth hpw huser hpin2 hrec hmn hsync hboxes
      refine ⟨_, _, by rw [← h3]; exact hsave, htree, rfl, ?_, ?_, rfl, ?_, ?_, ?_, ?_, ?_, rfl,
        ?_⟩
      all_goals rw [← h1]
      all_goals simp only [TreeNode.data, hlogin]
      all_goals simp

/-- C24 under the simulated codec: the login of `Alice` is created with a
password and a PIN; the stash saved derives the login returned. -/
theorem createLogin_mirrors_stash_witness :
    (createLogin fakeCodec createEnv createRandom [] none "Alice" aliceOpts).1 =
      .ok aliceLogin ∧
    ∃ stash tree,
      createEnv.save none stash =
        .ok (createLogin fakeCodec createEnv createRandom [] none "Alice" aliceOpts).2.2 ∧
      makeLoginTree fakeCodec stash createRandom.loginKey "" = .ok tree ∧
      tree.data.appId = some "" ∧ aliceLogin.data.appId = some "" ∧
      tree.data.loginId = aliceLogin.data.loginId ∧
      tree.data.loginKey = some createRandom.loginKey ∧
      aliceLogin.data.loginKey = some createRandom.loginKey ∧
      tree.data.loginAuth = aliceLogin.data.loginAuth ∧
      tree.data.passwordAuth = aliceLogin.data.passwordAuth ∧
      aliceLogin.data.passwordAuth ≠ none ∧
      tree.data.username = aliceLogin.data.username ∧
      tree.data.keyInfos = some [] ∧ aliceLogin.data.keyInfos = some [] :=
  ⟨rfl,
    createLogin_mirrors_stash fakeCodec createEnv createRandom []
      (createLogin fakeCodec createEnv createRandom [] none "Alice" aliceOpts).2.1 none
      (createLogin fakeCodec createEnv createRandom [] none "Alice" aliceOpts).2.2
      "Alice" "CorrectHorse93!" aliceOpts aliceLogin (fun m k => by simp [fakeCodec]) rfl rfl
      (fun pin _ => ⟨some "AAAA", some [0, 0, 0], some [0, 0, 0], rfl, rfl, rfl⟩) rfl⟩

/-- What a successful step of the older `mergeKeyInfos` has done: the record
has an id that the table did not hold, and the table now holds it beside what
it held. -/
theorem mergeStepOld_ok (parseLen : String → Option Nat) (st st' : OldMergeState)
    (info : KeyInfo) (h : mergeStepOld parseLen st info = .ok st') :
    ∃ id, info.id = some id ∧ objGet st.keys id = none ∧
      (objGet st'.keys id).isSome = true ∧
      ∀ other, (objGet st.keys other).isSome = true → (objGet st'.keys other).isSome = true := by
  unfold mergeStepOld at h
  cases hid : info.id with
  | none => simp [hid] at h
  | some id =>
    simp only [hid] at h
    cases hlen : parseLen id with
    | none => simp [hlen] at h
    | some len =>
      simp only [hlen] at h
      by_cases h32 : len ≠ 32
      · simp [h32] at h
      · simp only [h32, if_false] at h
        cases hseen : objGet st.keys id with
        | some keys =>
          simp only [hseen] at h
          split at h <;> cases h
        | none =>
          simp only [hseen] at h
          have hst := Except.ok.inj h
          refine ⟨id, rfl, hseen, ?_, ?_⟩
          · rw [← hst]
            simp [objGet_objSet_same]
          · intro other hother
            rw [← hst]
            by_cases hne : other = id
            · rw [hne]
              simp [objGet_objSet_same]
            · simpa [objGet_objSet_other _ _ _ _ hne] using hother

theorem mergeLoopOld_nodup (parseLen : String → Option Nat) :
    ∀ (l : List KeyInfo) (st st' : OldMergeState), mergeLoopOld parseLen st l = .ok st' →
      (l.map KeyInfo.id).Nodup ∧
      ∀ r ∈ l, ∀ id, r.id = some id → objGet st.keys id = none := by
  intro l
  induction l with
  | nil => intro st st' _; simp
  | cons info rest ih =>
    intro st st' h
    rw [mergeLoopOld] at h
    cases hstep : mergeStepOld parseLen st info with
    | error e => simp [hstep] at h
    | ok st1 =>
      simp only [hstep] at h
      obtain ⟨id, hid, hnew, hheld, hmono⟩ := mergeStepOld_ok parseLen st st1 info hstep
      obtain ⟨hnodup, hfresh⟩ := ih st1 st' h
      refine ⟨?_, ?_⟩
      · rw [List.map_cons, List.nodup_cons]
        refine ⟨?_, hnodup⟩
        intro hmem
        obtain ⟨r, hr, hrid⟩ := List.mem_map.1 hmem
        have := hfresh r hr id (hrid.trans hid)
        rw [this] at hheld
        cases hheld
      · intro r hr id' hrid
        rcases List.mem_cons.1 hr with rfl | hr'
        · rw [hid] at hrid
          rw [← Option.some.inj hrid]
          exact hnew
        · have hnone := hfresh r hr' id' hrid
          cases hold : objGet st.keys id' with
          | none => rfl
          | some keys =>
            have := hmono id' (by rw [hold]; rfl)
            rw [hnone] at this
            cases this

/-- The older `mergeKeyInfos` returns on no list with a repeated id: when it
returns, the ids of its input are pairwise distinct. -/
theorem mergeKeyInfosOld_ok_nodup (parseLen : String → Option Nat) (l out : List KeyInfo)
    (h : mergeKeyInfosOld parseLen l = .ok out) : (l.map KeyInfo.id).Nodup := by
  unfold mergeKeyInfosOld at h
  cases hloop : mergeLoopOld parseLen { ids := [], keys := [], types := [] } l with
  | error e => simp [hloop] at h
  | ok st => exact (mergeLoopOld_nodup parseLen l _ st hloop).1

end EdgeCore
